import Mathlib

/-!
# LSB image steganography: embedding of `encode.c` / `decode.c`

The C sources hide a secret file in the least-significant bits of the pixel
bytes of a BMP image and read it back.  This file translates the functions
of `encode.c` and `decode.c` into Lean and proves properties of them.

Conventions of the translation.

* A byte in memory or in a file is a natural number below 256; a file is the
  list of its bytes; a stream that is being read is the list of the bytes not
  yet consumed.
* An `int` or `uint` is represented by its 32-bit pattern, a natural number
  below `2 ^ 32`; `int_val` gives the signed value of a pattern.  `char` is
  signed (as on x86-64), so the integer promotion of a `char` sign-extends.
* A local array or heap block that the C code does not initialise starts with
  indeterminate contents; these contents are explicit arguments, and every
  theorem holds for all of them.
* `types.h`, `common.h` and `encode.h` are not among the sources.  The
  constant `MAGIC_STRING` is an argument of every function that uses it; the
  member `size_secret_file` of `EncodeInfo` holds the `uint` returned by
  `get_file_size`.
* The functions are translated for runs in which `malloc` succeeds and the
  files that are read open.  Whether `fopen` opens the output file of
  `do_decoding` under a given name is an argument of `do_decoding`.  A run
  that has no defined result in C (a store through `NULL` or outside a block)
  has the result `none`.
-/

namespace Stego

/-- The two results of type `Status` (declared in `types.h`). -/
inductive Status where
  | e_success
  | e_failure
deriving DecidableEq

/-- The three results of type `OperationType` (declared in `types.h`). -/
inductive OperationType where
  | e_encode
  | e_decode
  | e_unsupported
deriving DecidableEq

open Status

/-! ## Machine integers -/

/-- Integer promotion of an `unsigned char` holding the byte `b`. -/
def zext8 (b : Nat) : Nat := b % 256

/-- Integer promotion of a (signed) `char` holding the byte `b`: the 32-bit
two's-complement pattern of the sign-extended value. -/
def sext8 (b : Nat) : Nat := if b % 256 < 128 then b % 256 else b % 256 + (2 ^ 32 - 256)

/-- Bitwise complement `~x` of an `int`. -/
def not32 (x : Nat) : Nat := 2 ^ 32 - 1 - x % 2 ^ 32

/-- Right shift `x >> i` of a signed `int` (arithmetic shift), `i < 32`. -/
def sar32 (x i : Nat) : Nat :=
  if x < 2 ^ 31 then x >>> i else (x >>> i) + (2 ^ 32 - 2 ^ (32 - i))

/-- Left shift `x << i` of an `int`, keeping the low 32 bits. -/
def shl32 (x i : Nat) : Nat := (x <<< i) % 2 ^ 32

/-- Conversion of an `int` to `char` or `unsigned char`: the low byte. -/
def to_char (x : Nat) : Nat := x % 256

/-- Conversion to `uint` (or to `int`, as a pattern): the low 32 bits. -/
def to_uint (x : Nat) : Nat := x % 2 ^ 32

/-- The signed value of the 32-bit pattern of an `int`. -/
def int_val (p : Nat) : Int :=
  if p % 2 ^ 32 < 2 ^ 31 then ((p % 2 ^ 32 : Nat) : Int) else ((p % 2 ^ 32 : Nat) : Int) - 2 ^ 32

/-- Number of iterations of `for (int i = 0; i < size; i++)`. -/
def loop_count (size : Nat) : Nat := (int_val size).toNat

/-- The `uint` stored in four bytes of memory (little-endian host). -/
def le32 (b : List Nat) : Nat :=
  b.getD 0 0 % 256 + 256 * (b.getD 1 0 % 256) + 65536 * (b.getD 2 0 % 256)
    + 16777216 * (b.getD 3 0 % 256)

/-! ## C strings and streams -/

/-- The characters of the C string that starts at `s`: everything before the
first NUL. -/
def cstr (s : List Nat) : List Nat := s.takeWhile (fun b => b != 0)

/-- The C function `strlen`. -/
def strlen (s : List Nat) : Nat := (cstr s).length

/-- The tail of `s` from the first occurrence of the character `c` on. -/
def find_char (c : Nat) : List Nat → Option (List Nat)
  | [] => none
  | b :: s => if b = c then some (b :: s) else find_char c s

/-- The call `strstr(s, ".")`: the part of the string `s` from its first `.`
(character 46) on, or `none` for `NULL`. -/
def strstr_dot (s : List Nat) : Option (List Nat) := find_char 46 (cstr s)

/-- The string left in the buffer `s` by the call `strtok(s, ".")`: the
leading `.` characters are skipped and stay in place, and the first `.` after
the token, if there is one, is overwritten by a NUL.  A string without a
token (empty, or only `.`) is left as it is. -/
def strtok_dot (s : List Nat) : List Nat :=
  (cstr s).takeWhile (fun b => b == 46) ++
    ((cstr s).dropWhile (fun b => b == 46)).takeWhile (fun b => b != 46)

/-- The tail of `s` from the first position at which `needle` starts. -/
def find_sub (needle : List Nat) : List Nat → Option (List Nat)
  | [] => if needle = [] then some [] else none
  | b :: s =>
    if (b :: s).take needle.length = needle then some (b :: s) else find_sub needle s

/-- The C function `strstr`: the part of the string `haystack` from the first
occurrence of the string `needle` on, or `none` for `NULL`. -/
def strstr (haystack needle : List Nat) : Option (List Nat) :=
  find_sub (cstr needle) (cstr haystack)

/-- The C function `tolower` on a byte (C locale): `A`..`Z` become `a`..`z`. -/
def tolower (c : Nat) : Nat := if 65 ≤ c ∧ c ≤ 90 then c + 32 else c

/-- The `char` that `s[i]` reads from the C string `s`: a character of the
string, its terminating NUL, or (past the terminator) the indeterminate byte
`past`. -/
def char_at (s : List Nat) (i : Nat) (past : Nat) : Nat :=
  if i < strlen s then (cstr s).getD i 0 else if i = strlen s then 0 else past

/-- An uninitialised array of `n` bytes whose indeterminate contents are
`indet`. -/
def local_array (n : Nat) (indet : List Nat) : List Nat :=
  (indet ++ List.replicate n 0).take n

/-- The call `fread(ptr, ...)` asking for `n` bytes in all: the bytes that
the stream still has (at most `n`) are stored at the start of `ptr`, the rest
of `ptr` keeps its contents.  Returns the buffer and the stream afterwards. -/
def fread (ptr : List Nat) (n : Nat) (stream : List Nat) : List Nat × List Nat :=
  (stream.take n ++ ptr.drop (stream.take n).length, stream.drop n)

/-- The bytes that `fwrite(ptr, ...)` appends when asked to write `n` bytes. -/
def fwrite (ptr : List Nat) (n : Nat) : List Nat := ptr.take n

/-! ## encode.c -/

/-- The function `get_file_size`: `ftell` at the end of the file, stored in a
`uint`. -/
def get_file_size (file : List Nat) : Nat := to_uint file.length

/-- The function `get_image_size_for_bmp`: seeks to offset 18, reads `width`
and `height` and returns `width * height * 3` as a `uint`.  `w0` and `h0` are
the indeterminate initial contents of the two locals. -/
def get_image_size_for_bmp (w0 h0 : List Nat) (image : List Nat) : Nat :=
  let r1 := fread (local_array 4 w0) 4 (image.drop 18)
  let r2 := fread (local_array 4 h0) 4 r1.2
  to_uint (le32 r1.1 * le32 r2.1 * 3)

/-- The function `encode_byte_to_lsb`:
`image_buffer[i] = (image_buffer[i] & (~1)) | ((data >> i) & 1)` for
`i = 0 .. 7`. -/
def encode_byte_to_lsb (data : Nat) (image_buffer : List Nat) : List Nat :=
  (List.range 8).foldl
    (fun buf i =>
      buf.set i (to_char ((sext8 (buf.getD i 0) &&& not32 1) ||| (sar32 (sext8 data) i &&& 1))))
    image_buffer

/-- The function `encode_size_to_lsb`:
`image_buffer[i] = (image_buffer[i] & (~1)) | ((size >> i) & 1)` for
`i = 0 .. 31`; `size` is the pattern of the `int` argument. -/
def encode_size_to_lsb (size : Nat) (image_buffer : List Nat) : List Nat :=
  (List.range 32).foldl
    (fun buf i =>
      buf.set i (to_char ((sext8 (buf.getD i 0) &&& not32 1) ||| (sar32 size i &&& 1))))
    image_buffer

/-- The loop of `encode_data_to_image`, `n` iterations from index `i` on:
read 8 bytes of the source image into `arr`, encode `data[i]`, write the 8
bytes of `arr`.  Returns the bytes written and the source stream afterwards. -/
def encode_data_loop (data : List Nat) :
    Nat → Nat → List Nat → List Nat → List Nat × List Nat
  | 0, _, src, _ => ([], src)
  | n + 1, i, src, arr =>
    let r := fread arr 8 src
    let arr2 := encode_byte_to_lsb (data.getD i 0) r.1
    let rest := encode_data_loop data n (i + 1) r.2 arr2
    (fwrite arr2 8 ++ rest.1, rest.2)

/-- The function `encode_data_to_image`; `size` is the pattern of its `int`
argument and `arr0` the indeterminate contents of its local `arr[8]`. -/
def encode_data_to_image (data : List Nat) (size : Nat) (src : List Nat) (arr0 : List Nat) :
    List Nat × List Nat :=
  encode_data_loop data (loop_count size) 0 src (local_array 8 arr0)

/-- The function `encode_magic_string`: encodes the characters of
`MAGIC_STRING` (its parameter `magic_string` is not used). -/
def encode_magic_string (MAGIC_STRING : List Nat) (src : List Nat) (arr0 : List Nat) :
    List Nat × List Nat :=
  encode_data_to_image MAGIC_STRING (to_uint (strlen MAGIC_STRING)) src arr0

/-- The function `encode_secret_file_extn`. -/
def encode_secret_file_extn (file_extn : List Nat) (src : List Nat) (arr0 : List Nat) :
    List Nat × List Nat :=
  encode_data_to_image file_extn (to_uint (strlen file_extn)) src arr0

/-- The function `encode_secret_file_extn_size`: read 32 bytes of the source
image, encode the `int`, write the 32 bytes.  Returns the bytes written and
the source stream afterwards. -/
def encode_secret_file_extn_size (size : Nat) (src : List Nat) (arr0 : List Nat) :
    List Nat × List Nat :=
  let r := fread (local_array 32 arr0) 32 src
  (fwrite (encode_size_to_lsb size r.1) 32, r.2)

/-- The function `encode_secret_file_size` (same body as
`encode_secret_file_extn_size`). -/
def encode_secret_file_size (file_size : Nat) (src : List Nat) (arr0 : List Nat) :
    List Nat × List Nat :=
  let r := fread (local_array 32 arr0) 32 src
  (fwrite (encode_size_to_lsb file_size r.1) 32, r.2)

/-- The function `encode_secret_file_data`: reads `size_secret_file` bytes of
the secret file into a fresh heap block (indeterminate contents `block0`;
`malloc` is taken to succeed) and encodes them.  The member
`size_secret_file` holds the `uint` that `get_file_size` returned. -/
def encode_secret_file_data (secret : List Nat) (size_secret_file : Nat) (src : List Nat)
    (block0 arr0 : List Nat) : List Nat × List Nat :=
  let buffer := (fread (local_array size_secret_file block0) size_secret_file secret).1
  encode_data_to_image buffer size_secret_file src arr0

/-- The function `copy_bmp_header`: the 54 bytes it writes, and the source
stream after them.  `buffer0` is the indeterminate contents of `buffer[54]`. -/
def copy_bmp_header (image : List Nat) (buffer0 : List Nat) : List Nat × List Nat :=
  let r := fread (local_array 54 buffer0) 54 image
  (fwrite r.1 54, r.2)

/-- The function `copy_remaining_img_data`: every byte left in the source. -/
def copy_remaining_img_data (src : List Nat) : List Nat := src

/-- The indeterminate initial contents of the locals of one run of
`do_encoding`. -/
structure EncodeIndet where
  width : List Nat
  height : List Nat
  header : List Nat
  arr_magic : List Nat
  arr_extn_size : List Nat
  arr_extn : List Nat
  arr_file_size : List Nat
  block : List Nat
  arr_data : List Nat

/-- What a run of `do_encoding` is given: the contents of the source image and
of the secret file, the name of the secret file, and the bytes held by the
member `extn_secret_file` when `do_encoding` is entered (`main` and
`read_and_validate_encode_args` never store into it). -/
structure EncodeInfo where
  src_image : List Nat
  secret : List Nat
  secret_fname : List Nat
  extn_secret_file : List Nat

/-- The value `required_bytes` of `check_capacity`, a `uint`. -/
def required_bytes (MAGIC_STRING : List Nat) (encInfo : EncodeInfo) : Nat :=
  to_uint (strlen MAGIC_STRING + 32 / 8 + strlen encInfo.extn_secret_file + 32 / 8
    + get_file_size encInfo.secret)

/-- The function `check_capacity`. -/
def check_capacity (MAGIC_STRING : List Nat) (u : EncodeIndet) (encInfo : EncodeInfo) : Status :=
  let image_data_bytes := get_image_size_for_bmp u.width u.height encInfo.src_image
  let image_capacity_for_secret_bytes := image_data_bytes / 8
  if image_capacity_for_secret_bytes ≥ required_bytes MAGIC_STRING encInfo then e_success
  else e_failure

/-- The function `do_encoding`, for a run in which the three files open.
The result is `none` when the run has no defined result (`strcpy` from the
`NULL` that `strstr` returns for a name without `.`); otherwise it is the
returned status and the bytes written to the stego image. -/
def do_encoding (MAGIC_STRING : List Nat) (u : EncodeIndet) (encInfo : EncodeInfo) :
    Option (Status × List Nat) :=
  let size_secret_file := get_file_size encInfo.secret
  if check_capacity MAGIC_STRING u encInfo = e_success then
    let hdr := copy_bmp_header encInfo.src_image u.header
    let mg := encode_magic_string MAGIC_STRING hdr.2 u.arr_magic
    match strstr_dot encInfo.secret_fname with
    | none => none
    | some extn =>
      let es := encode_secret_file_extn_size (to_uint (strlen extn)) mg.2 u.arr_extn_size
      let ex := encode_secret_file_extn extn es.2 u.arr_extn
      let fs := encode_secret_file_size size_secret_file ex.2 u.arr_file_size
      let dt := encode_secret_file_data encInfo.secret size_secret_file fs.2 u.block u.arr_data
      some (e_success,
        hdr.1 ++ mg.1 ++ es.1 ++ ex.1 ++ fs.1 ++ dt.1 ++ copy_remaining_img_data dt.2)
  else
    some (e_failure, [])

/-- The function `check_operation_type`; `argc` is the length of `argv`, and
`past` is the byte after the terminator of `argv[1]` (read when `argv[1]` is
the empty string). -/
def check_operation_type (argv : List (List Nat)) (past : Nat) : OperationType :=
  if argv.length < 2 then OperationType.e_unsupported
  else
    let op := tolower (char_at (argv.getD 1 []) 1 past)
    if op = 101 then OperationType.e_encode
    else if op = 100 then OperationType.e_decode
    else OperationType.e_unsupported

/-- The file names that `read_and_validate_encode_args` stores in `encInfo`. -/
structure EncodeArgs where
  src_image_fname : List Nat
  secret_fname : List Nat
  stego_image_fname : List Nat
deriving DecidableEq

/-- The function `read_and_validate_encode_args`; `argc` is the length of
`argv`.  Returns the status and, on success, the names stored in `encInfo`
(`stego.bmp` when no output name is given). -/
def read_and_validate_encode_args (argv : List (List Nat)) : Status × Option EncodeArgs :=
  if argv.length < 4 ∨ argv.length > 5 then (e_failure, none)
  else if strstr (argv.getD 2 []) [46, 98, 109, 112] = none then (e_failure, none)
  else if strstr (argv.getD 3 []) [46] = none then (e_failure, none)
  else if argv.length = 5 then
    (e_success, some ⟨argv.getD 2 [], argv.getD 3 [], argv.getD 4 []⟩)
  else
    (e_success, some ⟨argv.getD 2 [], argv.getD 3 [], [115, 116, 101, 103, 111, 46, 98, 109, 112]⟩)

/-! ## decode.c -/

/-- The function `decode_byte_from_lsb`: `ch = ch | (image_buffer[i] & 1) << i`
for `i = 0 .. 7`, starting from 0; `ch` is an `unsigned char`. -/
def decode_byte_from_lsb (image_buffer : List Nat) : Nat :=
  (List.range 8).foldl
    (fun ch i => to_char (zext8 ch ||| shl32 (sext8 (image_buffer.getD i 0) &&& 1) i)) 0

/-- The function `decode_size_from_lsb`: `num = num | (buffer[i] & 1) << i`
for `i = 0 .. 31`, starting from 0; the result is the pattern of `num`. -/
def decode_size_from_lsb (buffer : List Nat) : Nat :=
  (List.range 32).foldl
    (fun num i => num ||| shl32 (zext8 (buffer.getD i 0) &&& 1) i) 0

/-- The loop of `decode_data_from_image`, `n` iterations from index `i` on.
Returns the status, the buffer and the stream afterwards. -/
def decode_data_loop :
    Nat → Nat → List Nat → List Nat → List Nat → Status × List Nat × List Nat
  | 0, _, buffer, stream, _ => (e_success, buffer, stream)
  | n + 1, i, buffer, stream, arr =>
    let r := fread arr 8 stream
    if stream.length < 8 then (e_failure, buffer, r.2)
    else decode_data_loop n (i + 1) (buffer.set i (decode_byte_from_lsb r.1)) r.2 r.1

/-- The function `decode_data_from_image`; `size` is the pattern of its `int`
argument and `arr0` the indeterminate contents of its local `arr[8]`. -/
def decode_data_from_image (buffer : List Nat) (size : Nat) (stream : List Nat)
    (arr0 : List Nat) : Status × List Nat × List Nat :=
  decode_data_loop (loop_count size) 0 buffer stream (local_array 8 arr0)

/-- The indeterminate initial contents of the locals and heap blocks of one
run of `do_decoding`. -/
structure DecodeIndet where
  arr_magic : List Nat
  magic_data : List Nat
  buffer_extn_size : List Nat
  arr_extn : List Nat
  extn_secret_file : List Nat
  arr_file_size : List Nat
  arr_data : List Nat

/-- What a run of `do_decoding` leaves behind: the returned status, the
decoded extension (the C string in `extn_secret_file`) and the contents of
the output file when the run ends (no byte when the run does not get to open
it in mode `a`). -/
structure DecodeResult where
  status : Status
  extn : List Nat
  output : List Nat
deriving DecidableEq

/-- The function `decode_magic_string`: seeks to offset 54, decodes
`strlen(MAGIC_STRING)` bytes into a fresh heap block (the status of
`decode_data_from_image` is not looked at), terminates the string and
compares it with `MAGIC_STRING`.  Returns the status and the stream
afterwards. -/
def decode_magic_string (MAGIC_STRING : List Nat) (v : DecodeIndet) (stego : List Nat) :
    Status × List Nat :=
  let magic_data := local_array (strlen MAGIC_STRING + 1) v.magic_data
  let r := decode_data_from_image magic_data (to_uint (strlen MAGIC_STRING)) (stego.drop 54)
    v.arr_magic
  let magic_data := r.2.1.set (strlen MAGIC_STRING) 0
  if cstr magic_data = cstr MAGIC_STRING then (e_success, r.2.2) else (e_failure, r.2.2)

/-- The function `decode_file_extn_size`: the status, the decoded `extn_size`
(a pattern) and the stream afterwards. -/
def decode_file_extn_size (v : DecodeIndet) (stream : List Nat) : Status × Nat × List Nat :=
  let r := fread (local_array 32 v.buffer_extn_size) 32 stream
  if stream.length < 32 then (e_failure, 0, r.2)
  else (e_success, decode_size_from_lsb r.1, r.2)

/-- The function `decode_secret_file_extn`: decodes `file_extn` bytes into a
fresh heap block of `file_extn + 1` bytes (the status of
`decode_data_from_image` is not looked at) and terminates the string.
Returns the decoded C string and the stream afterwards; `none` when
`file_extn` is negative or `file_extn + 1` overflows, where the store of the
terminator has no defined result. -/
def decode_secret_file_extn (file_extn : Nat) (v : DecodeIndet) (stream : List Nat) :
    Option (List Nat × List Nat) :=
  if int_val file_extn < 0 ∨ int_val file_extn = 2 ^ 31 - 1 then none
  else
    let block := local_array (loop_count file_extn + 1) v.extn_secret_file
    let r := decode_data_from_image block file_extn stream v.arr_extn
    some (cstr (r.2.1.set (loop_count file_extn) 0), r.2.2)

/-- The function `decode_secret_file_size`: reads 32 bytes (unchecked) and
decodes the `int`.  Returns the pattern of `size_secret_file` and the stream
afterwards. -/
def decode_secret_file_size (v : DecodeIndet) (stream : List Nat) : Nat × List Nat :=
  let r := fread (local_array 32 v.arr_file_size) 32 stream
  (decode_size_from_lsb r.1, r.2)

/-- The loop of `decode_secret_file_data`: `n` iterations, each reading 8
bytes (unchecked) and writing the decoded byte with `fputc`.  Returns the
bytes written. -/
def decode_secret_file_data_loop : Nat → List Nat → List Nat → List Nat
  | 0, _, _ => []
  | n + 1, stream, arr =>
    let r := fread arr 8 stream
    decode_byte_from_lsb r.1 :: decode_secret_file_data_loop n r.2 r.1

/-- The function `decode_secret_file_data`: the bytes written to the output
file. -/
def decode_secret_file_data (size_secret_file : Nat) (v : DecodeIndet) (stream : List Nat) :
    List Nat :=
  decode_secret_file_data_loop (loop_count size_secret_file) stream (local_array 8 v.arr_data)

/-- What a run of `do_decoding` finds around it: the output file name of the
command line (`none` for the `NULL` that `read_and_validate_decode_args`
stores when there is none); for every file name whether `fopen` opens it in
mode `wb` and in mode `a`; for every two names whether `rename` succeeds; and
the contents that the file of a given name has before the run. -/
structure DecodeEnv where
  secret_fname : Option (List Nat)
  fopen_wb : List Nat → Bool
  rename : List Nat → List Nat → Bool
  fopen_a : List Nat → Bool
  contents : List Nat → List Nat

/-- The string that `do_decoding` copies into `base_name[50]`: the output file
name, or `decoded` when there is none. -/
def given_name (secret_fname : Option (List Nat)) : List Nat :=
  match secret_fname with
  | none => [100, 101, 99, 111, 100, 101, 100]
  | some name => name

/-- The string in `base_name` after `strtok(base_name, ".")`; `do_decoding`
stores a copy of it in `secret_fname`. -/
def base_name (secret_fname : Option (List Nat)) : List Nat :=
  strtok_dot (given_name secret_fname)

/-- The function `do_decoding`, for a run in which the stego image opens.
The `strcpy` into `base_name[50]` needs a name shorter than 50 characters,
and the `sprintf` into `newname[64]` needs fewer than 64 characters in the
base name and the decoded extension together.  The output file is created
empty under the base name in mode `wb`; after the extension is decoded it is
renamed to `newname`, the base name followed by the extension, and `newname`
is opened in mode `a`.  The result of `rename` is not looked at: when it
fails and `newname` is another file than the one just created, the decoded
bytes are appended to what that file holds.  The result is `none` when the
run has no defined result (one of the two copies overruns its array, or see
`decode_secret_file_extn`). -/
def do_decoding (MAGIC_STRING : List Nat) (v : DecodeIndet) (env : DecodeEnv)
    (stego : List Nat) : Option DecodeResult :=
  if 50 ≤ strlen (given_name env.secret_fname) then none
  else
    let secret_fname := base_name env.secret_fname
    if env.fopen_wb secret_fname = false then some ⟨e_failure, [], []⟩
    else
      let m := decode_magic_string MAGIC_STRING v stego
      if m.1 = e_success then
        let es := decode_file_extn_size v m.2
        if es.1 = e_success then
          match decode_secret_file_extn es.2.1 v es.2.2 with
          | none => none
          | some ex =>
            if 64 ≤ secret_fname.length + ex.1.length then none
            else
              if env.fopen_a (secret_fname ++ ex.1) = false then some ⟨e_failure, ex.1, []⟩
              else
                let fs := decode_secret_file_size v ex.2
                some ⟨e_success, ex.1,
                  (if env.rename secret_fname (secret_fname ++ ex.1) = true ∨
                      secret_fname ++ ex.1 = secret_fname then []
                    else env.contents (secret_fname ++ ex.1)) ++
                    decode_secret_file_data fs.1 v fs.2⟩
        else
          some ⟨e_failure, [], []⟩
      else
        some ⟨e_failure, [], []⟩

/-! ## Notions used in the statements -/

/-- The value of the low `n` bits given by `f`: bit `i` is `f i % 2`. -/
def bits_value (f : Nat → Nat) : Nat → Nat
  | 0 => 0
  | n + 1 => bits_value f n + f n % 2 * 2 ^ n

/-- The number whose bit `i`, for `i < n`, is the least-significant bit of
`blk[i]` (bit 0 first). -/
def lsb_value (n : Nat) (blk : List Nat) : Nat := bits_value (fun i => blk.getD i 0) n

/-- The `n` bytes carried by the stream `s`, 8 carrier bytes per byte. -/
def lsb_bytes : Nat → List Nat → List Nat
  | 0, _ => []
  | n + 1, s => lsb_value 8 (s.take 8) :: lsb_bytes n (s.drop 8)

/-- The unsigned little-endian 32-bit integer held by the bytes
`[off, off + 4)` of `image`. -/
def header_u32 (image : List Nat) (off : Nat) : Nat :=
  image.getD off 0 + 256 * image.getD (off + 1) 0 + 65536 * image.getD (off + 2) 0
    + 16777216 * image.getD (off + 3) 0

/-- What the bytes `data[i], ..., data[i+n-1]` are once stored in a `char`. -/
def bytes_from (data : List Nat) : Nat → Nat → List Nat
  | _, 0 => []
  | i, n + 1 => data.getD i 0 % 256 :: bytes_from data (i + 1) n

/-- The stream `out` consists of one block of 8 bytes for each byte of `bs`,
and the least-significant bits of block `k` decode to `bs[k]`. -/
def Carries : List Nat → List Nat → Prop
  | [], out => out = []
  | b :: bs, out =>
    8 ≤ out.length ∧ decode_byte_from_lsb (out.take 8) = b ∧ Carries bs (out.drop 8)

/-- The lists `a` and `b` have the same length and agree, entry by entry, in
bits 1-7. -/
def AgreeHigh (a b : List Nat) : Prop :=
  a.length = b.length ∧
    ∀ k, k < a.length → ∀ j, 1 ≤ j → j ≤ 7 → (a.getD k 0).testBit j = (b.getD k 0).testBit j

/-- The number of carrier bytes of the frame that `do_encoding` writes for the
extension `extn`. -/
def frame_bytes (MAGIC_STRING extn secret : List Nat) : Nat :=
  8 * loop_count (to_uint (strlen MAGIC_STRING)) + 32 + 8 * loop_count (to_uint (strlen extn))
    + 32 + 8 * loop_count (get_file_size secret)

/-! ## Test data -/

/-- A 54-byte BMP header for a `w` by `h` image (both below 256). -/
def bmp_header (w h : Nat) : List Nat :=
  [66, 77] ++ List.replicate 16 0 ++ [w, 0, 0, 0, h, 0, 0, 0] ++ List.replicate 28 0

/-- The magic string `#*`. -/
def magic_hash_star : List Nat := [35, 42]

/-- The file name `a.txt`. -/
def name_a_txt : List Nat := [97, 46, 116, 120, 116]

/-- The string `.txt`. -/
def dot_txt : List Nat := [46, 116, 120, 116]

/-- All locals start out zeroed. -/
def zero_encode_indet : EncodeIndet := ⟨[], [], [], [], [], [], [], [], []⟩

/-- All locals and heap blocks start out zeroed. -/
def zero_decode_indet : DecodeIndet := ⟨[], [], [], [], [], [], []⟩

/-- A carrier of 4 by 4 pixels. -/
def carrier_4x4 : List Nat := bmp_header 4 4 ++ List.replicate 48 0

/-- A carrier of 10 by 10 pixels, the 10-byte secret file `a.txt`, and `.txt`
in `extn_secret_file`. -/
def ten_byte_info : EncodeInfo :=
  ⟨bmp_header 10 10 ++ List.replicate 300 255, [72, 101, 108, 108, 111, 32, 255, 0, 128, 10],
    name_a_txt, dot_txt⟩

/-- A carrier of 8 by 8 pixels (capacity 24), the 10-byte secret file
`a.txt`, and `.txt` in `extn_secret_file`: 2 + 4 + 4 + 4 + 10 = 24. -/
def exact_fit_info : EncodeInfo :=
  ⟨bmp_header 8 8 ++ List.replicate 192 255, [72, 101, 108, 108, 111, 32, 255, 0, 128, 10],
    name_a_txt, dot_txt⟩

/-- A carrier of 3 by 2 pixels, a 1-byte secret file `a.a`, and `.a` in
`extn_secret_file`. -/
def tiny_carrier_info : EncodeInfo :=
  ⟨bmp_header 3 2 ++ List.replicate 18 255, [65], [97, 46, 97], [46, 97]⟩

/-- A well-formed carrier of 32 by 1 pixels (54 + 96 bytes), the 2-byte secret
file `a.txt`, and an `extn_secret_file` that holds the empty string when
`do_encoding` is entered. -/
def short_carrier_info : EncodeInfo :=
  ⟨bmp_header 32 1 ++ List.replicate 96 255, [200, 13], name_a_txt, []⟩

/-- A carrier of 100 by 100 pixels (30000 pixel bytes), the 10-byte secret
file `note.txt`, and an empty string in `extn_secret_file`. -/
def note_txt_info : EncodeInfo :=
  ⟨bmp_header 100 100 ++ List.replicate 30000 255,
    [72, 101, 108, 108, 111, 32, 255, 0, 128, 10],
    [110, 111, 116, 101, 46, 116, 120, 116], []⟩

/-- What `do_encoding` writes for `ten_byte_info`. -/
def ten_byte_stego : List Nat :=
  ((do_encoding magic_hash_star zero_encode_indet ten_byte_info).map Prod.snd).getD []

/-- A carrier of 10 by 10 pixels. -/
def carrier_10x10 : List Nat := bmp_header 10 10 ++ List.replicate 300 255

/-- The 16 carrier bytes `0xFE | bit` that carry the magic string `#*`. -/
def hash_star_blocks : List Nat :=
  [255, 255, 254, 254, 254, 255, 254, 254, 254, 255, 254, 255, 254, 255, 254, 254]

/-- The first 134 bytes of a stego image: a header, the signature `#*`, the
extension length 0 and the payload length `0x80000000`. -/
def negative_length_head : List Nat :=
  bmp_header 4 4 ++ hash_star_blocks ++ List.replicate 32 254 ++
    (List.replicate 31 254 ++ [255])

/-- A stego image cut off right after the extension-length field: a header,
the signature `#*` and the extension length 4. -/
def cut_before_extn : List Nat :=
  bmp_header 4 4 ++ hash_star_blocks ++ ([254, 254, 255] ++ List.replicate 29 254)

/-- The file name `archive.tar.gz`. -/
def name_archive_tar_gz : List Nat :=
  [97, 114, 99, 104, 105, 118, 101, 46, 116, 97, 114, 46, 103, 122]

/-- A carrier of 10 by 10 pixels, the 1-byte secret file `archive.tar.gz`, and
an empty string in `extn_secret_file`. -/
def archive_info : EncodeInfo := ⟨carrier_10x10, [65], name_archive_tar_gz, []⟩

/-- A 54-byte BMP header that declares 65536 by 65536 pixels. -/
def header_65536 : List Nat :=
  [66, 77] ++ List.replicate 16 0 ++ [0, 0, 1, 0, 0, 0, 1, 0] ++ List.replicate 28 0

/-- The stale string `xxxxx`. -/
def stale_xxxxx : List Nat := [120, 120, 120, 120, 120]

/-- The argument vector `./a.out xe`. -/
def argv_xe : List (List Nat) := [[46, 47, 97, 46, 111, 117, 116], [120, 101]]

/-- The argument vector `./a.out -encode`. -/
def argv_encode_word : List (List Nat) :=
  [[46, 47, 97, 46, 111, 117, 116], [45, 101, 110, 99, 111, 100, 101]]

/-- The argument vector `./a.out -e x.bmp.txt a.txt`. -/
def argv_bmp_txt : List (List Nat) :=
  [[46, 47, 97, 46, 111, 117, 116], [45, 101], [120, 46, 98, 109, 112, 46, 116, 120, 116],
    name_a_txt]

/-- Whether `fopen` opens `name` for writing in a writable directory that has
no subdirectories: the name is not empty and holds no `/`. -/
def opens_in_flat_directory (name : List Nat) : Bool :=
  !name.isEmpty && !name.contains 47

/-- A run of `do_decoding` without an output file name on the command line, in
a writable directory that has no subdirectories and no files: `rename`
succeeds between names that can be opened. -/
def flat_directory : DecodeEnv :=
  ⟨none, opens_in_flat_directory,
    fun old new => opens_in_flat_directory old && opens_in_flat_directory new,
    opens_in_flat_directory, fun _ => []⟩

/-- The file name `./note.txt`. -/
def name_dot_slash_note_txt : List Nat := [46, 47, 110, 111, 116, 101, 46, 116, 120, 116]

/-- A carrier of 10 by 10 pixels, the 1-byte secret file `./note.txt`, and
`.txt` in `extn_secret_file`. -/
def dot_slash_info : EncodeInfo := ⟨carrier_10x10, [65], name_dot_slash_note_txt, dot_txt⟩

/-- Locals and heap blocks that start out zeroed, except that `arr` of
`decode_secret_file_size` starts with the byte 1 and `arr` of
`decode_secret_file_data` with the bytes 1, 1, 1. -/
def stale_decode_indet : DecodeIndet := ⟨[], [], [], [], [], [1], [1, 1, 1]⟩

/-- The stego image `cut_before_extn` with its header replaced by 54 bytes of
value 7 and bits 1-7 of every later byte inverted. -/
def cut_before_extn_inverted : List Nat :=
  List.replicate 54 7 ++ (cut_before_extn.drop 54).map (fun x => 254 + x % 2 * 2 - x)

/-- The least-significant bits of the bytes of `l`, in order. -/
def lsb_bits (l : List Nat) : List Nat := l.map (fun x => x % 2)

/-! ## Bit-level lemmas -/

set_option maxRecDepth 100000 in
theorem clear_lsb_or_small : ∀ c < 256, ∀ b < 2,
    to_char ((sext8 c &&& not32 1) ||| b) = c / 2 * 2 + b := by decide

set_option maxRecDepth 100000 in
theorem char_bit_small : ∀ d < 256, ∀ i < 8, sar32 (sext8 d) i &&& 1 = d / 2 ^ i % 2 := by
  decide

theorem sext8_mod (x : Nat) : sext8 (x % 256) = sext8 x := by
  simp [sext8, Nat.mod_mod]

theorem clear_lsb_or (x b : Nat) (hb : b < 2) :
    to_char ((sext8 x &&& not32 1) ||| b) = x % 256 / 2 * 2 + b := by
  rw [← sext8_mod x]
  exact clear_lsb_or_small (x % 256) (Nat.mod_lt _ (by norm_num)) b hb

theorem char_bit (d i : Nat) (hi : i < 8) : sar32 (sext8 d) i &&& 1 = d % 256 / 2 ^ i % 2 := by
  rw [← sext8_mod d]
  exact char_bit_small (d % 256) (Nat.mod_lt _ (by norm_num)) i hi

theorem int_bit (n i : Nat) (hi : i < 32) :
    sar32 n i &&& 1 = n / 2 ^ i % 2 := by
  rw [Nat.and_one_is_mod]
  unfold sar32
  split
  · rw [Nat.shiftRight_eq_div_pow]
  · rw [Nat.shiftRight_eq_div_pow]
    have h2 : (2 ^ 32 - 2 ^ (32 - i)) % 2 = 0 := by
      interval_cases i <;> norm_num
    omega

theorem sext8_and_one (y : Nat) : sext8 y &&& 1 = y % 2 := by
  rw [Nat.and_one_is_mod]
  unfold sext8
  split <;> omega

theorem zext8_and_one (y : Nat) : zext8 y &&& 1 = y % 2 := by
  rw [Nat.and_one_is_mod]
  unfold zext8
  omega

theorem bits_value_lt (f : Nat → Nat) (n : Nat) : bits_value f n < 2 ^ n := by
  induction n with
  | zero => simp [bits_value]
  | succ n ih =>
    have h1 : f n % 2 < 2 := Nat.mod_lt _ (by norm_num)
    have h2 : f n % 2 * 2 ^ n ≤ 1 * 2 ^ n := Nat.mul_le_mul_right _ (by omega)
    simp only [bits_value, pow_succ]
    omega

theorem bits_value_congr (f g : Nat → Nat) (n : Nat) (h : ∀ i < n, f i % 2 = g i % 2) :
    bits_value f n = bits_value g n := by
  induction n with
  | zero => rfl
  | succ n ih =>
    simp only [bits_value]
    rw [ih (fun i hi => h i (by omega)), h n (by omega)]

theorem bits_value_of_bits (d : Nat) (f : Nat → Nat) (n : Nat)
    (h : ∀ i < n, f i % 2 = d / 2 ^ i % 2) : bits_value f n = d % 2 ^ n := by
  induction n with
  | zero => simp [bits_value, Nat.mod_one]
  | succ n ih =>
    simp only [bits_value]
    rw [ih (fun i hi => h i (by omega)), h n (by omega), Nat.mod_pow_succ, Nat.mul_comm]

theorem or_bit_eq_add (x b n : Nat) (hx : x < 2 ^ n) : x ||| b * 2 ^ n = x + b * 2 ^ n := by
  rw [Nat.lor_comm, Nat.mul_comm b, ← Nat.mul_add_lt_is_or hx, Nat.add_comm]

theorem shl32_bit (b n : Nat) (hb : b < 2) (hn : n < 32) : shl32 b n = b * 2 ^ n := by
  unfold shl32
  rw [Nat.shiftLeft_eq]
  apply Nat.mod_eq_of_lt
  have h1 : 2 ^ n * 2 ≤ 2 ^ 32 := by
    rw [← pow_succ]
    exact Nat.pow_le_pow_right (by norm_num) (by omega)
  have h2 : b * 2 ^ n ≤ 1 * 2 ^ n := Nat.mul_le_mul_right _ (by omega)
  omega

theorem foldl_set_length (g : Nat → Nat → Nat) (n : Nat) (buf : List Nat) :
    ((List.range n).foldl (fun b i => b.set i (g (b.getD i 0) i)) buf).length = buf.length := by
  induction n with
  | zero => simp
  | succ n ih =>
    rw [List.range_succ, List.foldl_append]
    simp only [List.foldl_cons, List.foldl_nil, List.length_set]
    exact ih

/-- A loop `for i < n: buf[i] = g(buf[i], i)` changes entry `j < n` to
`g(buf[j], j)` and leaves the others. -/
theorem foldl_set_getElem? (g : Nat → Nat → Nat) (n : Nat) (buf : List Nat) :
    ∀ j, ((List.range n).foldl (fun b i => b.set i (g (b.getD i 0) i)) buf)[j]? =
      if j < n then buf[j]?.map (fun x => g x j) else buf[j]? := by
  induction n with
  | zero => simp
  | succ n ih =>
    intro j
    rw [List.range_succ, List.foldl_append]
    simp only [List.foldl_cons, List.foldl_nil]
    rw [List.getElem?_set, foldl_set_length]
    by_cases hjn : n = j
    · subst hjn
      simp only [if_true]
      rw [List.getD_eq_getElem?_getD, ih]
      simp only [lt_irrefl, if_false, Nat.lt_succ_self, if_true]
      by_cases hlt : n < buf.length
      · simp [hlt, List.getElem?_eq_getElem hlt]
      · simp [hlt, List.getElem?_eq_none_iff.mpr (Nat.le_of_not_lt hlt)]
    · simp only [hjn, if_false]
      rw [ih]
      by_cases h1 : j < n
      · simp [h1, Nat.lt_succ_of_lt h1]
      · have : ¬ j < n + 1 := by omega
        simp [h1, this]

theorem foldl_set_getD (g : Nat → Nat → Nat) (n : Nat) (buf : List Nat) (j : Nat)
    (hj : j < n) (hl : j < buf.length) :
    ((List.range n).foldl (fun b i => b.set i (g (b.getD i 0) i)) buf).getD j 0 =
      g (buf.getD j 0) j := by
  rw [List.getD_eq_getElem?_getD, foldl_set_getElem?, if_pos hj, List.getD_eq_getElem?_getD,
    List.getElem?_eq_getElem hl]
  simp

/-! ## The two encoders and the two decoders, entry by entry -/

theorem encode_byte_to_lsb_length (data : Nat) (buf : List Nat) :
    (encode_byte_to_lsb data buf).length = buf.length :=
  foldl_set_length
    (fun x i => to_char ((sext8 x &&& not32 1) ||| (sar32 (sext8 data) i &&& 1))) 8 buf

theorem encode_size_to_lsb_length (size : Nat) (buf : List Nat) :
    (encode_size_to_lsb size buf).length = buf.length :=
  foldl_set_length (fun x i => to_char ((sext8 x &&& not32 1) ||| (sar32 size i &&& 1))) 32 buf

theorem encode_byte_to_lsb_getD (data : Nat) (buf : List Nat) (j : Nat) (hj : j < 8)
    (hl : j < buf.length) :
    (encode_byte_to_lsb data buf).getD j 0 =
      buf.getD j 0 % 256 / 2 * 2 + data % 256 / 2 ^ j % 2 := by
  unfold encode_byte_to_lsb
  rw [foldl_set_getD
    (fun x i => to_char ((sext8 x &&& not32 1) ||| (sar32 (sext8 data) i &&& 1))) 8 buf j hj hl]

  rw [char_bit data j hj,
    clear_lsb_or _ _ (Nat.mod_lt _ (by norm_num))]

theorem encode_size_to_lsb_getD (size : Nat) (buf : List Nat) (j : Nat) (hj : j < 32)
    (hl : j < buf.length) :
    (encode_size_to_lsb size buf).getD j 0 =
      buf.getD j 0 % 256 / 2 * 2 + size / 2 ^ j % 2 := by
  unfold encode_size_to_lsb
  rw [foldl_set_getD
    (fun x i => to_char ((sext8 x &&& not32 1) ||| (sar32 size i &&& 1))) 32 buf j hj hl]

  rw [int_bit size j hj,
    clear_lsb_or _ _ (Nat.mod_lt _ (by norm_num))]

theorem decode_byte_fold (buf : List Nat) (n : Nat) (hn : n ≤ 8) :
    (List.range n).foldl
      (fun ch i => to_char (zext8 ch ||| shl32 (sext8 (buf.getD i 0) &&& 1) i)) 0 =
      bits_value (fun i => buf.getD i 0) n := by
  induction n with
  | zero => rfl
  | succ n ih =>
    rw [List.range_succ, List.foldl_append]
    simp only [List.foldl_cons, List.foldl_nil]
    rw [ih (by omega), sext8_and_one]
    have hlt := bits_value_lt (fun i => buf.getD i 0) n
    have hlt2 := bits_value_lt (fun i => buf.getD i 0) (n + 1)
    have hp : 2 ^ n ≤ 2 ^ 7 := Nat.pow_le_pow_right (by norm_num) (by omega)
    have hp2 : 2 ^ (n + 1) ≤ 2 ^ 8 := Nat.pow_le_pow_right (by norm_num) (by omega)
    have hz : zext8 (bits_value (fun i => buf.getD i 0) n) = bits_value (fun i => buf.getD i 0) n := by
      unfold zext8
      apply Nat.mod_eq_of_lt
      omega
    rw [hz, shl32_bit _ n (Nat.mod_lt _ (by norm_num)) (by omega), or_bit_eq_add _ _ _ hlt]
    unfold to_char
    simp only [bits_value] at hlt2 ⊢
    apply Nat.mod_eq_of_lt
    omega

theorem decode_size_fold (buf : List Nat) (n : Nat) (hn : n ≤ 32) :
    (List.range n).foldl (fun num i => num ||| shl32 (zext8 (buf.getD i 0) &&& 1) i) 0 =
      bits_value (fun i => buf.getD i 0) n := by
  induction n with
  | zero => rfl
  | succ n ih =>
    rw [List.range_succ, List.foldl_append]
    simp only [List.foldl_cons, List.foldl_nil]
    rw [ih (by omega), zext8_and_one, shl32_bit _ n (Nat.mod_lt _ (by norm_num)) (by omega),
      or_bit_eq_add _ _ _ (bits_value_lt _ n)]
    rfl

theorem decode_byte_from_lsb_eq (buf : List Nat) :
    decode_byte_from_lsb buf = bits_value (fun i => buf.getD i 0) 8 :=
  decode_byte_fold buf 8 (le_refl 8)

theorem decode_size_from_lsb_eq (buf : List Nat) :
    decode_size_from_lsb buf = bits_value (fun i => buf.getD i 0) 32 :=
  decode_size_fold buf 32 (le_refl 32)

theorem decode_byte_from_lsb_lt (buf : List Nat) : decode_byte_from_lsb buf < 256 := by
  rw [decode_byte_from_lsb_eq]
  exact bits_value_lt _ 8

theorem decode_size_from_lsb_lt (buf : List Nat) : decode_size_from_lsb buf < 2 ^ 32 := by
  rw [decode_size_from_lsb_eq]
  exact bits_value_lt _ 32

/-- Decoding what `encode_byte_to_lsb` wrote gives the low byte of `data`. -/
theorem decode_encode_byte (data : Nat) (buf : List Nat) (hl : 8 ≤ buf.length) :
    decode_byte_from_lsb (encode_byte_to_lsb data buf) = data % 256 := by
  rw [decode_byte_from_lsb_eq, bits_value_of_bits (data % 256) _ 8]
  · exact Nat.mod_eq_of_lt (Nat.mod_lt _ (by norm_num))
  · intro i hi

    rw [encode_byte_to_lsb_getD data buf i hi (by omega)]
    omega

/-- Decoding what `encode_size_to_lsb` wrote gives the low 32 bits of `size`. -/
theorem decode_encode_size (size : Nat) (buf : List Nat) (hl : 32 ≤ buf.length) :
    decode_size_from_lsb (encode_size_to_lsb size buf) = size % 2 ^ 32 := by
  rw [decode_size_from_lsb_eq, bits_value_of_bits size _ 32]
  intro i hi

  rw [encode_size_to_lsb_getD size buf i hi (by omega)]
  omega

/-! ## Streams and buffers -/

theorem local_array_length (n : Nat) (indet : List Nat) : (local_array n indet).length = n := by
  unfold local_array
  rw [List.length_take, List.length_append, List.length_replicate]
  omega

theorem fread_fst_length (ptr : List Nat) (n : Nat) (stream : List Nat) (h : ptr.length = n) :
    (fread ptr n stream).1.length = n := by
  unfold fread
  simp only [List.length_append, List.length_take, List.length_drop]
  omega

theorem fread_full (ptr : List Nat) (n : Nat) (stream : List Nat) (h : ptr.length = n)
    (hs : n ≤ stream.length) : fread ptr n stream = (stream.take n, stream.drop n) := by
  unfold fread
  have h1 : (stream.take n).length = n := by
    rw [List.length_take]
    omega
  rw [h1, List.drop_of_length_le (by omega), List.append_nil]

theorem fread_append (ptr : List Nat) (blk t : List Nat) (h : ptr.length = blk.length) :
    fread ptr blk.length (blk ++ t) = (blk, t) := by
  rw [fread_full ptr blk.length (blk ++ t) h (by simp)]
  simp

theorem fwrite_full (ptr : List Nat) (n : Nat) (h : ptr.length = n) : fwrite ptr n = ptr := by
  unfold fwrite
  rw [← h, List.take_length]

theorem bytes_from_length (data : List Nat) (n : Nat) :
    ∀ i, (bytes_from data i n).length = n := by
  induction n with
  | zero => intro i; rfl
  | succ n ih => intro i; simp [bytes_from, ih]

theorem bytes_from_append (pre d : List Nat) (hd : ∀ b ∈ d, b < 256) :
    ∀ post, bytes_from (pre ++ d ++ post) pre.length d.length = d := by
  induction d generalizing pre with
  | nil => intro post; rfl
  | cons x d ih =>
    intro post
    simp only [List.length_cons, bytes_from]
    have hx : x < 256 := hd x (List.mem_cons_self _ _)
    have h1 : (pre ++ x :: d ++ post).getD pre.length 0 = x := by
      rw [List.getD_eq_getElem?_getD, List.append_assoc,
        List.getElem?_append_right (le_refl _)]
      simp
    rw [h1, Nat.mod_eq_of_lt hx]
    have h2 := ih (pre ++ [x]) (fun b hb => hd b (List.mem_cons_of_mem _ hb)) post
    simp only [List.length_append, List.length_singleton, List.append_assoc,
      List.singleton_append, List.cons_append, List.nil_append] at h2 ⊢
    rw [h2]

theorem bytes_from_self (d : List Nat) (hd : ∀ b ∈ d, b < 256) :
    bytes_from d 0 d.length = d := by
  have h := bytes_from_append [] d hd []
  simpa using h

theorem Carries_length : ∀ (bs out : List Nat), Carries bs out → out.length = 8 * bs.length
  | [], out, h => by
    simp only [Carries] at h
    simp [h]
  | b :: bs, out, h => by
    obtain ⟨h1, _, h3⟩ := h
    have ih := Carries_length bs (out.drop 8) h3
    simp only [List.length_drop] at ih
    simp only [List.length_cons]
    omega

theorem Carries_append (blk : List Nat) (b : Nat) (bs rest : List Nat) (hl : blk.length = 8)
    (hb : decode_byte_from_lsb blk = b) (hr : Carries bs rest) : Carries (b :: bs) (blk ++ rest) := by
  refine ⟨by simp [hl], ?_, ?_⟩
  · rw [List.take_append_of_le_length (by omega), ← hl, List.take_length]
    exact hb
  · rw [List.drop_append_of_le_length (by omega), ← hl, List.drop_length, List.nil_append]
    exact hr

/-- The loop of `encode_data_to_image` writes one block per byte, whatever the
source image still holds. -/
theorem encode_data_loop_carries (data : List Nat) (n : Nat) :
    ∀ (i : Nat) (src arr : List Nat), arr.length = 8 →
      Carries (bytes_from data i n) (encode_data_loop data n i src arr).1 := by
  induction n with
  | zero => intro i src arr _; simp [encode_data_loop, bytes_from, Carries]
  | succ n ih =>
    intro i src arr harr
    simp only [encode_data_loop, bytes_from]
    have h1 : (fread arr 8 src).1.length = 8 := fread_fst_length arr 8 src harr
    have h2 : (encode_byte_to_lsb (data.getD i 0) (fread arr 8 src).1).length = 8 := by
      rw [encode_byte_to_lsb_length, h1]
    rw [fwrite_full _ 8 h2]
    exact Carries_append _ _ _ _ h2 (decode_encode_byte _ _ (by omega)) (ih (i + 1) _ _ h2)

/-- The loop of `decode_data_from_image` on a stream that starts with the
blocks of `bs` stores `bs` in the buffer and stops right after the blocks. -/
theorem decode_data_loop_carries :
    ∀ (bs pre mid post out t arr : List Nat), mid.length = bs.length → Carries bs out →
      arr.length = 8 →
      decode_data_loop bs.length pre.length (pre ++ mid ++ post) (out ++ t) arr =
        (e_success, pre ++ bs ++ post, t)
  | [], pre, mid, post, out, t, arr, hm, hc, _ => by
    simp only [Carries] at hc
    have : mid = [] := List.length_eq_zero.mp hm
    subst this
    subst hc
    simp [decode_data_loop]
  | b :: bs, pre, mid, post, out, t, arr, hm, hc, harr => by
    obtain ⟨h1, h2, h3⟩ := hc
    cases mid with
    | nil => simp at hm
    | cons x mid =>
      simp only [List.length_cons, Nat.add_right_cancel_iff] at hm
      have hout : out = out.take 8 ++ out.drop 8 := (List.take_append_drop 8 out).symm
      have hlen : (out.take 8).length = 8 := by
        rw [List.length_take]
        omega
      have hfr : fread arr 8 (out ++ t) = (out.take 8, out.drop 8 ++ t) := by
        have := fread_append arr (out.take 8) (out.drop 8 ++ t) (by omega)
        rw [hlen, ← List.append_assoc, List.take_append_drop] at this
        exact this
      have hnot : ¬ (out ++ t).length < 8 := by
        rw [List.length_append]
        omega
      simp only [List.length_cons, decode_data_loop, hfr, hnot, if_false]
      have hset : (pre ++ x :: mid ++ post).set pre.length (decode_byte_from_lsb (out.take 8)) =
          (pre ++ [b]) ++ mid ++ post := by
        rw [List.append_assoc, List.set_append_right _ _ (le_refl _)]
        simp [h2]
      rw [hset]
      have ih := decode_data_loop_carries bs (pre ++ [b]) mid post (out.drop 8) t (out.take 8)
        hm h3 hlen
      simp only [List.length_append, List.length_singleton] at ih
      rw [ih]
      simp

/-- The loop of `decode_secret_file_data` on a stream that starts with the
blocks of `bs` writes exactly `bs`. -/
theorem decode_secret_file_data_loop_carries :
    ∀ (bs out t arr : List Nat), Carries bs out → arr.length = 8 →
      decode_secret_file_data_loop bs.length (out ++ t) arr = bs
  | [], _, _, _, _, _ => by simp [decode_secret_file_data_loop]
  | b :: bs, out, t, arr, hc, harr => by
    obtain ⟨h1, h2, h3⟩ := hc
    have hlen : (out.take 8).length = 8 := by
      rw [List.length_take]
      omega
    have hfr : fread arr 8 (out ++ t) = (out.take 8, out.drop 8 ++ t) := by
      have := fread_append arr (out.take 8) (out.drop 8 ++ t) (by omega)
      rw [hlen, ← List.append_assoc, List.take_append_drop] at this
      exact this
    simp only [List.length_cons, decode_secret_file_data_loop, hfr, h2]
    rw [decode_secret_file_data_loop_carries bs (out.drop 8) t (out.take 8) h3 hlen]

/-! ## C strings and integers -/

theorem cstr_ne_zero (s : List Nat) : ∀ b ∈ cstr s, b ≠ 0 := by
  intro b hb
  have := List.mem_takeWhile_imp hb
  simpa using this

theorem cstr_mem (s : List Nat) : ∀ b ∈ cstr s, b ∈ s := by
  intro b hb
  exact (List.takeWhile_sublist _).subset hb

theorem cstr_of_ne_zero (s t : List Nat) (h : ∀ b ∈ s, b ≠ 0) : cstr (s ++ 0 :: t) = s := by
  induction s with
  | nil => simp [cstr]
  | cons x s ih =>
    have hx : x ≠ 0 := h x (List.mem_cons_self _ _)
    have := ih (fun b hb => h b (List.mem_cons_of_mem _ hb))
    simp only [cstr] at this ⊢
    simp [List.takeWhile_cons, hx, this]

theorem cstr_eq_self (s : List Nat) (h : ∀ b ∈ s, b ≠ 0) : cstr s = s := by
  induction s with
  | nil => rfl
  | cons x s ih =>
    have hx : x ≠ 0 := h x (List.mem_cons_self _ _)
    have := ih (fun b hb => h b (List.mem_cons_of_mem _ hb))
    simp only [cstr] at this ⊢
    simp [List.takeWhile_cons, hx, this]

theorem bytes_from_cstr (s : List Nat) (h : ∀ b ∈ s, b < 256) :
    bytes_from s 0 (strlen s) = cstr s := by
  have h1 : s = [] ++ cstr s ++ s.dropWhile (fun b => b != 0) := by
    simp [cstr, List.takeWhile_append_dropWhile]
  have h2 := bytes_from_append [] (cstr s) (fun b hb => h b (cstr_mem s b hb))
    (s.dropWhile (fun b => b != 0))
  rw [← h1] at h2
  exact h2

theorem find_char_suffix (c : Nat) : ∀ (s t : List Nat), find_char c s = some t →
    ∃ p, s = p ++ t
  | [], t, h => by simp [find_char] at h
  | b :: s, t, h => by
    simp only [find_char] at h
    split at h
    · exact ⟨[], by simpa using h⟩
    · obtain ⟨p, hp⟩ := find_char_suffix c s t h
      exact ⟨b :: p, by simp [hp]⟩

theorem strstr_dot_mem (s extn : List Nat) (h : strstr_dot s = some extn) :
    ∀ b ∈ extn, b ∈ cstr s := by
  obtain ⟨p, hp⟩ := find_char_suffix 46 (cstr s) extn h
  intro b hb
  rw [hp]
  exact List.mem_append_right _ hb

theorem to_uint_of_lt (n : Nat) (h : n < 2 ^ 32) : to_uint n = n := Nat.mod_eq_of_lt h

theorem int_val_of_lt (n : Nat) (h : n < 2 ^ 31) : int_val n = (n : Int) := by
  unfold int_val
  have : n % 2 ^ 32 = n := Nat.mod_eq_of_lt (by omega)
  rw [this, if_pos h]

theorem loop_count_of_lt (n : Nat) (h : n < 2 ^ 31) : loop_count n = n := by
  unfold loop_count
  rw [int_val_of_lt n h]
  simp

/-! ## The functions of the embed pipeline, one by one -/

theorem copy_bmp_header_length (image buffer0 : List Nat) :
    (copy_bmp_header image buffer0).1.length = 54 := by
  unfold copy_bmp_header
  have h := fread_fst_length (local_array 54 buffer0) 54 image (local_array_length 54 buffer0)
  simp only []
  rw [fwrite_full _ 54 h, h]

theorem copy_bmp_header_snd (image buffer0 : List Nat) :
    (copy_bmp_header image buffer0).2 = image.drop 54 := rfl

theorem encode_data_to_image_carries (data : List Nat) (size : Nat) (src arr0 : List Nat) :
    Carries (bytes_from data 0 (loop_count size)) (encode_data_to_image data size src arr0).1 :=
  encode_data_loop_carries data (loop_count size) 0 src _ (local_array_length 8 arr0)

theorem encode_secret_file_size_fst (file_size : Nat) (src arr0 : List Nat) :
    (encode_secret_file_size file_size src arr0).1.length = 32 ∧
      decode_size_from_lsb (encode_secret_file_size file_size src arr0).1 = file_size % 2 ^ 32 := by
  unfold encode_secret_file_size
  have h := fread_fst_length (local_array 32 arr0) 32 src (local_array_length 32 arr0)
  have h2 : (encode_size_to_lsb file_size (fread (local_array 32 arr0) 32 src).1).length = 32 := by
    rw [encode_size_to_lsb_length, h]
  simp only []
  rw [fwrite_full _ 32 h2]
  exact ⟨h2, decode_encode_size _ _ (by omega)⟩

theorem encode_secret_file_extn_size_eq (size : Nat) (src arr0 : List Nat) :
    encode_secret_file_extn_size size src arr0 = encode_secret_file_size size src arr0 := rfl

theorem encode_secret_file_data_buffer (secret block0 : List Nat) (h : secret.length < 2 ^ 32) :
    (fread (local_array (get_file_size secret) block0) (get_file_size secret) secret).1 =
      secret := by
  have hs : get_file_size secret = secret.length := to_uint_of_lt _ h
  rw [hs, fread_full _ _ _ (local_array_length _ _) (le_refl _), List.take_length]

/-- The layout of what a successful run of `do_encoding` writes: a header of
54 bytes, the blocks of the magic string, 32 bytes for the extension length,
the blocks of the extension, 32 bytes for the file size, the blocks of the
secret data, and the rest of the source image. -/
theorem do_encoding_layout (MAGIC_STRING : List Nat) (u : EncodeIndet) (encInfo : EncodeInfo)
    (extn : List Nat) (hcap : check_capacity MAGIC_STRING u encInfo = e_success)
    (hext : strstr_dot encInfo.secret_fname = some extn) :
    ∃ hdr mg es ex fs dt rest,
      do_encoding MAGIC_STRING u encInfo =
        some (e_success, hdr ++ mg ++ es ++ ex ++ fs ++ dt ++ rest) ∧
      hdr.length = 54 ∧
      Carries (bytes_from MAGIC_STRING 0 (loop_count (to_uint (strlen MAGIC_STRING)))) mg ∧
      es.length = 32 ∧ decode_size_from_lsb es = to_uint (strlen extn) ∧
      Carries (bytes_from extn 0 (loop_count (to_uint (strlen extn)))) ex ∧
      fs.length = 32 ∧ decode_size_from_lsb fs = get_file_size encInfo.secret ∧
      Carries (bytes_from
        (fread (local_array (get_file_size encInfo.secret) u.block)
          (get_file_size encInfo.secret) encInfo.secret).1 0
        (loop_count (get_file_size encInfo.secret))) dt := by
  unfold do_encoding
  simp only [hcap, if_true, hext]
  refine ⟨_, _, _, _, _, _, _, rfl, copy_bmp_header_length _ _, ?_, ?_, ?_, ?_, ?_, ?_, ?_⟩
  · exact encode_data_to_image_carries _ _ _ _
  · rw [encode_secret_file_extn_size_eq]
    exact (encode_secret_file_size_fst _ _ _).1
  · rw [encode_secret_file_extn_size_eq, (encode_secret_file_size_fst _ _ _).2]
    unfold to_uint
    rw [Nat.mod_mod]
  · exact encode_data_to_image_carries _ _ _ _
  · exact (encode_secret_file_size_fst _ _ _).1
  · rw [(encode_secret_file_size_fst _ _ _).2]
    unfold get_file_size to_uint
    rw [Nat.mod_mod]
  · exact encode_data_to_image_carries _ _ _ _

/-! ## The functions of the extract pipeline on a well-formed frame -/

theorem decode_data_from_image_carries (bs buffer out t arr0 : List Nat) (size : Nat)
    (hsz : loop_count size = bs.length) (hb : bs.length ≤ buffer.length) (hc : Carries bs out) :
    decode_data_from_image buffer size (out ++ t) arr0 =
      (e_success, bs ++ buffer.drop bs.length, t) := by
  unfold decode_data_from_image
  rw [hsz]
  have h := decode_data_loop_carries bs [] (buffer.take bs.length) (buffer.drop bs.length) out t
    (local_array 8 arr0) (by rw [List.length_take]; omega) hc (local_array_length 8 arr0)
  simp only [List.nil_append, List.length_nil, List.take_append_drop] at h
  exact h

theorem cstr_terminate (bs post : List Nat) (hne : ∀ b ∈ bs, b ≠ 0) (hp : post ≠ []) :
    cstr ((bs ++ post).set bs.length 0) = bs := by
  cases post with
  | nil => exact absurd rfl hp
  | cons x q =>
    rw [List.set_append_right _ _ (le_refl _)]
    simp only [Nat.sub_self, List.set_cons_zero]
    exact cstr_of_ne_zero bs q hne

theorem decode_magic_string_ok (MAGIC_STRING : List Nat) (v : DecodeIndet)
    (hdr mg t : List Nat) (hh : hdr.length = 54) (hm : Carries (cstr MAGIC_STRING) mg)
    (hl : strlen MAGIC_STRING < 2 ^ 31) :
    decode_magic_string MAGIC_STRING v (hdr ++ mg ++ t) = (e_success, t) := by
  unfold decode_magic_string
  have hdrop : (hdr ++ mg ++ t).drop 54 = mg ++ t := by
    rw [List.append_assoc, List.drop_append_of_le_length (by omega), ← hh, List.drop_length,
      List.nil_append]
  have hsz : loop_count (to_uint (strlen MAGIC_STRING)) = (cstr MAGIC_STRING).length := by
    rw [to_uint_of_lt _ (by omega), loop_count_of_lt _ hl]
    rfl
  have hlen : (local_array (strlen MAGIC_STRING + 1) v.magic_data).length =
      (cstr MAGIC_STRING).length + 1 := local_array_length _ _
  dsimp only
  rw [hdrop, decode_data_from_image_carries (cstr MAGIC_STRING) _ mg t _ _ hsz (by omega) hm]
  have hterm : cstr (((cstr MAGIC_STRING) ++
      (local_array (strlen MAGIC_STRING + 1) v.magic_data).drop (cstr MAGIC_STRING).length).set
        (strlen MAGIC_STRING) 0) = cstr MAGIC_STRING := by
    apply cstr_terminate _ _ (cstr_ne_zero MAGIC_STRING)
    intro hnil
    have := congrArg List.length hnil
    simp only [List.length_drop, List.length_nil] at this
    omega
  dsimp only
  rw [hterm, if_pos rfl]

theorem decode_file_extn_size_ok (v : DecodeIndet) (es t : List Nat) (he : es.length = 32) :
    decode_file_extn_size v (es ++ t) = (e_success, decode_size_from_lsb es, t) := by
  unfold decode_file_extn_size
  have hfr := fread_append (local_array 32 v.buffer_extn_size) es t
    (by rw [local_array_length, he])
  rw [he] at hfr
  have hnot : ¬ (es ++ t).length < 32 := by
    rw [List.length_append]
    omega
  simp only [hfr, hnot, if_false]

theorem decode_secret_file_extn_ok (v : DecodeIndet) (extn ex t : List Nat) (file_extn : Nat)
    (hf : file_extn = extn.length) (hl : extn.length < 2 ^ 31 - 1) (hne : ∀ b ∈ extn, b ≠ 0)
    (hc : Carries extn ex) :
    decode_secret_file_extn file_extn v (ex ++ t) = some (extn, t) := by
  unfold decode_secret_file_extn
  subst hf
  have hiv : int_val extn.length = (extn.length : Int) := int_val_of_lt _ (by omega)
  have hlc : loop_count extn.length = extn.length := loop_count_of_lt _ (by omega)
  have hcond : ¬ (int_val extn.length < 0 ∨ int_val extn.length = 2 ^ 31 - 1) := by
    rw [hiv]
    omega
  rw [if_neg hcond, hlc]
  dsimp only
  rw [decode_data_from_image_carries extn _ ex t _ _ hlc (by rw [local_array_length]; omega) hc]
  dsimp only
  rw [cstr_terminate _ _ hne]
  intro hnil
  have := congrArg List.length hnil
  simp only [List.length_drop, List.length_nil, local_array_length] at this
  omega

theorem decode_secret_file_size_ok (v : DecodeIndet) (fs t : List Nat) (hfs : fs.length = 32) :
    decode_secret_file_size v (fs ++ t) = (decode_size_from_lsb fs, t) := by
  unfold decode_secret_file_size
  have hfr := fread_append (local_array 32 v.arr_file_size) fs t
    (by rw [local_array_length, hfs])
  rw [hfs] at hfr
  simp only [hfr]

theorem decode_secret_file_data_ok (v : DecodeIndet) (data dt t : List Nat) (size : Nat)
    (hs : size = data.length) (hl : data.length < 2 ^ 31) (hc : Carries data dt) :
    decode_secret_file_data size v (dt ++ t) = data := by
  unfold decode_secret_file_data
  rw [hs, loop_count_of_lt _ hl]
  exact decode_secret_file_data_loop_carries data dt t _ hc (local_array_length 8 _)

/-- The extract pipeline on a stream with the layout that `do_encoding`
writes returns the extension and the data that the stream carries. -/
theorem do_decoding_layout (MAGIC_STRING : List Nat) (v : DecodeIndet) (env : DecodeEnv)
    (hdr mg es ex fs dt rest extn data : List Nat)
    (hname : strlen (given_name env.secret_fname) < 50)
    (hwb : env.fopen_wb (base_name env.secret_fname) = true)
    (hfit : (base_name env.secret_fname).length + extn.length < 64)
    (hren : env.rename (base_name env.secret_fname) (base_name env.secret_fname ++ extn) = true)
    (hap : env.fopen_a (base_name env.secret_fname ++ extn) = true)
    (hh : hdr.length = 54) (hm : Carries (cstr MAGIC_STRING) mg)
    (hml : strlen MAGIC_STRING < 2 ^ 31)
    (hes : es.length = 32) (hesv : decode_size_from_lsb es = extn.length)
    (hel : extn.length < 2 ^ 31 - 1) (hne : ∀ b ∈ extn, b ≠ 0) (hex : Carries extn ex)
    (hfs : fs.length = 32) (hfsv : decode_size_from_lsb fs = data.length)
    (hdl : data.length < 2 ^ 31) (hdt : Carries data dt) :
    do_decoding MAGIC_STRING v env (hdr ++ mg ++ es ++ ex ++ fs ++ dt ++ rest) =
      some ⟨e_success, extn, data⟩ := by
  have hn1 : ¬ 50 ≤ strlen (given_name env.secret_fname) := by omega
  have hn2 : ¬ env.fopen_wb (base_name env.secret_fname) = false := by rw [hwb]; decide
  have hn3 : ¬ 64 ≤ (base_name env.secret_fname).length + extn.length := by omega
  have hn4 : ¬ env.fopen_a (base_name env.secret_fname ++ extn) = false := by rw [hap]; decide
  unfold do_decoding
  have h1 : hdr ++ mg ++ es ++ ex ++ fs ++ dt ++ rest =
      hdr ++ mg ++ (es ++ (ex ++ (fs ++ (dt ++ rest)))) := by
    simp only [List.append_assoc]
  rw [if_neg hn1]
  dsimp only
  rw [if_neg hn2, h1, decode_magic_string_ok MAGIC_STRING v hdr mg _ hh hm hml]
  simp only [if_true]
  rw [decode_file_extn_size_ok v es _ hes]
  simp only [if_true]
  rw [decode_secret_file_extn_ok v extn ex _ _ hesv hel hne hex]
  simp only []
  rw [if_neg hn3, if_neg hn4, decode_secret_file_size_ok v fs _ hfs]
  simp only []
  rw [decode_secret_file_data_ok v data dt rest _ hfsv hdl hdt, if_pos (Or.inl hren),
    List.nil_append]

/-! ## The bit codec (claims C2, C3, C4) -/

theorem testBit_low_byte (v i : Nat) (hi : i < 8) : (v % 256).testBit i = v.testBit i := by
  have h := Nat.testBit_mod_two_pow v 8 i
  norm_num at h
  rw [h]
  simp [hi]

theorem testBit_zero_of_bit (q b : Nat) (hb : b < 2) : (q * 2 + b).testBit 0 = decide (b = 1) := by
  rw [Nat.testBit_zero]
  congr 1
  apply propext
  constructor <;> intro h <;> omega

theorem testBit_succ_of_bit (q b k : Nat) (hb : b < 2) :
    (q * 2 + b).testBit (k + 1) = q.testBit k := by
  rw [Nat.testBit_succ]
  congr 1
  omega

/-- C2 (bit-codec inverse for bytes): for every byte `b` and every buffer `c`
of 8 carrier bytes, whatever their bits 1-7, `decode_byte_from_lsb` applied to
the result of `encode_byte_to_lsb b c` returns `b`. -/
theorem decode_byte_from_lsb_encode_byte_to_lsb (b : Nat) (c : List Nat) (hb : b < 256)
    (hc : c.length = 8) : decode_byte_from_lsb (encode_byte_to_lsb b c) = b := by
  rw [decode_encode_byte b c (by omega)]
  exact Nat.mod_eq_of_lt hb

theorem decode_byte_from_lsb_encode_byte_to_lsb_witness :
    (200 < 256 ∧ [255, 254, 3, 0, 129, 77, 16, 1].length = 8) ∧
      decode_byte_from_lsb (encode_byte_to_lsb 200 [255, 254, 3, 0, 129, 77, 16, 1]) = 200 :=
  ⟨⟨by decide, rfl⟩,
    decode_byte_from_lsb_encode_byte_to_lsb 200 [255, 254, 3, 0, 129, 77, 16, 1]
      (by decide) rfl⟩

/-- C3 (bit-codec inverse for 32-bit integers): for every 32-bit pattern `n`,
bit 31 set or not, and every buffer `c` of 32 carrier bytes,
`decode_size_from_lsb` applied to the result of `encode_size_to_lsb n c`
returns `n`. -/
theorem decode_size_from_lsb_encode_size_to_lsb (n : Nat) (c : List Nat) (hn : n < 2 ^ 32)
    (hc : c.length = 32) : decode_size_from_lsb (encode_size_to_lsb n c) = n := by
  rw [decode_encode_size n c (by omega)]
  exact Nat.mod_eq_of_lt hn

theorem decode_size_from_lsb_encode_size_to_lsb_witness :
    (4294967286 < 2 ^ 32 ∧ (List.replicate 32 255).length = 32) ∧
      decode_size_from_lsb (encode_size_to_lsb 4294967286 (List.replicate 32 255)) =
        4294967286 :=
  ⟨⟨by norm_num, rfl⟩,
    decode_size_from_lsb_encode_size_to_lsb 4294967286 (List.replicate 32 255)
      (by norm_num) rfl⟩

/-- C4 (postcondition of `encode_byte_to_lsb`): for every value `v` and every
buffer `c` of 8 carrier bytes, the buffer after the call still has 8 bytes,
and for each `i` in 0..7 bit 0 of entry `i` is bit `i` of `v` and bits 1-7 of
entry `i` are those of `c[i]`. -/
theorem encode_byte_to_lsb_postcondition (v : Nat) (c : List Nat) (hc : c.length = 8) :
    (encode_byte_to_lsb v c).length = 8 ∧
      ∀ i, i < 8 →
        ((encode_byte_to_lsb v c).getD i 0).testBit 0 = v.testBit i ∧
        ((encode_byte_to_lsb v c).getD i 0) < 256 ∧
        ∀ k, 1 ≤ k → k ≤ 7 →
          ((encode_byte_to_lsb v c).getD i 0).testBit k = (c.getD i 0).testBit k := by
  refine ⟨by rw [encode_byte_to_lsb_length, hc], ?_⟩
  intro i hi
  rw [encode_byte_to_lsb_getD v c i hi (by omega)]
  have hb : v % 256 / 2 ^ i % 2 < 2 := Nat.mod_lt _ (by norm_num)
  refine ⟨?_, ?_, ?_⟩
  · rw [testBit_zero_of_bit _ _ hb, ← testBit_low_byte v i hi, Nat.testBit_to_div_mod]
  · have : c.getD i 0 % 256 < 256 := Nat.mod_lt _ (by norm_num)
    omega
  · intro k hk1 hk7
    obtain ⟨k, rfl⟩ : ∃ j, k = j + 1 := ⟨k - 1, by omega⟩
    rw [testBit_succ_of_bit _ _ _ hb, ← Nat.testBit_succ, testBit_low_byte _ _ (by omega)]

theorem encode_byte_to_lsb_postcondition_witness :
    [255, 254, 3, 0, 129, 77, 16, 1].length = 8 ∧
      ((encode_byte_to_lsb 200 [255, 254, 3, 0, 129, 77, 16, 1]).length = 8 ∧
        ∀ i, i < 8 →
          ((encode_byte_to_lsb 200 [255, 254, 3, 0, 129, 77, 16, 1]).getD i 0).testBit 0 =
            (200 : Nat).testBit i ∧
          ((encode_byte_to_lsb 200 [255, 254, 3, 0, 129, 77, 16, 1]).getD i 0) < 256 ∧
          ∀ k, 1 ≤ k → k ≤ 7 →
            ((encode_byte_to_lsb 200 [255, 254, 3, 0, 129, 77, 16, 1]).getD i 0).testBit k =
              (([255, 254, 3, 0, 129, 77, 16, 1] : List Nat).getD i 0).testBit k) :=
  ⟨rfl, encode_byte_to_lsb_postcondition 200 [255, 254, 3, 0, 129, 77, 16, 1] rfl⟩

/-! ## The capacity check (claims C5, C6, C7) -/

theorem check_capacity_of_length (secret : List Nat) (h : secret.length = 4294967286) :
    check_capacity magic_hash_star zero_encode_indet ⟨carrier_4x4, secret, name_a_txt, dot_txt⟩ =
      e_success := by
  have h1 : get_image_size_for_bmp [] [] carrier_4x4 = 48 := by decide
  have h2 : strlen magic_hash_star = 2 := by decide
  have h3 : strlen dot_txt = 4 := by decide
  unfold check_capacity required_bytes get_file_size
  dsimp only [zero_encode_indet]
  rw [h, h1, h2, h3]
  decide

theorem capacity_below_of_length (secret : List Nat) (h : secret.length = 4294967286) :
    get_image_size_for_bmp [] [] carrier_4x4 / 8 = 6 ∧
      ¬ (get_image_size_for_bmp [] [] carrier_4x4 / 8 ≥
        strlen magic_hash_star + 4 + strlen dot_txt + 4 + secret.length) := by
  have h1 : get_image_size_for_bmp [] [] carrier_4x4 = 48 := by decide
  have h2 : strlen magic_hash_star = 2 := by decide
  have h3 : strlen dot_txt = 4 := by decide
  rw [h, h1, h2, h3]
  decide

/-- C5, counterexample: with a secret file of 4294967286 bytes, a 2-byte magic
string and the extension `.txt`, the sum 2 + 4 + 4 + 4 + 4294967286 wraps to 4
in `uint`, so `check_capacity` succeeds on a carrier whose capacity is 6
bytes, far below the sum. -/
theorem check_capacity_wraps :
    check_capacity magic_hash_star zero_encode_indet
        ⟨carrier_4x4, List.replicate 4294967286 0, name_a_txt, dot_txt⟩ = e_success ∧
      get_image_size_for_bmp [] [] carrier_4x4 / 8 = 6 ∧
      ¬ (get_image_size_for_bmp [] [] carrier_4x4 / 8 ≥
          strlen magic_hash_star + 4 + strlen dot_txt + 4
            + (List.replicate 4294967286 (0 : Nat)).length) :=
  ⟨check_capacity_of_length _ (List.length_replicate _ _),
    capacity_below_of_length _ (List.length_replicate _ _)⟩

/-- C5, amended (capacity boundary): whenever
`magic_len + 4 + ext_len + 4 + payload_len` is below `2 ^ 32`, `check_capacity`
returns success if and only if the pixel-byte count divided by 8 is at least
that sum; in particular it succeeds at equality and fails when the capacity
is one less than the sum.  Here `ext_len` is the length of the string in
`extn_secret_file` and `payload_len` the size of the secret file. -/
theorem check_capacity_boundary (MAGIC_STRING : List Nat) (u : EncodeIndet)
    (encInfo : EncodeInfo)
    (hsum : strlen MAGIC_STRING + 4 + strlen encInfo.extn_secret_file + 4
      + encInfo.secret.length < 2 ^ 32) :
    (check_capacity MAGIC_STRING u encInfo = e_success ↔
      get_image_size_for_bmp u.width u.height encInfo.src_image / 8 ≥
        strlen MAGIC_STRING + 4 + strlen encInfo.extn_secret_file + 4
          + encInfo.secret.length) ∧
    (get_image_size_for_bmp u.width u.height encInfo.src_image / 8 =
        strlen MAGIC_STRING + 4 + strlen encInfo.extn_secret_file + 4
          + encInfo.secret.length →
      check_capacity MAGIC_STRING u encInfo = e_success) ∧
    (get_image_size_for_bmp u.width u.height encInfo.src_image / 8 + 1 =
        strlen MAGIC_STRING + 4 + strlen encInfo.extn_secret_file + 4
          + encInfo.secret.length →
      check_capacity MAGIC_STRING u encInfo = e_failure) := by
  have hreq : required_bytes MAGIC_STRING encInfo =
      strlen MAGIC_STRING + 4 + strlen encInfo.extn_secret_file + 4
        + encInfo.secret.length := by
    unfold required_bytes get_file_size to_uint
    have h1 : encInfo.secret.length % 2 ^ 32 = encInfo.secret.length :=
      Nat.mod_eq_of_lt (by omega)
    rw [h1]
    exact Nat.mod_eq_of_lt (by omega)
  unfold check_capacity
  simp only [hreq]
  refine ⟨?_, ?_, ?_⟩
  · constructor
    · intro h
      by_contra hc
      rw [if_neg hc] at h
      exact absurd h (by decide)
    · intro h
      rw [if_pos h]
  · intro h
    rw [if_pos (by omega)]
  · intro h
    rw [if_neg (by omega)]

set_option maxRecDepth 1000000 in
theorem check_capacity_boundary_witness :
    (strlen magic_hash_star + 4 + strlen exact_fit_info.extn_secret_file + 4
        + exact_fit_info.secret.length < 2 ^ 32 ∧
      get_image_size_for_bmp [] [] exact_fit_info.src_image / 8 =
        strlen magic_hash_star + 4 + strlen exact_fit_info.extn_secret_file + 4
          + exact_fit_info.secret.length) ∧
      check_capacity magic_hash_star zero_encode_indet exact_fit_info = e_success :=
  ⟨⟨by decide, by decide⟩,
    (check_capacity_boundary magic_hash_star zero_encode_indet exact_fit_info
      (by decide)).2.1 (by decide)⟩

/-- C6 (capacity failure is all-or-nothing): whenever `check_capacity` returns
failure, `do_encoding` returns `e_failure` and has written no byte to the
stego image. -/
theorem do_encoding_capacity_failure (MAGIC_STRING : List Nat) (u : EncodeIndet)
    (encInfo : EncodeInfo) (h : check_capacity MAGIC_STRING u encInfo = e_failure) :
    do_encoding MAGIC_STRING u encInfo = some (e_failure, []) := by
  unfold do_encoding
  rw [h]
  simp

theorem do_encoding_capacity_failure_witness :
    check_capacity [83, 84, 69, 71] zero_encode_indet tiny_carrier_info = e_failure ∧
      do_encoding [83, 84, 69, 71] zero_encode_indet tiny_carrier_info = some (e_failure, []) :=
  ⟨by decide,
    do_encoding_capacity_failure [83, 84, 69, 71] zero_encode_indet tiny_carrier_info
      (by decide)⟩

/-- C7, the code at the failing input: the carrier has 96 pixel bytes, the
frame with the extension `.txt` needs 8 * (2 + 4 + 4 + 4 + 2) = 128, and yet
`check_capacity` succeeds (it sees the empty string in `extn_secret_file`)
and `do_encoding` returns success after writing 182 bytes. -/
theorem do_encoding_checks_stale_extension :
    get_image_size_for_bmp [] [] short_carrier_info.src_image = 96 ∧
      strstr_dot short_carrier_info.secret_fname = some dot_txt ∧
      96 < 8 * (strlen magic_hash_star + 4 + strlen dot_txt + 4
        + short_carrier_info.secret.length) ∧
      check_capacity magic_hash_star zero_encode_indet short_carrier_info = e_success ∧
      (do_encoding magic_hash_star zero_encode_indet short_carrier_info).map
        (fun r => (r.1, r.2.length)) = some (e_success, 182) := by
  set_option maxRecDepth 1000000 in decide

/-! ## The embed pipeline as a whole (claims C1, C8, C9, C10) -/

theorem copy_bmp_header_fst (image buffer0 : List Nat) (h : 54 ≤ image.length) :
    (copy_bmp_header image buffer0).1 = image.take 54 := by
  unfold copy_bmp_header
  dsimp only
  rw [fread_full _ 54 image (local_array_length 54 buffer0) h]
  exact fwrite_full _ 54 (by rw [List.length_take]; omega)

/-- A run of `do_encoding` that returns success passed the capacity check and
found a `.` in the name of the secret file. -/
theorem do_encoding_success_inv (MAGIC_STRING : List Nat) (u : EncodeIndet)
    (encInfo : EncodeInfo) (stego : List Nat)
    (hrun : do_encoding MAGIC_STRING u encInfo = some (e_success, stego)) :
    check_capacity MAGIC_STRING u encInfo = e_success ∧
      ∃ extn, strstr_dot encInfo.secret_fname = some extn := by
  unfold do_encoding at hrun
  by_cases hcap : check_capacity MAGIC_STRING u encInfo = e_success
  · refine ⟨hcap, ?_⟩
    cases hext : strstr_dot encInfo.secret_fname with
    | none => simp [hcap, hext] at hrun
    | some extn => exact ⟨extn, rfl⟩
  · simp [hcap] at hrun

/-- C8 (header preservation): for every carrier that has its 54-byte header
and every secret file for which `do_encoding` returns success, the first 54
bytes of the stego image are the first 54 bytes of the carrier. -/
theorem do_encoding_preserves_header (MAGIC_STRING : List Nat) (u : EncodeIndet)
    (encInfo : EncodeInfo) (stego : List Nat) (h54 : 54 ≤ encInfo.src_image.length)
    (hrun : do_encoding MAGIC_STRING u encInfo = some (e_success, stego)) :
    stego.take 54 = encInfo.src_image.take 54 := by
  obtain ⟨hcap, extn, hext⟩ := do_encoding_success_inv MAGIC_STRING u encInfo stego hrun
  unfold do_encoding at hrun
  simp only [hcap, if_true, hext, Option.some.injEq, Prod.mk.injEq, true_and] at hrun
  rw [← hrun]
  simp only [List.append_assoc]
  rw [List.take_append_of_le_length (by rw [copy_bmp_header_length]),
    copy_bmp_header_fst _ _ h54, List.take_take]
  simp

/-- C1, amended (round trip): for every carrier on which the capacity check
passes and every secret file of fewer than `2 ^ 31` bytes whose name has the
extension `extn` (the part from the first `.` on), `do_encoding` succeeds,
and every run of `do_decoding` on its output that can create its output file
succeeds, decodes the extension `extn` and leaves exactly the bytes of the
secret file in the output file.  The magic string (shorter than `2 ^ 31`) and
the file name are byte strings.  The output file can be created when the
output name has fewer than 50 characters, `fopen` opens the base name in mode
`wb`, the base name and `extn` together have fewer than 64 characters,
`rename` to the base name followed by `extn` succeeds, and `fopen` opens that
name in mode `a`. -/
theorem do_decoding_do_encoding (MAGIC_STRING : List Nat) (u : EncodeIndet) (v : DecodeIndet)
    (env : DecodeEnv) (encInfo : EncodeInfo) (extn : List Nat)
    (hname : strlen (given_name env.secret_fname) < 50)
    (hwb : env.fopen_wb (base_name env.secret_fname) = true)
    (hfit : (base_name env.secret_fname).length + extn.length < 64)
    (hren : env.rename (base_name env.secret_fname) (base_name env.secret_fname ++ extn) = true)
    (hap : env.fopen_a (base_name env.secret_fname ++ extn) = true)
    (hM : ∀ b ∈ MAGIC_STRING, b < 256) (hMl : strlen MAGIC_STRING < 2 ^ 31)
    (hN : ∀ b ∈ encInfo.secret_fname, b < 256)
    (hS : ∀ b ∈ encInfo.secret, b < 256) (hSl : encInfo.secret.length < 2 ^ 31)
    (hext : strstr_dot encInfo.secret_fname = some extn)
    (hcap : check_capacity MAGIC_STRING u encInfo = e_success) :
    ∃ stego, do_encoding MAGIC_STRING u encInfo = some (e_success, stego) ∧
      do_decoding MAGIC_STRING v env stego = some ⟨e_success, extn, encInfo.secret⟩ := by
  obtain ⟨hdr, mg, es, ex, fs, dt, rest, hrun, hh, hmg, hes, hesv, hex, hfs, hfsv, hdt⟩ :=
    do_encoding_layout MAGIC_STRING u encInfo extn hcap hext
  refine ⟨_, hrun, ?_⟩
  -- the extension is a string without NUL, made of bytes, no longer than the name
  have hmem := strstr_dot_mem encInfo.secret_fname extn hext
  have hne : ∀ b ∈ extn, b ≠ 0 := fun b hb => cstr_ne_zero _ b (hmem b hb)
  have hby : ∀ b ∈ extn, b < 256 := fun b hb => hN b (cstr_mem _ b (hmem b hb))
  have hcs : cstr extn = extn := cstr_eq_self extn hne
  have hsl : strlen extn = extn.length := by
    unfold strlen
    rw [hcs]
  have hle : extn.length ≤ strlen encInfo.secret_fname := by
    obtain ⟨p, hp⟩ := find_char_suffix 46 (cstr encInfo.secret_fname) extn hext
    unfold strlen
    rw [hp, List.length_append]
    omega
  have hel : extn.length < 2 ^ 31 - 1 := by omega
  -- the three counts
  have hc1 : loop_count (to_uint (strlen MAGIC_STRING)) = strlen MAGIC_STRING := by
    rw [to_uint_of_lt _ (by omega), loop_count_of_lt _ hMl]
  have hc2 : loop_count (to_uint (strlen extn)) = extn.length := by
    rw [hsl, to_uint_of_lt _ (by omega), loop_count_of_lt _ (by omega)]
  have hc3 : get_file_size encInfo.secret = encInfo.secret.length :=
    to_uint_of_lt _ (by omega)
  rw [hc1, bytes_from_cstr MAGIC_STRING hM] at hmg
  rw [hc2, bytes_from_self extn hby] at hex
  rw [hsl, to_uint_of_lt _ (by omega)] at hesv
  rw [encode_secret_file_data_buffer encInfo.secret u.block (by omega), hc3,
    loop_count_of_lt _ hSl, bytes_from_self _ hS] at hdt
  rw [hc3] at hfsv
  exact do_decoding_layout MAGIC_STRING v env hdr mg es ex fs dt rest extn encInfo.secret
    hname hwb hfit hren hap hh hmg hMl hes hesv hel hne hex hfs hfsv hSl hdt

set_option maxRecDepth 1000000 in
theorem do_decoding_do_encoding_witness :
    (strlen (given_name flat_directory.secret_fname) < 50 ∧
      flat_directory.fopen_wb (base_name flat_directory.secret_fname) = true ∧
      (base_name flat_directory.secret_fname).length + dot_txt.length < 64 ∧
      flat_directory.rename (base_name flat_directory.secret_fname)
        (base_name flat_directory.secret_fname ++ dot_txt) = true ∧
      flat_directory.fopen_a (base_name flat_directory.secret_fname ++ dot_txt) = true ∧
      (∀ b ∈ magic_hash_star, b < 256) ∧ strlen magic_hash_star < 2 ^ 31 ∧
      (∀ b ∈ note_txt_info.secret_fname, b < 256) ∧
      (∀ b ∈ note_txt_info.secret, b < 256) ∧ note_txt_info.secret.length < 2 ^ 31 ∧
      strstr_dot note_txt_info.secret_fname = some dot_txt ∧
      check_capacity magic_hash_star zero_encode_indet note_txt_info = e_success) ∧
    ∃ stego, do_encoding magic_hash_star zero_encode_indet note_txt_info =
        some (e_success, stego) ∧
      do_decoding magic_hash_star zero_decode_indet flat_directory stego =
        some ⟨e_success, dot_txt, note_txt_info.secret⟩ :=
  ⟨⟨by decide, by decide, by decide, by decide, by decide, by decide, by decide, by decide,
      by decide, by decide, by decide, by decide⟩,
    do_decoding_do_encoding magic_hash_star zero_encode_indet zero_decode_indet flat_directory
      note_txt_info dot_txt (by decide) (by decide) (by decide) (by decide) (by decide)
      (by decide) (by decide) (by decide) (by decide) (by decide) (by decide) (by decide)⟩

set_option maxRecDepth 1000000 in
theorem do_encoding_preserves_header_witness :
    (54 ≤ ten_byte_info.src_image.length ∧
      do_encoding magic_hash_star zero_encode_indet ten_byte_info =
        some (e_success, ten_byte_stego)) ∧
    ten_byte_stego.take 54 = ten_byte_info.src_image.take 54 :=
  ⟨⟨by decide, by decide⟩,
    do_encoding_preserves_header magic_hash_star zero_encode_indet
      ten_byte_info ten_byte_stego (by decide) (by decide)⟩

theorem do_encoding_of_long_secret (secret : List Nat) (hl : secret.length = 4294967297)
    (ht : secret.take 1 = [65]) :
    check_capacity magic_hash_star zero_encode_indet
        ⟨carrier_10x10, secret, name_a_txt, dot_txt⟩ =
      check_capacity magic_hash_star zero_encode_indet
        ⟨carrier_10x10, [65], name_a_txt, dot_txt⟩ ∧
    do_encoding magic_hash_star zero_encode_indet ⟨carrier_10x10, secret, name_a_txt, dot_txt⟩ =
      do_encoding magic_hash_star zero_encode_indet ⟨carrier_10x10, [65], name_a_txt, dot_txt⟩ := by
  have hs : get_file_size secret = 1 := by
    unfold get_file_size to_uint
    rw [hl]
    decide
  have hs1 : get_file_size [65] = 1 := by decide
  have hc : check_capacity magic_hash_star zero_encode_indet
        ⟨carrier_10x10, secret, name_a_txt, dot_txt⟩ =
      check_capacity magic_hash_star zero_encode_indet
        ⟨carrier_10x10, [65], name_a_txt, dot_txt⟩ := by
    unfold check_capacity required_bytes
    dsimp only
    rw [hs, hs1]
  refine ⟨hc, ?_⟩
  have hd : ∀ src, encode_secret_file_data secret 1 src zero_encode_indet.block
        zero_encode_indet.arr_data =
      encode_secret_file_data [65] 1 src zero_encode_indet.block zero_encode_indet.arr_data := by
    intro src
    unfold encode_secret_file_data fread
    dsimp only
    rw [ht]
    rfl
  unfold do_encoding
  dsimp only
  rw [hc, hs, hs1]
  simp only [hd]

/-- C1, counterexample: a secret file of 4294967297 bytes (all `A`) has the
size 1 in the `uint` of `get_file_size`; the capacity check passes on a 10 by
10 carrier, `do_encoding` succeeds, and `do_decoding` on its output (no
output name given, in a writable directory) succeeds with the one byte `A`,
not the 4294967297 bytes of the secret file. -/
theorem do_encoding_truncates_long_secret :
    check_capacity magic_hash_star zero_encode_indet
        ⟨carrier_10x10, List.replicate 4294967297 65, name_a_txt, dot_txt⟩ = e_success ∧
      (do_encoding magic_hash_star zero_encode_indet
        ⟨carrier_10x10, List.replicate 4294967297 65, name_a_txt, dot_txt⟩).bind
          (fun r => (do_decoding magic_hash_star zero_decode_indet flat_directory r.2).map
            (fun d => (r.1, d))) = some (e_success, ⟨e_success, dot_txt, [65]⟩) ∧
      (List.replicate 4294967297 65).length ≠ [65].length := by
  have h := do_encoding_of_long_secret (List.replicate 4294967297 65)
    (List.length_replicate _ _) (by rw [List.take_replicate]; rfl)
  refine ⟨?_, ?_, ?_⟩
  · rw [h.1]
    set_option maxRecDepth 1000000 in decide
  · rw [h.2]
    set_option maxRecDepth 1000000 in decide
  · rw [List.length_replicate]
    decide

/-- The secret file `./note.txt`: `do_encoding` writes the extension
`./note.txt`, and `do_decoding` on its output (no output name given, in a
writable directory without subdirectories) decodes this extension, cannot
open `decoded./note.txt` and returns failure with no output. -/
theorem do_decoding_slash_extension :
    strstr_dot dot_slash_info.secret_fname = some name_dot_slash_note_txt ∧
      (do_encoding magic_hash_star zero_encode_indet dot_slash_info).bind
        (fun r => (do_decoding magic_hash_star zero_decode_indet flat_directory r.2).map
          (fun d => (r.1, d))) =
        some (e_success, ⟨e_failure, name_dot_slash_note_txt, []⟩) := by
  set_option maxRecDepth 1000000 in decide

/-- C9, the code at the failing input: the carrier is a well-formed file of
54 + 96 = 150 bytes, `do_encoding` returns success, and the stego image has
182 bytes. -/
theorem do_encoding_grows_short_carrier :
    short_carrier_info.src_image.length = 150 ∧
      short_carrier_info.src_image.length =
        54 + get_image_size_for_bmp [] [] short_carrier_info.src_image ∧
      (do_encoding magic_hash_star zero_encode_indet short_carrier_info).map
        (fun r => (r.1, decide (r.2.length = short_carrier_info.src_image.length), r.2.length)) =
          some (e_success, false, 182) := by
  set_option maxRecDepth 1000000 in decide

/-- C10, the code at the failing input: the frame region of the run is
`[54, 182)`; at offset 150, inside it, the stego image has a byte and the
150-byte carrier has none. -/
theorem do_encoding_frame_exceeds_short_carrier :
    54 + 8 * (strlen magic_hash_star + 4 + strlen dot_txt + 4
        + short_carrier_info.secret.length) = 182 ∧
      strstr_dot short_carrier_info.secret_fname = some dot_txt ∧
      short_carrier_info.src_image[150]? = none ∧
      (do_encoding magic_hash_star zero_encode_indet short_carrier_info).map
        (fun r => (r.1, r.2[150]?)) = some (e_success, some 0) := by
  set_option maxRecDepth 1000000 in decide

/-! ## What the embed pipeline does to a carrier that has room for the frame -/

theorem AgreeHigh_append (a b c d : List Nat) (h1 : AgreeHigh a b) (h2 : AgreeHigh c d) :
    AgreeHigh (a ++ c) (b ++ d) := by
  refine ⟨by rw [List.length_append, List.length_append, h1.1, h2.1], ?_⟩
  intro k hk j hj1 hj7
  rw [List.length_append] at hk
  by_cases hka : k < a.length
  · rw [List.getD_append _ _ _ _ hka, List.getD_append _ _ _ _ (by rw [← h1.1]; exact hka)]
    exact h1.2 k hka j hj1 hj7
  · rw [List.getD_append_right _ _ _ _ (by omega),
      List.getD_append_right _ _ _ _ (by rw [← h1.1]; omega), ← h1.1]
    exact h2.2 (k - a.length) (by omega) j hj1 hj7

theorem AgreeHigh_refl (a : List Nat) : AgreeHigh a a := ⟨rfl, fun _ _ _ _ _ => rfl⟩

theorem high_bits_of_bit (x b j : Nat) (hb : b < 2) (hj1 : 1 ≤ j) (hj7 : j ≤ 7) :
    (x % 256 / 2 * 2 + b).testBit j = x.testBit j := by
  obtain ⟨j, rfl⟩ : ∃ i, j = i + 1 := ⟨j - 1, by omega⟩
  rw [testBit_succ_of_bit _ _ _ hb, ← Nat.testBit_succ, testBit_low_byte _ _ (by omega)]

theorem encode_byte_to_lsb_agree (data : Nat) (buf : List Nat) (hl : buf.length = 8) :
    AgreeHigh (encode_byte_to_lsb data buf) buf := by
  refine ⟨encode_byte_to_lsb_length data buf, ?_⟩
  intro k hk j hj1 hj7
  rw [encode_byte_to_lsb_length, hl] at hk
  rw [encode_byte_to_lsb_getD data buf k hk (by omega)]
  exact high_bits_of_bit _ _ j (Nat.mod_lt _ (by norm_num)) hj1 hj7

theorem encode_size_to_lsb_agree (size : Nat) (buf : List Nat) (hl : buf.length = 32) :
    AgreeHigh (encode_size_to_lsb size buf) buf := by
  refine ⟨encode_size_to_lsb_length size buf, ?_⟩
  intro k hk j hj1 hj7
  rw [encode_size_to_lsb_length, hl] at hk
  rw [encode_size_to_lsb_getD size buf k hk (by omega)]
  exact high_bits_of_bit _ _ j (Nat.mod_lt _ (by norm_num)) hj1 hj7

/-- With `8 * n` bytes left in the source image, the loop of
`encode_data_to_image` consumes exactly these and writes them back with only
their least-significant bits changed. -/
theorem encode_data_loop_room (data : List Nat) (n : Nat) :
    ∀ (i : Nat) (src arr : List Nat), arr.length = 8 → 8 * n ≤ src.length →
      (encode_data_loop data n i src arr).2 = src.drop (8 * n) ∧
        AgreeHigh (encode_data_loop data n i src arr).1 (src.take (8 * n)) := by
  induction n with
  | zero =>
    intro i src arr _ _
    simp [encode_data_loop, AgreeHigh]
  | succ n ih =>
    intro i src arr harr hroom
    have hfr : fread arr 8 src = (src.take 8, src.drop 8) :=
      fread_full arr 8 src harr (by omega)
    have h8 : (src.take 8).length = 8 := by
      rw [List.length_take]
      omega
    have h2 : (encode_byte_to_lsb (data.getD i 0) (src.take 8)).length = 8 := by
      rw [encode_byte_to_lsb_length, h8]
    obtain ⟨ih1, ih2⟩ := ih (i + 1) (src.drop 8)
      (encode_byte_to_lsb (data.getD i 0) (src.take 8)) h2
      (by rw [List.length_drop]; omega)
    simp only [encode_data_loop, hfr]
    rw [fwrite_full _ 8 h2]
    have hmul : 8 * (n + 1) = 8 + 8 * n := by ring
    refine ⟨?_, ?_⟩
    · rw [ih1, List.drop_drop, hmul]
    · rw [hmul, List.take_add]
      exact AgreeHigh_append _ _ _ _ (encode_byte_to_lsb_agree _ _ h8) ih2

theorem encode_data_to_image_room (data : List Nat) (size : Nat) (src arr0 : List Nat)
    (hroom : 8 * loop_count size ≤ src.length) :
    (encode_data_to_image data size src arr0).2 = src.drop (8 * loop_count size) ∧
      AgreeHigh (encode_data_to_image data size src arr0).1 (src.take (8 * loop_count size)) :=
  encode_data_loop_room data (loop_count size) 0 src _ (local_array_length 8 arr0) hroom

theorem encode_secret_file_size_room (file_size : Nat) (src arr0 : List Nat)
    (hroom : 32 ≤ src.length) :
    (encode_secret_file_size file_size src arr0).2 = src.drop 32 ∧
      AgreeHigh (encode_secret_file_size file_size src arr0).1 (src.take 32) := by
  unfold encode_secret_file_size
  dsimp only
  have h32 : (src.take 32).length = 32 := by
    rw [List.length_take]
    omega
  rw [fread_full _ 32 src (local_array_length 32 arr0) hroom]
  dsimp only
  rw [fwrite_full _ 32 (by rw [encode_size_to_lsb_length, h32])]
  exact ⟨rfl, encode_size_to_lsb_agree _ _ h32⟩

theorem AgreeHigh_chain (a b s : List Nat) (p q : Nat) (h1 : AgreeHigh a (s.take p))
    (h2 : AgreeHigh b ((s.drop p).take q)) : AgreeHigh (a ++ b) (s.take (p + q)) := by
  rw [List.take_add]
  exact AgreeHigh_append _ _ _ _ h1 h2

/-- The five fields of the frame written over a stream that has room for
them: the stream is consumed up to the end of the frame, and what is written
differs from what was read in least-significant bits only. -/
theorem encode_frame_room (MAGIC_STRING extn secret : List Nat) (u : EncodeIndet)
    (s0 : List Nat) (hroom : frame_bytes MAGIC_STRING extn secret ≤ s0.length) :
    ∃ mg es ex fs dt,
      encode_magic_string MAGIC_STRING s0 u.arr_magic = (mg, s0.drop (mg.length)) ∧
      encode_secret_file_extn_size (to_uint (strlen extn)) (s0.drop mg.length) u.arr_extn_size =
        (es, s0.drop (mg.length + es.length)) ∧
      encode_secret_file_extn extn (s0.drop (mg.length + es.length)) u.arr_extn =
        (ex, s0.drop (mg.length + es.length + ex.length)) ∧
      encode_secret_file_size (get_file_size secret)
          (s0.drop (mg.length + es.length + ex.length)) u.arr_file_size =
        (fs, s0.drop (mg.length + es.length + ex.length + fs.length)) ∧
      encode_secret_file_data secret (get_file_size secret)
          (s0.drop (mg.length + es.length + ex.length + fs.length)) u.block u.arr_data =
        (dt, s0.drop (frame_bytes MAGIC_STRING extn secret)) ∧
      AgreeHigh (mg ++ es ++ ex ++ fs ++ dt) (s0.take (frame_bytes MAGIC_STRING extn secret)) := by
  unfold frame_bytes at hroom ⊢
  generalize hm : loop_count (to_uint (strlen MAGIC_STRING)) = m at hroom ⊢
  generalize he : loop_count (to_uint (strlen extn)) = e at hroom ⊢
  generalize hn : loop_count (get_file_size secret) = n at hroom ⊢
  obtain ⟨a2, a1⟩ := encode_data_to_image_room MAGIC_STRING (to_uint (strlen MAGIC_STRING))
    s0 u.arr_magic (by rw [hm]; omega)
  rw [hm] at a1 a2
  have al : (encode_data_to_image MAGIC_STRING (to_uint (strlen MAGIC_STRING)) s0
      u.arr_magic).1.length = 8 * m := by
    rw [a1.1, List.length_take]
    omega
  obtain ⟨b2, b1⟩ := encode_secret_file_size_room (to_uint (strlen extn))
    (s0.drop (8 * m)) u.arr_extn_size (by rw [List.length_drop]; omega)
  have bl : (encode_secret_file_size (to_uint (strlen extn)) (s0.drop (8 * m))
      u.arr_extn_size).1.length = 32 := by
    rw [b1.1, List.length_take, List.length_drop]
    omega
  obtain ⟨c2, c1⟩ := encode_data_to_image_room extn (to_uint (strlen extn))
    (s0.drop (8 * m + 32)) u.arr_extn (by rw [he, List.length_drop]; omega)
  rw [he] at c1 c2
  have cl : (encode_data_to_image extn (to_uint (strlen extn)) (s0.drop (8 * m + 32))
      u.arr_extn).1.length = 8 * e := by
    rw [c1.1, List.length_take, List.length_drop]
    omega
  obtain ⟨d2, d1⟩ := encode_secret_file_size_room (get_file_size secret)
    (s0.drop (8 * m + 32 + 8 * e)) u.arr_file_size (by rw [List.length_drop]; omega)
  have dl : (encode_secret_file_size (get_file_size secret) (s0.drop (8 * m + 32 + 8 * e))
      u.arr_file_size).1.length = 32 := by
    rw [d1.1, List.length_take, List.length_drop]
    omega
  obtain ⟨f2, f1⟩ := encode_data_to_image_room
    (fread (local_array (get_file_size secret) u.block) (get_file_size secret) secret).1
    (get_file_size secret) (s0.drop (8 * m + 32 + 8 * e + 32)) u.arr_data
    (by rw [hn, List.length_drop]; omega)
  rw [hn] at f1 f2
  have hagree := AgreeHigh_chain _ _ _ _ _
    (AgreeHigh_chain _ _ _ _ _ (AgreeHigh_chain _ _ _ _ _ (AgreeHigh_chain _ _ _ _ _ a1 b1) c1) d1)
    f1
  refine ⟨(encode_data_to_image MAGIC_STRING (to_uint (strlen MAGIC_STRING)) s0 u.arr_magic).1,
    (encode_secret_file_size (to_uint (strlen extn)) (s0.drop (8 * m)) u.arr_extn_size).1,
    (encode_data_to_image extn (to_uint (strlen extn)) (s0.drop (8 * m + 32)) u.arr_extn).1,
    (encode_secret_file_size (get_file_size secret) (s0.drop (8 * m + 32 + 8 * e))
      u.arr_file_size).1,
    (encode_data_to_image
      (fread (local_array (get_file_size secret) u.block) (get_file_size secret) secret).1
      (get_file_size secret) (s0.drop (8 * m + 32 + 8 * e + 32)) u.arr_data).1,
    ?_, ?_, ?_, ?_, ?_, hagree⟩
  · unfold encode_magic_string
    rw [al, ← a2]
  · rw [List.drop_drop] at b2
    rw [al, bl, encode_secret_file_extn_size_eq, ← b2]
  · unfold encode_secret_file_extn
    rw [List.drop_drop] at c2
    rw [al, bl, cl, ← c2]
  · rw [List.drop_drop] at d2
    rw [al, bl, cl, dl, ← d2]
  · unfold encode_secret_file_data
    rw [List.drop_drop] at f2
    rw [al, bl, cl, dl, ← f2]

/-- On a carrier that holds its header and as many further bytes as the frame
takes, a successful run of `do_encoding` writes the header, then the frame
region with only least-significant bits changed, then the rest of the carrier
unchanged; the stego image has the length of the carrier. -/
theorem do_encoding_room (MAGIC_STRING : List Nat) (u : EncodeIndet) (encInfo : EncodeInfo)
    (extn : List Nat) (hcap : check_capacity MAGIC_STRING u encInfo = e_success)
    (hext : strstr_dot encInfo.secret_fname = some extn)
    (hroom : 54 + frame_bytes MAGIC_STRING extn encInfo.secret ≤ encInfo.src_image.length) :
    ∃ frame,
      do_encoding MAGIC_STRING u encInfo =
        some (e_success, encInfo.src_image.take 54 ++ frame ++
          encInfo.src_image.drop (54 + frame_bytes MAGIC_STRING extn encInfo.secret)) ∧
      AgreeHigh frame
        ((encInfo.src_image.drop 54).take (frame_bytes MAGIC_STRING extn encInfo.secret)) ∧
      (encInfo.src_image.take 54 ++ frame ++
        encInfo.src_image.drop (54 + frame_bytes MAGIC_STRING extn encInfo.secret)).length =
          encInfo.src_image.length := by
  obtain ⟨mg, es, ex, fs, dt, h1, h2, h3, h4, h5, hagree⟩ :=
    encode_frame_room MAGIC_STRING extn encInfo.secret u (encInfo.src_image.drop 54)
      (by rw [List.length_drop]; omega)
  refine ⟨mg ++ es ++ ex ++ fs ++ dt, ?_, hagree, ?_⟩
  · unfold do_encoding
    simp only [hcap, if_true, hext]
    rw [copy_bmp_header_snd, copy_bmp_header_fst _ _ (by omega), h1]
    dsimp only
    rw [h2]
    dsimp only
    rw [h3]
    dsimp only
    rw [h4]
    dsimp only
    rw [h5]
    dsimp only
    unfold copy_remaining_img_data
    rw [List.drop_drop]
    simp only [List.append_assoc]
  · rw [List.length_append, List.length_append, hagree.1, List.length_take, List.length_take,
      List.length_drop, List.length_drop]
    omega

theorem loop_count_le (x : Nat) : loop_count x ≤ x := by
  unfold loop_count int_val
  have h : x % 2 ^ 32 ≤ x := Nat.mod_le _ _
  split <;> omega

/-- Had `check_capacity` seen a string at least as long as the real extension
in `extn_secret_file`, and no wrap-around in `required_bytes`, then its
success would leave room for the whole frame in the declared pixel bytes. -/
theorem frame_bytes_le_of_check (MAGIC_STRING : List Nat) (u : EncodeIndet)
    (encInfo : EncodeInfo) (extn : List Nat)
    (hcap : check_capacity MAGIC_STRING u encInfo = e_success)
    (hcount : strlen extn ≤ strlen encInfo.extn_secret_file)
    (hsum : strlen MAGIC_STRING + 4 + strlen encInfo.extn_secret_file + 4
      + encInfo.secret.length < 2 ^ 32) :
    frame_bytes MAGIC_STRING extn encInfo.secret ≤
      get_image_size_for_bmp u.width u.height encInfo.src_image := by
  have hreq : required_bytes MAGIC_STRING encInfo =
      strlen MAGIC_STRING + 4 + strlen encInfo.extn_secret_file + 4
        + encInfo.secret.length := by
    unfold required_bytes get_file_size to_uint
    have h1 : encInfo.secret.length % 2 ^ 32 = encInfo.secret.length :=
      Nat.mod_eq_of_lt (by omega)
    rw [h1]
    exact Nat.mod_eq_of_lt (by omega)
  unfold check_capacity at hcap
  simp only [hreq] at hcap
  have hge : get_image_size_for_bmp u.width u.height encInfo.src_image / 8 ≥
      strlen MAGIC_STRING + 4 + strlen encInfo.extn_secret_file + 4
        + encInfo.secret.length := by
    by_contra hc
    rw [if_neg hc] at hcap
    exact absurd hcap (by decide)
  have h1 := loop_count_le (to_uint (strlen MAGIC_STRING))
  have h2 := loop_count_le (to_uint (strlen extn))
  have h3 := loop_count_le (get_file_size encInfo.secret)
  have h4 : to_uint (strlen MAGIC_STRING) ≤ strlen MAGIC_STRING := Nat.mod_le _ _
  have h5 : to_uint (strlen extn) ≤ strlen extn := Nat.mod_le _ _
  have h6 : get_file_size encInfo.secret ≤ encInfo.secret.length := Nat.mod_le _ _
  unfold frame_bytes
  omega

/-! ## Reading the least-significant bits of a stream -/

theorem decode_byte_from_lsb_eq_lsb (buf : List Nat) :
    decode_byte_from_lsb buf = lsb_value 8 buf := decode_byte_from_lsb_eq buf

theorem decode_size_from_lsb_eq_lsb (buf : List Nat) :
    decode_size_from_lsb buf = lsb_value 32 buf := decode_size_from_lsb_eq buf

theorem lsb_bytes_length (n : Nat) : ∀ s, (lsb_bytes n s).length = n := by
  induction n with
  | zero => intro s; rfl
  | succ n ih => intro s; simp [lsb_bytes, ih]

theorem Carries_lsb_bytes (n : Nat) :
    ∀ s : List Nat, 8 * n ≤ s.length → Carries (lsb_bytes n s) (s.take (8 * n)) := by
  induction n with
  | zero => intro s _; simp [lsb_bytes, Carries]
  | succ n ih =>
    intro s hs
    have hmul : 8 * (n + 1) = 8 + 8 * n := by ring
    rw [hmul, List.take_add]
    simp only [lsb_bytes]
    refine Carries_append _ _ _ _ (by rw [List.length_take]; omega) ?_
      (ih (s.drop 8) (by rw [List.length_drop]; omega))
    exact decode_byte_from_lsb_eq_lsb _

theorem lsb_bytes_of_Carries : ∀ (bs out t : List Nat), Carries bs out →
    lsb_bytes bs.length (out ++ t) = bs
  | [], _, _, _ => rfl
  | b :: bs, out, t, hc => by
    obtain ⟨h1, h2, h3⟩ := hc
    have hd : (out ++ t).drop 8 = out.drop 8 ++ t := List.drop_append_of_le_length h1
    have ht : (out ++ t).take 8 = out.take 8 := List.take_append_of_le_length h1
    simp only [List.length_cons, lsb_bytes]
    rw [ht, hd, ← decode_byte_from_lsb_eq_lsb, h2, lsb_bytes_of_Carries bs (out.drop 8) t h3]

theorem lsb_bytes_take (n : Nat) : ∀ s : List Nat, lsb_bytes n (s.take (8 * n)) = lsb_bytes n s := by
  induction n with
  | zero => intro s; rfl
  | succ n ih =>
    intro s
    have hmul : 8 * (n + 1) = 8 + 8 * n := by ring
    simp only [lsb_bytes]
    rw [hmul, List.take_take, List.drop_take]
    have h1 : min 8 (8 + 8 * n) = 8 := by omega
    have h2 : 8 + 8 * n - 8 = 8 * n := by omega
    rw [h1, h2, ih]

theorem lsb_bytes_getD (n : Nat) : ∀ (s : List Nat) (k : Nat), k < n →
    (lsb_bytes n s).getD k 0 = lsb_value 8 ((s.drop (8 * k)).take 8) := by
  induction n with
  | zero => intro s k hk; omega
  | succ n ih =>
    intro s k hk
    cases k with
    | zero => simp [lsb_bytes]
    | succ k =>
      have hmul : 8 * (k + 1) = 8 + 8 * k := by ring
      simp only [lsb_bytes, List.getD_cons_succ]
      rw [ih (s.drop 8) k (by omega), List.drop_drop, hmul]

/-! ## The extract pipeline on an arbitrary stream -/

theorem decode_data_from_image_long (buffer s arr0 : List Nat) (size n : Nat)
    (hsz : loop_count size = n) (hb : n ≤ buffer.length) (hs : 8 * n ≤ s.length) :
    decode_data_from_image buffer size s arr0 =
      (e_success, lsb_bytes n s ++ buffer.drop n, s.drop (8 * n)) := by
  have h := decode_data_from_image_carries (lsb_bytes n s) buffer (s.take (8 * n))
    (s.drop (8 * n)) arr0 size (by rw [hsz, lsb_bytes_length])
    (by rw [lsb_bytes_length]; exact hb) (Carries_lsb_bytes n s hs)
  rw [List.take_append_drop, lsb_bytes_length] at h
  exact h

theorem cstr_append_zero (bs q : List Nat) : cstr (bs ++ 0 :: q) = cstr bs := by
  induction bs with
  | nil => simp [cstr]
  | cons x bs ih =>
    simp only [cstr] at ih ⊢
    by_cases hx : x = 0
    · simp [List.takeWhile_cons, hx]
    · simp [List.takeWhile_cons, hx, ih]

theorem cstr_set_zero (bs post : List Nat) (hp : post ≠ []) :
    cstr ((bs ++ post).set bs.length 0) = cstr bs := by
  cases post with
  | nil => exact absurd rfl hp
  | cons x q =>
    rw [List.set_append_right _ _ (le_refl _)]
    simp only [Nat.sub_self, List.set_cons_zero]
    exact cstr_append_zero bs q

theorem cstr_eq_cstr_iff (bs M : List Nat) (hl : bs.length = strlen M) :
    cstr bs = cstr M ↔ bs = cstr M := by
  constructor
  · intro h
    have hlen : (cstr bs).length = bs.length := by rw [h, hl]; rfl
    have hpre : cstr bs <+: bs := List.takeWhile_prefix _
    have := hpre.eq_of_length hlen
    rw [← this, h]
  · intro h
    rw [h, cstr_eq_self _ (cstr_ne_zero M)]

/-- On a stream that holds the signature bytes, `decode_magic_string` succeeds
exactly when these carry the magic string, and stops right after them. -/
theorem decode_magic_string_long (MAGIC_STRING : List Nat) (v : DecodeIndet) (stego : List Nat)
    (hl : strlen MAGIC_STRING < 2 ^ 31)
    (hs : 54 + 8 * strlen MAGIC_STRING ≤ stego.length) :
    decode_magic_string MAGIC_STRING v stego =
      (if lsb_bytes (strlen MAGIC_STRING) (stego.drop 54) = cstr MAGIC_STRING then e_success
        else e_failure, stego.drop (54 + 8 * strlen MAGIC_STRING)) := by
  unfold decode_magic_string
  have hsz : loop_count (to_uint (strlen MAGIC_STRING)) = strlen MAGIC_STRING := by
    rw [to_uint_of_lt _ (by omega), loop_count_of_lt _ hl]
  dsimp only
  rw [decode_data_from_image_long _ (stego.drop 54) _ _ (strlen MAGIC_STRING) hsz
    (by rw [local_array_length]; omega) (by rw [List.length_drop]; omega)]
  dsimp only
  have hterm := cstr_set_zero (lsb_bytes (strlen MAGIC_STRING) (stego.drop 54))
    ((local_array (strlen MAGIC_STRING + 1) v.magic_data).drop (strlen MAGIC_STRING))
    (by
      intro hnil
      have := congrArg List.length hnil
      simp only [List.length_drop, List.length_nil, local_array_length] at this
      omega)
  rw [lsb_bytes_length] at hterm
  rw [hterm, List.drop_drop]
  by_cases hc : lsb_bytes (strlen MAGIC_STRING) (stego.drop 54) = cstr MAGIC_STRING
  · rw [if_pos hc, if_pos ((cstr_eq_cstr_iff _ _ (lsb_bytes_length _ _)).mpr hc)]
  · rw [if_neg hc, if_neg (fun h => hc ((cstr_eq_cstr_iff _ _ (lsb_bytes_length _ _)).mp h))]

theorem decode_file_extn_size_long (v : DecodeIndet) (s : List Nat) (hs : 32 ≤ s.length) :
    decode_file_extn_size v s = (e_success, lsb_value 32 (s.take 32), s.drop 32) := by
  unfold decode_file_extn_size
  rw [fread_full _ 32 s (local_array_length 32 _) hs]
  dsimp only
  rw [if_neg (by omega), decode_size_from_lsb_eq_lsb]

theorem decode_secret_file_extn_long (v : DecodeIndet) (s : List Nat) (file_extn : Nat)
    (hl : file_extn < 2 ^ 31 - 1) (hs : 8 * file_extn ≤ s.length) :
    decode_secret_file_extn file_extn v s =
      some (cstr (lsb_bytes file_extn s), s.drop (8 * file_extn)) := by
  unfold decode_secret_file_extn
  have hiv : int_val file_extn = (file_extn : Int) := int_val_of_lt _ (by omega)
  have hlc : loop_count file_extn = file_extn := loop_count_of_lt _ (by omega)
  have hcond : ¬ (int_val file_extn < 0 ∨ int_val file_extn = 2 ^ 31 - 1) := by
    rw [hiv]
    omega
  rw [if_neg hcond, hlc]
  dsimp only
  rw [decode_data_from_image_long _ s _ _ file_extn hlc (by rw [local_array_length]; omega) hs]
  dsimp only
  have hterm := cstr_set_zero (lsb_bytes file_extn s)
    ((local_array (file_extn + 1) v.extn_secret_file).drop file_extn)
    (by
      intro hnil
      have := congrArg List.length hnil
      simp only [List.length_drop, List.length_nil, local_array_length] at this
      omega)
  rw [lsb_bytes_length] at hterm
  rw [hterm]

theorem decode_secret_file_size_long (v : DecodeIndet) (s : List Nat) (hs : 32 ≤ s.length) :
    decode_secret_file_size v s = (lsb_value 32 (s.take 32), s.drop 32) := by
  unfold decode_secret_file_size
  rw [fread_full _ 32 s (local_array_length 32 _) hs]
  dsimp only
  rw [decode_size_from_lsb_eq_lsb]

theorem decode_secret_file_data_long (v : DecodeIndet) (s : List Nat) (size : Nat)
    (hl : size < 2 ^ 31) (hs : 8 * size ≤ s.length) :
    decode_secret_file_data size v s = lsb_bytes size s := by
  have h := decode_secret_file_data_ok v (lsb_bytes size s) (s.take (8 * size))
    (s.drop (8 * size)) size (by rw [lsb_bytes_length]) (by rw [lsb_bytes_length]; exact hl)
    (Carries_lsb_bytes size s hs)
  rw [List.take_append_drop] at h
  exact h

theorem loop_count_of_ge (size : Nat) (h1 : 2 ^ 31 ≤ size) (h2 : size < 2 ^ 32) :
    loop_count size = 0 := by
  unfold loop_count int_val
  have : size % 2 ^ 32 = size := Nat.mod_eq_of_lt h2
  rw [this, if_neg (by omega)]
  omega

theorem decode_secret_file_data_negative (v : DecodeIndet) (s : List Nat) (size : Nat)
    (h1 : 2 ^ 31 ≤ size) (h2 : size < 2 ^ 32) : decode_secret_file_data size v s = [] := by
  unfold decode_secret_file_data
  rw [loop_count_of_ge size h1 h2]
  rfl

/-- The extract pipeline on a carrier that holds the signature, the extension
length `E`, the `E` extension bytes and the payload-length field. -/
theorem do_decoding_fields (MAGIC_STRING : List Nat) (v : DecodeIndet) (env : DecodeEnv)
    (stego : List Nat) (E : Nat) (hl : strlen MAGIC_STRING < 2 ^ 31)
    (hname : strlen (given_name env.secret_fname) < 50)
    (hwb : env.fopen_wb (base_name env.secret_fname) = true)
    (hfit : (base_name env.secret_fname).length +
      (cstr (lsb_bytes E (stego.drop (54 + 8 * strlen MAGIC_STRING + 32)))).length < 64)
    (hren : env.rename (base_name env.secret_fname) (base_name env.secret_fname ++
      cstr (lsb_bytes E (stego.drop (54 + 8 * strlen MAGIC_STRING + 32)))) = true)
    (hap : env.fopen_a (base_name env.secret_fname ++
      cstr (lsb_bytes E (stego.drop (54 + 8 * strlen MAGIC_STRING + 32)))) = true)
    (hlen : 54 + 8 * strlen MAGIC_STRING + 32 + 8 * E + 32 ≤ stego.length)
    (hsig : lsb_bytes (strlen MAGIC_STRING) (stego.drop 54) = cstr MAGIC_STRING)
    (hE : lsb_value 32 ((stego.drop (54 + 8 * strlen MAGIC_STRING)).take 32) = E)
    (hEl : E < 2 ^ 31 - 1) :
    do_decoding MAGIC_STRING v env stego =
      some ⟨e_success, cstr (lsb_bytes E (stego.drop (54 + 8 * strlen MAGIC_STRING + 32))),
        decode_secret_file_data
          (lsb_value 32 ((stego.drop (54 + 8 * strlen MAGIC_STRING + 32 + 8 * E)).take 32)) v
          (stego.drop (54 + 8 * strlen MAGIC_STRING + 32 + 8 * E + 32))⟩ := by
  have hn1 : ¬ 50 ≤ strlen (given_name env.secret_fname) := by omega
  have hn2 : ¬ env.fopen_wb (base_name env.secret_fname) = false := by rw [hwb]; decide
  have hn3 : ¬ 64 ≤ (base_name env.secret_fname).length +
      (cstr (lsb_bytes E (stego.drop (54 + 8 * strlen MAGIC_STRING + 32)))).length := by omega
  have hn4 : ¬ env.fopen_a (base_name env.secret_fname ++
      cstr (lsb_bytes E (stego.drop (54 + 8 * strlen MAGIC_STRING + 32)))) = false := by
    rw [hap]; decide
  unfold do_decoding
  rw [if_neg hn1]
  dsimp only
  rw [if_neg hn2, decode_magic_string_long MAGIC_STRING v stego hl (by omega), if_pos hsig]
  dsimp only
  rw [if_pos rfl, decode_file_extn_size_long v _ (by rw [List.length_drop]; omega)]
  dsimp only
  rw [if_pos rfl, hE, List.drop_drop,
    decode_secret_file_extn_long v _ E hEl (by rw [List.length_drop]; omega)]
  dsimp only
  rw [if_neg hn3, if_neg hn4, if_pos (Or.inl hren), List.nil_append, List.drop_drop,
    decode_secret_file_size_long v _ (by rw [List.length_drop]; omega), List.drop_drop]

theorem lsb_bytes_append (n : Nat) (x t : List Nat) (h : 8 * n ≤ x.length) :
    lsb_bytes n (x ++ t) = lsb_bytes n x := by
  rw [← lsb_bytes_take n (x ++ t), List.take_append_of_le_length h, lsb_bytes_take]

theorem field_append (p t : List Nat) (off len : Nat) (h : off + len ≤ p.length) :
    ((p ++ t).drop off).take len = (p.drop off).take len := by
  rw [List.drop_append_of_le_length (by omega),
    List.take_append_of_le_length (by rw [List.length_drop]; omega)]

/-- C12, amended (extracted payload): for every carrier whose signature
matches, whose extension-length field `E` and payload-length field `L`, read
as signed 32-bit integers, are not negative (`E` below `2 ^ 31 - 1`), and
which contains all bytes the frame declares, every run of `do_decoding` that
can create its output file succeeds, the output file has exactly `L` bytes,
and byte `k` of it is the value carried by the `k`-th group of 8 carrier
bytes after the payload-length field.  The output file can be created when
the output name has fewer than 50 characters, `fopen` opens the base name in
mode `wb`, the base name and the decoded extension together have fewer than
64 characters, `rename` to the base name followed by the decoded extension
succeeds, and `fopen` opens that name in mode `a`. -/
theorem do_decoding_payload (MAGIC_STRING : List Nat) (v : DecodeIndet) (env : DecodeEnv)
    (stego : List Nat) (E L : Nat) (hl : strlen MAGIC_STRING < 2 ^ 31)
    (hname : strlen (given_name env.secret_fname) < 50)
    (hwb : env.fopen_wb (base_name env.secret_fname) = true)
    (hfit : (base_name env.secret_fname).length +
      (cstr (lsb_bytes E (stego.drop (54 + 8 * strlen MAGIC_STRING + 32)))).length < 64)
    (hren : env.rename (base_name env.secret_fname) (base_name env.secret_fname ++
      cstr (lsb_bytes E (stego.drop (54 + 8 * strlen MAGIC_STRING + 32)))) = true)
    (hap : env.fopen_a (base_name env.secret_fname ++
      cstr (lsb_bytes E (stego.drop (54 + 8 * strlen MAGIC_STRING + 32)))) = true)
    (hsig : lsb_bytes (strlen MAGIC_STRING) (stego.drop 54) = cstr MAGIC_STRING)
    (hE : lsb_value 32 ((stego.drop (54 + 8 * strlen MAGIC_STRING)).take 32) = E)
    (hEl : E < 2 ^ 31 - 1)
    (hL : lsb_value 32 ((stego.drop (54 + 8 * strlen MAGIC_STRING + 32 + 8 * E)).take 32) = L)
    (hLl : L < 2 ^ 31)
    (hlen : 54 + 8 * strlen MAGIC_STRING + 32 + 8 * E + 32 + 8 * L ≤ stego.length) :
    ∃ r, do_decoding MAGIC_STRING v env stego = some r ∧ r.status = e_success ∧
      r.output.length = L ∧
      ∀ k, k < L → r.output.getD k 0 =
        lsb_value 8
          ((stego.drop (54 + 8 * strlen MAGIC_STRING + 32 + 8 * E + 32 + 8 * k)).take 8) := by
  refine ⟨_, do_decoding_fields MAGIC_STRING v env stego E hl hname hwb hfit hren hap
    (by omega) hsig hE hEl, rfl, ?_, ?_⟩
  · dsimp only
    rw [hL, decode_secret_file_data_long v _ L hLl (by rw [List.length_drop]; omega),
      lsb_bytes_length]
  · intro k hk
    dsimp only
    rw [hL, decode_secret_file_data_long v _ L hLl (by rw [List.length_drop]; omega),
      lsb_bytes_getD L _ k hk, List.drop_drop]

set_option maxRecDepth 1000000 in
theorem negative_length_facts (t : List Nat) :
    134 ≤ (negative_length_head ++ t).length ∧
      lsb_bytes (strlen magic_hash_star) ((negative_length_head ++ t).drop 54) =
        cstr magic_hash_star ∧
      lsb_value 32 (((negative_length_head ++ t).drop (54 + 8 * strlen magic_hash_star)).take 32)
        = 0 ∧
      lsb_value 32 (((negative_length_head ++ t).drop
        (54 + 8 * strlen magic_hash_star + 32 + 8 * 0)).take 32) = 2147483648 := by
  have hlen : negative_length_head.length = 134 := by decide
  have hm : strlen magic_hash_star = 2 := by decide
  refine ⟨by rw [List.length_append]; omega, ?_, ?_, ?_⟩
  · rw [hm, List.drop_append_of_le_length (by omega),
      lsb_bytes_append 2 _ t (by rw [List.length_drop]; omega)]
    decide
  · rw [hm, field_append _ t _ _ (by omega)]
    decide
  · rw [hm, field_append _ t _ _ (by omega)]
    decide

theorem do_decoding_negative_length (t : List Nat) :
    do_decoding magic_hash_star zero_decode_indet flat_directory (negative_length_head ++ t) =
      some ⟨e_success, [], []⟩ := by
  obtain ⟨h1, h2, h3, h4⟩ := negative_length_facts t
  have hm : strlen magic_hash_star = 2 := by decide
  have hfit : (base_name flat_directory.secret_fname).length +
      (cstr (lsb_bytes 0 ((negative_length_head ++ t).drop
        (54 + 8 * strlen magic_hash_star + 32)))).length < 64 := by
    show (base_name flat_directory.secret_fname).length + (cstr ([] : List Nat)).length < 64
    decide
  have hap : flat_directory.fopen_a (base_name flat_directory.secret_fname ++
      cstr (lsb_bytes 0 ((negative_length_head ++ t).drop
        (54 + 8 * strlen magic_hash_star + 32)))) = true := by
    show flat_directory.fopen_a (base_name flat_directory.secret_fname ++
      cstr ([] : List Nat)) = true
    decide
  have hren : flat_directory.rename (base_name flat_directory.secret_fname)
      (base_name flat_directory.secret_fname ++
        cstr (lsb_bytes 0 ((negative_length_head ++ t).drop
          (54 + 8 * strlen magic_hash_star + 32)))) = true := by
    show flat_directory.rename (base_name flat_directory.secret_fname)
      (base_name flat_directory.secret_fname ++ cstr ([] : List Nat)) = true
    decide
  rw [do_decoding_fields magic_hash_star zero_decode_indet flat_directory _ 0 (by decide)
    (by decide) (by decide) hfit hren hap (by rw [hm]; omega) h2 h3 (by norm_num), h4,
    decode_secret_file_data_negative _ _ _ (by norm_num) (by norm_num)]
  rfl

/-- C12, counterexample: the carrier holds the signature, the extension length
0, the payload length `0x80000000` = 2147483648 (as an unsigned integer) and
the 8 * 2147483648 carrier bytes that this length declares; `do_decoding`
(no output name given, in a writable directory) reads the length as a
negative `int`, succeeds and writes no byte at all. -/
theorem do_decoding_reads_signed_length :
    54 + 8 * strlen magic_hash_star + 32 + 8 * 0 + 32 + 8 * 2147483648 ≤
        (negative_length_head ++ List.replicate 17179869184 0).length ∧
      lsb_bytes (strlen magic_hash_star)
        ((negative_length_head ++ List.replicate 17179869184 0).drop 54) =
          cstr magic_hash_star ∧
      lsb_value 32 (((negative_length_head ++ List.replicate 17179869184 0).drop
        (54 + 8 * strlen magic_hash_star + 32 + 8 * 0)).take 32) = 2147483648 ∧
      do_decoding magic_hash_star zero_decode_indet flat_directory
        (negative_length_head ++ List.replicate 17179869184 0) = some ⟨e_success, [], []⟩ := by
  have hh : negative_length_head.length = 134 := by
    set_option maxRecDepth 1000000 in decide
  have hm : strlen magic_hash_star = 2 := by decide
  refine ⟨?_, (negative_length_facts _).2.1, (negative_length_facts _).2.2.2,
    do_decoding_negative_length _⟩
  rw [List.length_append, List.length_replicate, hh, hm]

set_option maxRecDepth 1000000 in
theorem do_decoding_payload_witness :
    (strlen magic_hash_star < 2 ^ 31 ∧
      strlen (given_name flat_directory.secret_fname) < 50 ∧
      flat_directory.fopen_wb (base_name flat_directory.secret_fname) = true ∧
      (base_name flat_directory.secret_fname).length +
        (cstr (lsb_bytes 4 (ten_byte_stego.drop (54 + 8 * strlen magic_hash_star + 32)))).length
          < 64 ∧
      flat_directory.rename (base_name flat_directory.secret_fname)
        (base_name flat_directory.secret_fname ++
          cstr (lsb_bytes 4 (ten_byte_stego.drop (54 + 8 * strlen magic_hash_star + 32)))) =
            true ∧
      flat_directory.fopen_a (base_name flat_directory.secret_fname ++
        cstr (lsb_bytes 4 (ten_byte_stego.drop (54 + 8 * strlen magic_hash_star + 32)))) = true ∧
      lsb_bytes (strlen magic_hash_star) (ten_byte_stego.drop 54) = cstr magic_hash_star ∧
      lsb_value 32 ((ten_byte_stego.drop (54 + 8 * strlen magic_hash_star)).take 32) = 4 ∧
      4 < 2 ^ 31 - 1 ∧
      lsb_value 32
        ((ten_byte_stego.drop (54 + 8 * strlen magic_hash_star + 32 + 8 * 4)).take 32) = 10 ∧
      10 < 2 ^ 31 ∧
      54 + 8 * strlen magic_hash_star + 32 + 8 * 4 + 32 + 8 * 10 ≤ ten_byte_stego.length) ∧
    ∃ r, do_decoding magic_hash_star zero_decode_indet flat_directory ten_byte_stego = some r ∧
      r.status = e_success ∧ r.output.length = 10 ∧
      ∀ k, k < 10 → r.output.getD k 0 =
        lsb_value 8
          ((ten_byte_stego.drop
            (54 + 8 * strlen magic_hash_star + 32 + 8 * 4 + 32 + 8 * k)).take 8) :=
  ⟨⟨by decide, by decide, by decide, by decide, by decide, by decide, by decide, by decide,
      by decide, by decide, by decide, by decide⟩,
    do_decoding_payload magic_hash_star zero_decode_indet flat_directory ten_byte_stego 4 10
      (by decide) (by decide) (by decide) (by decide) (by decide) (by decide) (by decide)
      (by decide) (by decide) (by decide) (by decide) (by decide)⟩

/-! ## Truncated carriers (claim C13) -/

/-- Once the output file is open and the signature and the extension length
have been read, no path of `do_decoding` returns failure for a read that
falls short: the only failure left is that of `fopen` in mode `a`. -/
theorem do_decoding_no_failure_after_extn_size (MAGIC_STRING : List Nat) (v : DecodeIndet)
    (env : DecodeEnv) (stego : List Nat) (r : DecodeResult)
    (hwb : env.fopen_wb (base_name env.secret_fname) = true)
    (hap : ∀ name, env.fopen_a name = true)
    (hm : (decode_magic_string MAGIC_STRING v stego).1 = e_success)
    (he : (decode_file_extn_size v (decode_magic_string MAGIC_STRING v stego).2).1 = e_success)
    (hr : do_decoding MAGIC_STRING v env stego = some r) : r.status = e_success := by
  have hn2 : ¬ env.fopen_wb (base_name env.secret_fname) = false := by rw [hwb]; decide
  unfold do_decoding at hr
  split at hr
  · exact absurd hr (by simp)
  · dsimp only at hr
    rw [if_neg hn2, if_pos hm, if_pos he] at hr
    split at hr
    · exact absurd hr (by simp)
    · split at hr
      · exact absurd hr (by simp)
      · rw [if_neg (by rw [hap]; decide)] at hr
        simp only [Option.some.injEq] at hr
        rw [← hr]

/-- C13, the code at three failing inputs: a carrier that ends before the 4
declared extension bytes, a carrier that ends in the middle of the
payload-length field, and a carrier that ends after 3 of the 10 declared
payload bytes.  The signature matches each time, and each time `do_decoding`
(no output name given, in a writable directory) returns success. -/
theorem do_decoding_accepts_truncated :
    (cut_before_extn.length = 54 + 8 * strlen magic_hash_star + 32 ∧
      lsb_bytes (strlen magic_hash_star) (cut_before_extn.drop 54) = cstr magic_hash_star ∧
      lsb_value 32 ((cut_before_extn.drop (54 + 8 * strlen magic_hash_star)).take 32) = 4 ∧
      do_decoding magic_hash_star zero_decode_indet flat_directory cut_before_extn =
        some ⟨e_success, [], []⟩) ∧
    (do_decoding magic_hash_star zero_decode_indet flat_directory ten_byte_stego =
        some ⟨e_success, dot_txt, [72, 101, 108, 108, 111, 32, 255, 0, 128, 10]⟩ ∧
      do_decoding magic_hash_star zero_decode_indet flat_directory
          (ten_byte_stego.take (54 + 8 * 2 + 32 + 8 * 4 + 16)) =
        some ⟨e_success, dot_txt, [0, 0, 0, 0, 0, 0, 0, 0, 0, 0]⟩ ∧
      do_decoding magic_hash_star zero_decode_indet flat_directory
          (ten_byte_stego.take (54 + 8 * 2 + 32 + 8 * 4 + 32 + 8 * 3)) =
        some ⟨e_success, dot_txt, [72, 101, 108, 108, 108, 108, 108, 108, 108, 108]⟩) := by
  set_option maxRecDepth 1000000 in decide

/-! ## The fields of the frame that `do_encoding` writes (claims C14, C15) -/

theorem drop_append_add (a b : List Nat) (k j : Nat) (ha : a.length = k) :
    (a ++ b).drop (k + j) = b.drop j := by
  rw [← ha, List.drop_append]

theorem drop_append_exact (a b : List Nat) (k : Nat) (ha : a.length = k) :
    (a ++ b).drop k = b := by
  have h := drop_append_add a b k 0 ha
  simpa using h

theorem take_append_exact (a b : List Nat) (k : Nat) (ha : a.length = k) :
    (a ++ b).take k = a := by
  rw [← ha, List.take_left]

theorem Carries_bytes_from_length (data out : List Nat) (i n : Nat)
    (h : Carries (bytes_from data i n) out) : out.length = 8 * n := by
  rw [Carries_length _ _ h, bytes_from_length]

theorem lsb_bytes_of_Carries_bytes_from (data out t : List Nat) (i n : Nat)
    (h : Carries (bytes_from data i n) out) : lsb_bytes n (out ++ t) = bytes_from data i n := by
  have h2 := lsb_bytes_of_Carries _ out t h
  rw [bytes_from_length] at h2
  exact h2

/-- What the least-significant bits of the output of a successful run of
`do_encoding` carry, field by field, from offset 54 on. -/
theorem do_encoding_fields (MAGIC_STRING : List Nat) (u : EncodeIndet) (encInfo : EncodeInfo)
    (extn : List Nat) (m x n : Nat)
    (hcap : check_capacity MAGIC_STRING u encInfo = e_success)
    (hext : strstr_dot encInfo.secret_fname = some extn)
    (hm : loop_count (to_uint (strlen MAGIC_STRING)) = m)
    (hx : loop_count (to_uint (strlen extn)) = x)
    (hn : loop_count (get_file_size encInfo.secret) = n) :
    ∃ stego, do_encoding MAGIC_STRING u encInfo = some (e_success, stego) ∧
      54 + 8 * m + 32 + 8 * x + 32 + 8 * n ≤ stego.length ∧
      lsb_bytes m (stego.drop 54) = bytes_from MAGIC_STRING 0 m ∧
      lsb_value 32 ((stego.drop (54 + 8 * m)).take 32) = to_uint (strlen extn) ∧
      lsb_bytes x (stego.drop (54 + 8 * m + 32)) = bytes_from extn 0 x ∧
      lsb_value 32 ((stego.drop (54 + 8 * m + 32 + 8 * x)).take 32) =
        get_file_size encInfo.secret ∧
      lsb_bytes n (stego.drop (54 + 8 * m + 32 + 8 * x + 32)) =
        bytes_from (fread (local_array (get_file_size encInfo.secret) u.block)
          (get_file_size encInfo.secret) encInfo.secret).1 0 n := by
  obtain ⟨hdr, mg, es, ex, fs, dt, rest, hrun, hh, hmg, hes, hesv, hex, hfs, hfsv, hdt⟩ :=
    do_encoding_layout MAGIC_STRING u encInfo extn hcap hext
  rw [hm] at hmg
  rw [hx] at hex
  rw [hn] at hdt
  have lmg := Carries_bytes_from_length _ _ _ _ hmg
  have lex := Carries_bytes_from_length _ _ _ _ hex
  have ldt := Carries_bytes_from_length _ _ _ _ hdt
  have hassoc : hdr ++ mg ++ es ++ ex ++ fs ++ dt ++ rest =
      hdr ++ (mg ++ (es ++ (ex ++ (fs ++ (dt ++ rest))))) := by
    simp only [List.append_assoc]
  refine ⟨_, hrun, ?_, ?_, ?_, ?_, ?_, ?_⟩
  · simp only [List.length_append]
    omega
  · rw [hassoc, drop_append_exact _ _ 54 hh]
    exact lsb_bytes_of_Carries_bytes_from _ _ _ _ _ hmg
  · rw [hassoc, drop_append_add _ _ 54 _ hh, drop_append_exact _ _ _ lmg,
      take_append_exact _ _ 32 hes, ← decode_size_from_lsb_eq_lsb, hesv]
  · rw [hassoc, Nat.add_assoc 54, drop_append_add _ _ 54 _ hh, drop_append_add _ _ _ _ lmg,
      drop_append_exact _ _ 32 hes]
    exact lsb_bytes_of_Carries_bytes_from _ _ _ _ _ hex
  · rw [hassoc, Nat.add_assoc 54, Nat.add_assoc 54, drop_append_add _ _ 54 _ hh,
      Nat.add_assoc (8 * m), drop_append_add _ _ _ _ lmg, drop_append_add _ _ 32 _ hes,
      drop_append_exact _ _ _ lex, take_append_exact _ _ 32 hfs,
      ← decode_size_from_lsb_eq_lsb, hfsv]
  · rw [hassoc, Nat.add_assoc 54, Nat.add_assoc 54, Nat.add_assoc 54,
      drop_append_add _ _ 54 _ hh, Nat.add_assoc (8 * m), Nat.add_assoc (8 * m),
      drop_append_add _ _ _ _ lmg, Nat.add_assoc 32, drop_append_add _ _ 32 _ hes,
      drop_append_add _ _ _ _ lex, drop_append_exact _ _ 32 hfs]
    exact lsb_bytes_of_Carries_bytes_from _ _ _ _ _ hdt

theorem find_char_split (c : Nat) : ∀ (s t : List Nat), find_char c s = some t →
    ∃ p, s = p ++ t ∧ c ∉ p ∧ t.head? = some c
  | [], t, h => by simp [find_char] at h
  | b :: s, t, h => by
    simp only [find_char] at h
    split at h
    · next hb =>
      simp only [Option.some.injEq] at h
      exact ⟨[], by simp [h], by simp, by rw [← h, hb]; rfl⟩
    · next hb =>
      obtain ⟨p, hp, hnot, hhead⟩ := find_char_split c s t h
      refine ⟨b :: p, by simp [hp], ?_, hhead⟩
      intro hmem
      rcases List.mem_cons.mp hmem with h1 | h1
      · exact hb h1.symm
      · exact hnot h1

theorem find_char_of_mem (c : Nat) : ∀ s : List Nat, c ∈ s → ∃ t, find_char c s = some t
  | [], h => by simp at h
  | b :: s, h => by
    simp only [find_char]
    by_cases hb : b = c
    · exact ⟨b :: s, by rw [if_pos hb]⟩
    · rw [if_neg hb]
      rcases List.mem_cons.mp h with h1 | h1
      · exact absurd h1.symm hb
      · exact find_char_of_mem c s h1

/-- C14, the code at the failing input: for the secret file `archive.tar.gz`
the frame that `do_encoding` writes has the extension length 7 and the
extension `.tar.gz`, not `.gz`. -/
theorem do_encoding_extension_archive :
    (do_encoding magic_hash_star zero_encode_indet archive_info).map
      (fun r => (r.1, lsb_value 32 ((r.2.drop (54 + 8 * 2)).take 32),
        lsb_bytes 7 (r.2.drop (54 + 8 * 2 + 32)))) =
      some (e_success, 7, [46, 116, 97, 114, 46, 103, 122]) := by
  set_option maxRecDepth 1000000 in decide

/-- What `strstr(secret_fname, ".")` makes `do_encoding` write: for every
secret file name that contains at least one `.` (a byte string shorter than
`2 ^ 31 - 1`), the extension field that a run past the capacity check writes
into the frame is the part of the name from its first `.` to the end,
inclusive, and the extension-length field is its length. -/
theorem do_encoding_extension_first_dot (MAGIC_STRING : List Nat) (u : EncodeIndet)
    (encInfo : EncodeInfo) (hMl : strlen MAGIC_STRING < 2 ^ 31)
    (hN : ∀ b ∈ encInfo.secret_fname, b < 256)
    (hNl : strlen encInfo.secret_fname < 2 ^ 31 - 1)
    (hdot : 46 ∈ cstr encInfo.secret_fname)
    (hcap : check_capacity MAGIC_STRING u encInfo = e_success) :
    ∃ stego p extn, do_encoding MAGIC_STRING u encInfo = some (e_success, stego) ∧
      cstr encInfo.secret_fname = p ++ extn ∧ 46 ∉ p ∧ extn.head? = some 46 ∧
      lsb_value 32 ((stego.drop (54 + 8 * strlen MAGIC_STRING)).take 32) = extn.length ∧
      lsb_bytes extn.length (stego.drop (54 + 8 * strlen MAGIC_STRING + 32)) = extn := by
  obtain ⟨extn, hext⟩ := find_char_of_mem 46 _ hdot
  obtain ⟨p, hp, hnot, hhead⟩ := find_char_split 46 _ _ hext
  have hmem := strstr_dot_mem encInfo.secret_fname extn hext
  have hne : ∀ b ∈ extn, b ≠ 0 := fun b hb => cstr_ne_zero _ b (hmem b hb)
  have hby : ∀ b ∈ extn, b < 256 := fun b hb => hN b (cstr_mem _ b (hmem b hb))
  have hsl : strlen extn = extn.length := by
    unfold strlen
    rw [cstr_eq_self extn hne]
  have hle : extn.length ≤ strlen encInfo.secret_fname := by
    unfold strlen
    rw [hp, List.length_append]
    omega
  have hc1 : loop_count (to_uint (strlen MAGIC_STRING)) = strlen MAGIC_STRING := by
    rw [to_uint_of_lt _ (by omega), loop_count_of_lt _ hMl]
  have hc2 : loop_count (to_uint (strlen extn)) = extn.length := by
    rw [hsl, to_uint_of_lt _ (by omega), loop_count_of_lt _ (by omega)]
  obtain ⟨stego, hrun, _, _, h3, h4, _, _⟩ :=
    do_encoding_fields MAGIC_STRING u encInfo extn _ _ _ hcap hext hc1 hc2 rfl
  refine ⟨stego, p, extn, hrun, hp, hnot, hhead, ?_, ?_⟩
  · rw [h3, hsl, to_uint_of_lt _ (by omega)]
  · rw [h4, bytes_from_self extn hby]

/-- C15, counterexample: for a secret file of 4294967297 bytes `do_encoding`
succeeds on a 10 by 10 carrier; its output has 354 bytes, and the file-size
field of the frame carries 1. -/
theorem do_encoding_frame_of_long_secret :
    (List.replicate 4294967297 65).length = 4294967297 ∧
      (do_encoding magic_hash_star zero_encode_indet
        ⟨carrier_10x10, List.replicate 4294967297 65, name_a_txt, dot_txt⟩).map
          (fun r => (r.1, r.2.length,
            lsb_value 32 ((r.2.drop (54 + 8 * 2 + 32 + 8 * 4)).take 32))) =
        some (e_success, 354, 1) := by
  have h := do_encoding_of_long_secret (List.replicate 4294967297 65)
    (List.length_replicate _ _) (by rw [List.take_replicate]; rfl)
  refine ⟨List.length_replicate _ _, ?_⟩
  rw [h.2]
  set_option maxRecDepth 1000000 in decide

/-- C15, amended (frame layout): for every successful embed of a secret file
of fewer than `2 ^ 31` bytes (the magic string and the file name being byte
strings shorter than `2 ^ 31 - 1`), the least-significant bits of the stego
bytes from offset 54 on carry, in this order and with nothing in between:
the bytes of `MAGIC_STRING` (8 carrier bytes per byte), the extension length
(32 carrier bytes), the extension bytes without a terminator, the secret
file size (32 carrier bytes), and the bytes of the secret file. -/
theorem do_encoding_frame_layout (MAGIC_STRING : List Nat) (u : EncodeIndet)
    (encInfo : EncodeInfo) (stego : List Nat)
    (hM : ∀ b ∈ MAGIC_STRING, b < 256) (hMl : strlen MAGIC_STRING < 2 ^ 31)
    (hN : ∀ b ∈ encInfo.secret_fname, b < 256)
    (hNl : strlen encInfo.secret_fname < 2 ^ 31 - 1)
    (hS : ∀ b ∈ encInfo.secret, b < 256) (hSl : encInfo.secret.length < 2 ^ 31)
    (hrun : do_encoding MAGIC_STRING u encInfo = some (e_success, stego)) :
    ∃ extn, strstr_dot encInfo.secret_fname = some extn ∧
      54 + 8 * strlen MAGIC_STRING + 32 + 8 * extn.length + 32 + 8 * encInfo.secret.length ≤
        stego.length ∧
      lsb_bytes (strlen MAGIC_STRING) (stego.drop 54) = cstr MAGIC_STRING ∧
      lsb_value 32 ((stego.drop (54 + 8 * strlen MAGIC_STRING)).take 32) = extn.length ∧
      lsb_bytes extn.length (stego.drop (54 + 8 * strlen MAGIC_STRING + 32)) = extn ∧
      lsb_value 32
        ((stego.drop (54 + 8 * strlen MAGIC_STRING + 32 + 8 * extn.length)).take 32) =
          encInfo.secret.length ∧
      lsb_bytes encInfo.secret.length
        (stego.drop (54 + 8 * strlen MAGIC_STRING + 32 + 8 * extn.length + 32)) =
          encInfo.secret := by
  obtain ⟨hcap, extn, hext⟩ := do_encoding_success_inv MAGIC_STRING u encInfo stego hrun
  have hmem := strstr_dot_mem encInfo.secret_fname extn hext
  have hne : ∀ b ∈ extn, b ≠ 0 := fun b hb => cstr_ne_zero _ b (hmem b hb)
  have hby : ∀ b ∈ extn, b < 256 := fun b hb => hN b (cstr_mem _ b (hmem b hb))
  have hsl : strlen extn = extn.length := by
    unfold strlen
    rw [cstr_eq_self extn hne]
  have hle : extn.length ≤ strlen encInfo.secret_fname := by
    obtain ⟨p, hp⟩ := find_char_suffix 46 (cstr encInfo.secret_fname) extn hext
    unfold strlen
    rw [hp, List.length_append]
    omega
  have hc1 : loop_count (to_uint (strlen MAGIC_STRING)) = strlen MAGIC_STRING := by
    rw [to_uint_of_lt _ (by omega), loop_count_of_lt _ hMl]
  have hc2 : loop_count (to_uint (strlen extn)) = extn.length := by
    rw [hsl, to_uint_of_lt _ (by omega), loop_count_of_lt _ (by omega)]
  have hfs : get_file_size encInfo.secret = encInfo.secret.length :=
    to_uint_of_lt _ (by omega)
  have hc3 : loop_count (get_file_size encInfo.secret) = encInfo.secret.length := by
    rw [hfs, loop_count_of_lt _ hSl]
  obtain ⟨stego2, hrun2, h1, h2, h3, h4, h5, h6⟩ :=
    do_encoding_fields MAGIC_STRING u encInfo extn _ _ _ hcap hext hc1 hc2 hc3
  have hst : stego2 = stego := by
    rw [hrun] at hrun2
    simp only [Option.some.injEq, Prod.mk.injEq, true_and] at hrun2
    exact hrun2.symm
  subst hst
  refine ⟨extn, hext, h1, ?_, ?_, ?_, ?_, ?_⟩
  · rw [h2, bytes_from_cstr MAGIC_STRING hM]
  · rw [h3, hsl, to_uint_of_lt _ (by omega)]
  · rw [h4, bytes_from_self extn hby]
  · rw [h5, hfs]
  · rw [h6, encode_secret_file_data_buffer encInfo.secret u.block (by omega),
      bytes_from_self _ hS]

set_option maxRecDepth 1000000 in
theorem do_encoding_frame_layout_witness :
    ((∀ b ∈ magic_hash_star, b < 256) ∧ strlen magic_hash_star < 2 ^ 31 ∧
      (∀ b ∈ ten_byte_info.secret_fname, b < 256) ∧
      strlen ten_byte_info.secret_fname < 2 ^ 31 - 1 ∧
      (∀ b ∈ ten_byte_info.secret, b < 256) ∧ ten_byte_info.secret.length < 2 ^ 31 ∧
      do_encoding magic_hash_star zero_encode_indet ten_byte_info =
        some (e_success, ten_byte_stego)) ∧
    ∃ extn, strstr_dot ten_byte_info.secret_fname = some extn ∧
      54 + 8 * strlen magic_hash_star + 32 + 8 * extn.length + 32
          + 8 * ten_byte_info.secret.length ≤ ten_byte_stego.length ∧
      lsb_bytes (strlen magic_hash_star) (ten_byte_stego.drop 54) = cstr magic_hash_star ∧
      lsb_value 32 ((ten_byte_stego.drop (54 + 8 * strlen magic_hash_star)).take 32) =
        extn.length ∧
      lsb_bytes extn.length (ten_byte_stego.drop (54 + 8 * strlen magic_hash_star + 32)) =
        extn ∧
      lsb_value 32
        ((ten_byte_stego.drop
          (54 + 8 * strlen magic_hash_star + 32 + 8 * extn.length)).take 32) =
          ten_byte_info.secret.length ∧
      lsb_bytes ten_byte_info.secret.length
        (ten_byte_stego.drop (54 + 8 * strlen magic_hash_star + 32 + 8 * extn.length + 32)) =
          ten_byte_info.secret :=
  ⟨⟨by decide, by decide, by decide, by decide, by decide, by decide, by decide⟩,
    do_encoding_frame_layout magic_hash_star zero_encode_indet ten_byte_info ten_byte_stego
      (by decide) (by decide) (by decide) (by decide) (by decide) (by decide) (by decide)⟩

/-! ## The declared pixel-byte count (claim C16) -/

theorem getD_take_drop (l : List Nat) (off i : Nat) (hi : i < 4) :
    ((l.drop off).take 4).getD i 0 = l.getD (off + i) 0 := by
  rw [List.getD_eq_getElem?_getD, List.getD_eq_getElem?_getD, List.getElem?_take, if_pos hi,
    List.getElem?_drop]

theorem getD_lt_of_bytes (l : List Nat) (hb : ∀ b ∈ l, b < 256) (k : Nat) : l.getD k 0 < 256 := by
  by_cases hk : k < l.length
  · rw [List.getD_eq_getElem _ _ hk]
    exact hb _ (List.getElem_mem _)
  · rw [List.getD_eq_default _ _ (by omega)]
    norm_num

theorem le32_take_drop (l : List Nat) (hb : ∀ b ∈ l, b < 256) (off : Nat) :
    le32 ((l.drop off).take 4) = header_u32 l off := by
  unfold le32 header_u32
  rw [getD_take_drop l off 0 (by norm_num), getD_take_drop l off 1 (by norm_num),
    getD_take_drop l off 2 (by norm_num), getD_take_drop l off 3 (by norm_num)]
  have h0 := getD_lt_of_bytes l hb (off + 0)
  have h1 := getD_lt_of_bytes l hb (off + 1)
  have h2 := getD_lt_of_bytes l hb (off + 2)
  have h3 := getD_lt_of_bytes l hb (off + 3)
  rw [Nat.mod_eq_of_lt h0, Nat.mod_eq_of_lt h1, Nat.mod_eq_of_lt h2, Nat.mod_eq_of_lt h3]
  rfl

/-- C16, counterexample: for a header that declares 65536 by 65536 pixels,
`get_image_size_for_bmp` returns 0, not 65536 * 65536 * 3. -/
theorem get_image_size_for_bmp_wraps :
    header_u32 header_65536 18 = 65536 ∧ header_u32 header_65536 22 = 65536 ∧
      get_image_size_for_bmp [] [] header_65536 = 0 ∧
      get_image_size_for_bmp [] [] header_65536 ≠
        header_u32 header_65536 18 * header_u32 header_65536 22 * 3 := by
  decide

/-- C16, amended (pixel-byte capacity): for every carrier header,
`get_image_size_for_bmp` returns `width * height * 3` reduced modulo `2 ^ 32`,
where `width` and `height` are the unsigned little-endian 32-bit integers at
header bytes [18,22) and [22,26); this is `width * height * 3` itself whenever
the product is below `2 ^ 32`. -/
theorem get_image_size_for_bmp_value (w0 h0 : List Nat) (image : List Nat)
    (hlen : 26 ≤ image.length) (hb : ∀ b ∈ image, b < 256) :
    get_image_size_for_bmp w0 h0 image =
        header_u32 image 18 * header_u32 image 22 * 3 % 2 ^ 32 ∧
      (header_u32 image 18 * header_u32 image 22 * 3 < 2 ^ 32 →
        get_image_size_for_bmp w0 h0 image =
          header_u32 image 18 * header_u32 image 22 * 3) := by
  have hval : get_image_size_for_bmp w0 h0 image =
      header_u32 image 18 * header_u32 image 22 * 3 % 2 ^ 32 := by
    unfold get_image_size_for_bmp
    rw [fread_full _ 4 _ (local_array_length 4 w0) (by rw [List.length_drop]; omega)]
    dsimp only
    rw [fread_full _ 4 _ (local_array_length 4 h0)
      (by rw [List.length_drop, List.length_drop]; omega)]
    dsimp only
    rw [List.drop_drop, le32_take_drop image hb 18, le32_take_drop image hb (18 + 4)]
    rfl
  refine ⟨hval, fun hlt => ?_⟩
  rw [hval]
  exact Nat.mod_eq_of_lt hlt

set_option maxRecDepth 1000000 in
theorem get_image_size_for_bmp_value_witness :
    (26 ≤ (bmp_header 100 100).length ∧ (∀ b ∈ bmp_header 100 100, b < 256)) ∧
      get_image_size_for_bmp [] [] (bmp_header 100 100) = 30000 :=
  ⟨⟨by decide, by decide⟩,
    ((get_image_size_for_bmp_value [] [] (bmp_header 100 100) (by decide) (by decide)).2
      (by decide)).trans (by decide)⟩

/-! ## Bounded perturbation (claim C17) -/

/-- C17 (bounded perturbation): for every value encoded and every carrier
byte `x` (an intensity 0..255) touched by `encode_byte_to_lsb` or by
`encode_size_to_lsb`, the carrier byte after encoding differs from `x` by at
most 1. -/
theorem encode_lsb_perturbation (value : Nat) (c : List Nat) (i : Nat) (hi : i < c.length)
    (hx : c.getD i 0 < 256) :
    (i < 8 → (encode_byte_to_lsb value c).getD i 0 ≤ c.getD i 0 + 1 ∧
      c.getD i 0 ≤ (encode_byte_to_lsb value c).getD i 0 + 1) ∧
    (i < 32 → (encode_size_to_lsb value c).getD i 0 ≤ c.getD i 0 + 1 ∧
      c.getD i 0 ≤ (encode_size_to_lsb value c).getD i 0 + 1) := by
  constructor
  · intro h8
    rw [encode_byte_to_lsb_getD value c i h8 hi, Nat.mod_eq_of_lt hx]
    have hb : value % 256 / 2 ^ i % 2 < 2 := Nat.mod_lt _ (by norm_num)
    omega
  · intro h32
    rw [encode_size_to_lsb_getD value c i h32 hi, Nat.mod_eq_of_lt hx]
    have hb : value / 2 ^ i % 2 < 2 := Nat.mod_lt _ (by norm_num)
    omega

theorem encode_lsb_perturbation_witness :
    (3 < [255, 254, 3, 0, 129, 77, 16, 1].length ∧
      ([255, 254, 3, 0, 129, 77, 16, 1] : List Nat).getD 3 0 < 256) ∧
    ((encode_byte_to_lsb 200 [255, 254, 3, 0, 129, 77, 16, 1]).getD 3 0 ≤
        ([255, 254, 3, 0, 129, 77, 16, 1] : List Nat).getD 3 0 + 1 ∧
      ([255, 254, 3, 0, 129, 77, 16, 1] : List Nat).getD 3 0 ≤
        (encode_byte_to_lsb 200 [255, 254, 3, 0, 129, 77, 16, 1]).getD 3 0 + 1) :=
  ⟨⟨by decide, by decide⟩,
    (encode_lsb_perturbation 200 [255, 254, 3, 0, 129, 77, 16, 1] 3 (by decide)
      (by decide)).1 (by decide)⟩

/-! ## Determinism and the command line (claims C18, C19, C20) -/

/-- C18, the code at the failing input: the same 8 by 8 carrier, the same
10-byte secret file `a.txt`; the run that finds the empty string in
`extn_secret_file` succeeds and writes 246 bytes, the run that finds the
stale string `xxxxx` there fails. -/
theorem do_encoding_depends_on_stale_extension :
    (do_encoding magic_hash_star zero_encode_indet
        ⟨exact_fit_info.src_image, exact_fit_info.secret, name_a_txt, []⟩).map
          (fun r => (r.1, r.2.length)) = some (e_success, 246) ∧
      do_encoding magic_hash_star zero_encode_indet
        ⟨exact_fit_info.src_image, exact_fit_info.secret, name_a_txt, stale_xxxxx⟩ =
          some (e_failure, []) := by
  set_option maxRecDepth 1000000 in decide

/-- C19, the code at failing inputs: for `argv[1]` equal to `xe` and to
`-encode`, neither of them `-e` or `-E`, `check_operation_type` returns
`e_encode`. -/
theorem check_operation_type_second_char :
    check_operation_type argv_xe 0 = OperationType.e_encode ∧
      check_operation_type argv_encode_word 0 = OperationType.e_encode ∧
      argv_xe.getD 1 [] ≠ [45, 101] ∧ argv_xe.getD 1 [] ≠ [45, 69] ∧
      argv_encode_word.getD 1 [] ≠ [45, 101] ∧ argv_encode_word.getD 1 [] ≠ [45, 69] := by
  decide

/-- C20, the code at the failing input: for `./a.out -e x.bmp.txt a.txt`,
whose `argv[2]` does not end with `.bmp`, `read_and_validate_encode_args`
returns `e_success`. -/
theorem read_and_validate_encode_args_contains :
    (read_and_validate_encode_args argv_bmp_txt).1 = e_success ∧
      (argv_bmp_txt.getD 2 []).drop ((argv_bmp_txt.getD 2 []).length - 4) ≠
        [46, 98, 109, 112] := by
  decide

/-! ## What the two command-line functions do decide on -/

theorem find_sub_dot : ∀ s : List Nat, find_sub [46] s = find_char 46 s
  | [] => by simp [find_sub, find_char]
  | b :: s => by
    simp only [find_sub, find_char, List.length_singleton, List.take_succ_cons, List.take_zero,
      List.cons.injEq, and_true]
    rw [find_sub_dot s]

/-- The call `strstr(s, ".")` of `read_and_validate_encode_args` and of
`do_encoding` is `strstr_dot`. -/
theorem strstr_dot_eq (s : List Nat) : strstr s [46] = strstr_dot s := by
  unfold strstr strstr_dot
  have h : cstr [46] = [46] := by decide
  rw [h, find_sub_dot]

/-- The function `check_operation_type` decides on the second character of
`argv[1]` alone. -/
theorem check_operation_type_eq (argv : List (List Nat)) (past : Nat) (h : 2 ≤ argv.length) :
    check_operation_type argv past =
      if tolower (char_at (argv.getD 1 []) 1 past) = 101 then OperationType.e_encode
      else if tolower (char_at (argv.getD 1 []) 1 past) = 100 then OperationType.e_decode
      else OperationType.e_unsupported := by
  unfold check_operation_type
  rw [if_neg (by omega)]

theorem check_operation_type_no_argument (argv : List (List Nat)) (past : Nat)
    (h : argv.length < 2) : check_operation_type argv past = OperationType.e_unsupported := by
  unfold check_operation_type
  rw [if_pos h]

/-- The function `read_and_validate_encode_args` succeeds exactly when there
are 4 or 5 arguments, `.bmp` occurs in `argv[2]` and `.` occurs in `argv[3]`. -/
theorem read_and_validate_encode_args_success_iff (argv : List (List Nat)) :
    (read_and_validate_encode_args argv).1 = e_success ↔
      (4 ≤ argv.length ∧ argv.length ≤ 5) ∧
        strstr (argv.getD 2 []) [46, 98, 109, 112] ≠ none ∧
        strstr (argv.getD 3 []) [46] ≠ none := by
  unfold read_and_validate_encode_args
  by_cases h1 : argv.length < 4 ∨ argv.length > 5
  · rw [if_pos h1]
    constructor
    · intro h
      exact absurd h (by decide)
    · intro h
      omega
  · rw [if_neg h1]
    by_cases h2 : strstr (argv.getD 2 []) [46, 98, 109, 112] = none
    · rw [if_pos h2]
      constructor
      · intro h
        exact absurd h (by decide)
      · intro h
        exact absurd h2 h.2.1
    · rw [if_neg h2]
      by_cases h3 : strstr (argv.getD 3 []) [46] = none
      · rw [if_pos h3]
        constructor
        · intro h
          exact absurd h (by decide)
        · intro h
          exact absurd h3 h.2.2
      · rw [if_neg h3]
        constructor
        · intro _
          exact ⟨by omega, h2, h3⟩
        · intro _
          split <;> rfl

/-! ## What a run of `do_encoding` depends on -/

theorem encode_data_loop_indet (data : List Nat) (n : Nat) :
    ∀ (i : Nat) (src arr arr2 : List Nat), arr.length = 8 → arr2.length = 8 →
      8 * n ≤ src.length →
      encode_data_loop data n i src arr = encode_data_loop data n i src arr2 := by
  induction n with
  | zero => intro i src arr arr2 _ _ _; rfl
  | succ n ih =>
    intro i src arr arr2 h1 h2 hroom
    simp only [encode_data_loop]
    rw [fread_full arr 8 src h1 (by omega), fread_full arr2 8 src h2 (by omega)]

theorem encode_data_to_image_indet (data : List Nat) (size : Nat) (src a a2 : List Nat)
    (hroom : 8 * loop_count size ≤ src.length) :
    encode_data_to_image data size src a = encode_data_to_image data size src a2 :=
  encode_data_loop_indet data _ 0 src _ _ (local_array_length 8 a) (local_array_length 8 a2) hroom

theorem encode_secret_file_size_indet (file_size : Nat) (src a a2 : List Nat)
    (hroom : 32 ≤ src.length) :
    encode_secret_file_size file_size src a = encode_secret_file_size file_size src a2 := by
  unfold encode_secret_file_size
  rw [fread_full _ 32 src (local_array_length 32 a) hroom,
    fread_full _ 32 src (local_array_length 32 a2) hroom]

theorem encode_secret_file_data_indet (secret src b a b2 a2 : List Nat)
    (hroom : 8 * loop_count (get_file_size secret) ≤ src.length) :
    encode_secret_file_data secret (get_file_size secret) src b a =
      encode_secret_file_data secret (get_file_size secret) src b2 a2 := by
  unfold encode_secret_file_data
  have hle : get_file_size secret ≤ secret.length := Nat.mod_le _ _
  dsimp only
  rw [fread_full _ _ secret (local_array_length _ b) hle,
    fread_full _ _ secret (local_array_length _ b2) hle]
  exact encode_data_to_image_indet _ _ _ _ _ hroom

theorem get_image_size_for_bmp_indet (w0 h0 w1 h1 image : List Nat) (h : 26 ≤ image.length) :
    get_image_size_for_bmp w0 h0 image = get_image_size_for_bmp w1 h1 image := by
  unfold get_image_size_for_bmp
  rw [fread_full _ 4 _ (local_array_length 4 w0) (by rw [List.length_drop]; omega),
    fread_full _ 4 _ (local_array_length 4 w1) (by rw [List.length_drop]; omega)]
  dsimp only
  rw [fread_full _ 4 _ (local_array_length 4 h0)
      (by rw [List.length_drop, List.length_drop]; omega),
    fread_full _ 4 _ (local_array_length 4 h1)
      (by rw [List.length_drop, List.length_drop]; omega)]

theorem check_capacity_indet (MAGIC_STRING : List Nat) (u u2 : EncodeIndet)
    (encInfo : EncodeInfo) (h : 26 ≤ encInfo.src_image.length) :
    check_capacity MAGIC_STRING u encInfo = check_capacity MAGIC_STRING u2 encInfo := by
  unfold check_capacity
  rw [get_image_size_for_bmp_indet u.width u.height u2.width u2.height _ h]

/-- On a carrier that has room for the frame, the result of `do_encoding`
does not depend on the indeterminate contents of its locals: it is a
function of the carrier, the secret file, its name, the magic string and the
string found in `extn_secret_file`. -/
theorem do_encoding_indet (MAGIC_STRING : List Nat) (u u2 : EncodeIndet) (encInfo : EncodeInfo)
    (extn : List Nat) (hext : strstr_dot encInfo.secret_fname = some extn)
    (hroom : 54 + frame_bytes MAGIC_STRING extn encInfo.secret ≤ encInfo.src_image.length) :
    do_encoding MAGIC_STRING u encInfo = do_encoding MAGIC_STRING u2 encInfo := by
  unfold frame_bytes at hroom
  have hl0 : (encInfo.src_image.drop 54).length = encInfo.src_image.length - 54 :=
    List.length_drop _ _
  unfold do_encoding
  rw [check_capacity_indet MAGIC_STRING u u2 encInfo (by omega)]
  by_cases hcap : check_capacity MAGIC_STRING u2 encInfo = e_success
  · simp only [hcap, if_true, hext]
    unfold encode_magic_string encode_secret_file_extn
    rw [encode_secret_file_extn_size_eq, encode_secret_file_extn_size_eq,
      copy_bmp_header_snd, copy_bmp_header_snd, copy_bmp_header_fst _ _ (by omega),
      copy_bmp_header_fst _ _ (by omega)]
    -- the magic string
    rw [encode_data_to_image_indet MAGIC_STRING _ (encInfo.src_image.drop 54) u.arr_magic
      u2.arr_magic (by omega)]
    rw [(encode_data_to_image_room MAGIC_STRING _ (encInfo.src_image.drop 54) u2.arr_magic
      (by omega)).1]
    -- the extension length
    rw [encode_secret_file_size_indet _ _ u.arr_extn_size u2.arr_extn_size
      (by rw [List.length_drop]; omega)]
    rw [(encode_secret_file_size_room _ _ u2.arr_extn_size
      (by rw [List.length_drop]; omega)).1]
    -- the extension
    rw [encode_data_to_image_indet extn _ _ u.arr_extn u2.arr_extn
      (by rw [List.length_drop, List.length_drop]; omega)]
    rw [(encode_data_to_image_room extn _ _ u2.arr_extn
      (by rw [List.length_drop, List.length_drop]; omega)).1]
    -- the file size
    rw [encode_secret_file_size_indet _ _ u.arr_file_size u2.arr_file_size
      (by rw [List.length_drop, List.length_drop, List.length_drop]; omega)]
    rw [(encode_secret_file_size_room _ _ u2.arr_file_size
      (by rw [List.length_drop, List.length_drop, List.length_drop]; omega)).1]
    -- the data
    rw [encode_secret_file_data_indet encInfo.secret _ u.block u.arr_data u2.block u2.arr_data
      (by rw [List.length_drop, List.length_drop, List.length_drop, List.length_drop]; omega)]
  · simp only [hcap, if_false]

/-! ## Truncation after the extension-length field is never reported -/

theorem cstr_set_zero_length_le : ∀ (l : List Nat) (k : Nat), (cstr (l.set k 0)).length ≤ k
  | [], k => by simp [cstr]
  | x :: l, 0 => by simp [cstr]
  | x :: l, k + 1 => by
    have ih := cstr_set_zero_length_le l k
    simp only [cstr] at ih ⊢
    rw [List.set_cons_succ, List.takeWhile_cons]
    split
    · simp only [List.length_cons]
      omega
    · simp

/-- Whenever the carrier holds a matching signature and an extension-length
field with a value `E` in `0 .. 2 ^ 31 - 2`, a run of `do_decoding` that can
create its output file (whatever the name) returns success, however few bytes
follow and whatever the indeterminate contents are. -/
theorem do_decoding_succeeds_after_extn_size (MAGIC_STRING : List Nat) (v : DecodeIndet)
    (env : DecodeEnv) (stego : List Nat) (hl : strlen MAGIC_STRING < 2 ^ 31)
    (hname : strlen (given_name env.secret_fname) < 50)
    (hwb : env.fopen_wb (base_name env.secret_fname) = true)
    (hap : ∀ name, env.fopen_a name = true)
    (hlen : 54 + 8 * strlen MAGIC_STRING + 32 ≤ stego.length)
    (hsig : lsb_bytes (strlen MAGIC_STRING) (stego.drop 54) = cstr MAGIC_STRING)
    (hE : lsb_value 32 ((stego.drop (54 + 8 * strlen MAGIC_STRING)).take 32) < 2 ^ 31 - 1)
    (hfit : (base_name env.secret_fname).length +
      lsb_value 32 ((stego.drop (54 + 8 * strlen MAGIC_STRING)).take 32) < 64) :
    ∃ r, do_decoding MAGIC_STRING v env stego = some r ∧ r.status = e_success := by
  have hn1 : ¬ 50 ≤ strlen (given_name env.secret_fname) := by omega
  have hn2 : ¬ env.fopen_wb (base_name env.secret_fname) = false := by rw [hwb]; decide
  unfold do_decoding
  rw [if_neg hn1]
  dsimp only
  rw [if_neg hn2, decode_magic_string_long MAGIC_STRING v stego hl (by omega), if_pos hsig]
  dsimp only
  rw [if_pos rfl, decode_file_extn_size_long v _ (by rw [List.length_drop]; omega)]
  dsimp only
  rw [if_pos rfl]
  unfold decode_secret_file_extn
  have hiv := int_val_of_lt _ (show lsb_value 32
    ((stego.drop (54 + 8 * strlen MAGIC_STRING)).take 32) < 2 ^ 31 by omega)
  have hcond : ¬ (int_val (lsb_value 32
      ((stego.drop (54 + 8 * strlen MAGIC_STRING)).take 32)) < 0 ∨
      int_val (lsb_value 32
        ((stego.drop (54 + 8 * strlen MAGIC_STRING)).take 32)) = 2 ^ 31 - 1) := by
    rw [hiv]
    omega
  rw [if_neg hcond]
  dsimp only
  have hle := cstr_set_zero_length_le
    (decode_data_from_image
      (local_array (loop_count (lsb_value 32
        ((stego.drop (54 + 8 * strlen MAGIC_STRING)).take 32)) + 1) v.extn_secret_file)
      (lsb_value 32 ((stego.drop (54 + 8 * strlen MAGIC_STRING)).take 32))
      ((stego.drop (54 + 8 * strlen MAGIC_STRING)).drop 32) v.arr_extn).2.1
    (loop_count (lsb_value 32 ((stego.drop (54 + 8 * strlen MAGIC_STRING)).take 32)))
  rw [loop_count_of_lt _ (by omega)] at hle ⊢
  rw [if_neg (by omega), if_neg (by rw [hap]; decide)]
  exact ⟨_, rfl, rfl⟩

/-! ## More on the bit codec (claims C21, C23, C24) -/

theorem bits_value_testBit (f : Nat → Nat) (n : Nat) :
    ∀ i, (bits_value f n).testBit i = (decide (i < n) && decide (f i % 2 = 1)) := by
  induction n with
  | zero => intro i; simp [bits_value]
  | succ n ih =>
    intro i
    have hlt := bits_value_lt f n
    have hform : bits_value f (n + 1) = 2 ^ n * (f n % 2) + bits_value f n := by
      simp only [bits_value]
      rw [Nat.mul_comm, Nat.add_comm]
    rw [hform, Nat.testBit_mul_pow_two_add _ hlt]
    by_cases hi : i < n
    · rw [if_pos hi, ih]
      simp [hi, Nat.lt_succ_of_lt hi]
    · rw [if_neg hi]
      by_cases hin : i = n
      · subst hin
        simp [Nat.testBit_zero]
      · have h2 : ¬ i < n + 1 := by omega
        have hb : f n % 2 < 2 ^ 1 := Nat.mod_lt _ (by norm_num)
        have h3 : 1 ≤ i - n := by omega
        rw [Nat.testBit_lt_two_pow (Nat.lt_of_lt_of_le hb (Nat.pow_le_pow_right (by norm_num) h3))]
        simp [h2]

theorem bits_value_bit (f : Nat → Nat) (n i : Nat) (hi : i < n) :
    bits_value f n / 2 ^ i % 2 = f i % 2 := by
  have h := bits_value_testBit f n i
  rw [Nat.testBit_to_div_mod] at h
  have h1 : bits_value f n / 2 ^ i % 2 < 2 := Nat.mod_lt _ (by norm_num)
  have h2 : f i % 2 < 2 := Nat.mod_lt _ (by norm_num)
  simp only [hi, decide_True, Bool.true_and, decide_eq_decide] at h
  omega

theorem ext_getD (a b : List Nat) (hl : a.length = b.length)
    (h : ∀ i, i < a.length → a.getD i 0 = b.getD i 0) : a = b := by
  apply List.ext_getElem hl
  intro i h1 h2
  have := h i h1
  rw [List.getD_eq_getElem _ _ h1, List.getD_eq_getElem _ _ h2] at this
  exact this

/-- Encoding the byte that a buffer of bytes already carries changes nothing. -/
theorem encode_byte_to_lsb_decode (c : List Nat) (hc : c.length = 8) (hb : ∀ x ∈ c, x < 256) :
    encode_byte_to_lsb (decode_byte_from_lsb c) c = c := by
  apply ext_getD _ _ (encode_byte_to_lsb_length _ _)
  intro i hi
  rw [encode_byte_to_lsb_length, hc] at hi
  have hx : c.getD i 0 < 256 := by
    rw [List.getD_eq_getElem _ _ (by omega)]
    exact hb _ (List.getElem_mem _)
  rw [encode_byte_to_lsb_getD _ c i hi (by omega),
    Nat.mod_eq_of_lt (decode_byte_from_lsb_lt c), decode_byte_from_lsb_eq,
    bits_value_bit _ 8 i hi, Nat.mod_eq_of_lt hx]
  omega

/-- Encoding the integer that a buffer of bytes already carries changes
nothing. -/
theorem encode_size_to_lsb_decode (c : List Nat) (hc : c.length = 32)
    (hb : ∀ x ∈ c, x < 256) : encode_size_to_lsb (decode_size_from_lsb c) c = c := by
  apply ext_getD _ _ (encode_size_to_lsb_length _ _)
  intro i hi
  rw [encode_size_to_lsb_length, hc] at hi
  have hx : c.getD i 0 < 256 := by
    rw [List.getD_eq_getElem _ _ (by omega)]
    exact hb _ (List.getElem_mem _)
  rw [encode_size_to_lsb_getD _ c i hi (by omega), decode_size_from_lsb_eq,
    bits_value_bit _ 32 i hi, Nat.mod_eq_of_lt hx]
  omega

/-- A second call of `encode_byte_to_lsb` on the same buffer overwrites what
the first one stored. -/
theorem encode_byte_to_lsb_twice (b1 b2 : Nat) (c : List Nat) (hc : c.length = 8) :
    encode_byte_to_lsb b2 (encode_byte_to_lsb b1 c) = encode_byte_to_lsb b2 c := by
  apply ext_getD
  · rw [encode_byte_to_lsb_length, encode_byte_to_lsb_length, encode_byte_to_lsb_length]
  · intro i hi
    rw [encode_byte_to_lsb_length, encode_byte_to_lsb_length, hc] at hi
    rw [encode_byte_to_lsb_getD b2 _ i hi (by rw [encode_byte_to_lsb_length]; omega),
      encode_byte_to_lsb_getD b1 c i hi (by omega), encode_byte_to_lsb_getD b2 c i hi (by omega)]
    have h1 : b1 % 256 / 2 ^ i % 2 < 2 := Nat.mod_lt _ (by norm_num)
    have h2 : c.getD i 0 % 256 < 256 := Nat.mod_lt _ (by norm_num)
    omega

/-- C21 (bit layout of `encode_size_to_lsb`): for every `n`, in particular
the 32-bit two's-complement pattern of any `int` (positive, zero or
negative), and every buffer `c` of 32 carrier bytes, the buffer after the
call still has 32 bytes, and for each `i` in 0..31 bit 0 of entry `i` is bit
`i` of `n` (bit 0 in entry 0), the entry is a byte, and bits 1-7 of entry `i`
are those of `c[i]`. -/
theorem encode_size_to_lsb_postcondition (n : Nat) (c : List Nat) (hc : c.length = 32) :
    (encode_size_to_lsb n c).length = 32 ∧
      ∀ i, i < 32 →
        ((encode_size_to_lsb n c).getD i 0).testBit 0 = n.testBit i ∧
        ((encode_size_to_lsb n c).getD i 0) < 256 ∧
        ∀ k, 1 ≤ k → k ≤ 7 →
          ((encode_size_to_lsb n c).getD i 0).testBit k = (c.getD i 0).testBit k := by
  refine ⟨by rw [encode_size_to_lsb_length, hc], ?_⟩
  intro i hi
  rw [encode_size_to_lsb_getD n c i hi (by omega)]
  have hb : n / 2 ^ i % 2 < 2 := Nat.mod_lt _ (by norm_num)
  refine ⟨?_, ?_, ?_⟩
  · rw [testBit_zero_of_bit _ _ hb, Nat.testBit_to_div_mod]
  · have : c.getD i 0 % 256 < 256 := Nat.mod_lt _ (by norm_num)
    omega
  · intro k hk1 hk7
    exact high_bits_of_bit _ _ k hb hk1 hk7

theorem encode_size_to_lsb_postcondition_witness :
    (List.replicate 32 255).length = 32 ∧
      ((encode_size_to_lsb 4294967286 (List.replicate 32 255)).length = 32 ∧
        ∀ i, i < 32 →
          ((encode_size_to_lsb 4294967286 (List.replicate 32 255)).getD i 0).testBit 0 =
            (4294967286 : Nat).testBit i ∧
          ((encode_size_to_lsb 4294967286 (List.replicate 32 255)).getD i 0) < 256 ∧
          ∀ k, 1 ≤ k → k ≤ 7 →
            ((encode_size_to_lsb 4294967286 (List.replicate 32 255)).getD i 0).testBit k =
              ((List.replicate 32 255).getD i 0).testBit k) :=
  ⟨rfl, encode_size_to_lsb_postcondition 4294967286 (List.replicate 32 255) rfl⟩

/-- C23 (re-encoding what is already there is the identity): for every buffer
`c` of 8 carrier bytes `encode_byte_to_lsb (decode_byte_from_lsb c) c` is `c`,
and for every buffer `d` of 32 carrier bytes
`encode_size_to_lsb (decode_size_from_lsb d) d` is `d`. -/
theorem encode_decode_identity (c d : List Nat) (hc : c.length = 8) (hcb : ∀ x ∈ c, x < 256)
    (hd : d.length = 32) (hdb : ∀ x ∈ d, x < 256) :
    encode_byte_to_lsb (decode_byte_from_lsb c) c = c ∧
      encode_size_to_lsb (decode_size_from_lsb d) d = d :=
  ⟨encode_byte_to_lsb_decode c hc hcb, encode_size_to_lsb_decode d hd hdb⟩

theorem encode_decode_identity_witness :
    ([255, 254, 3, 0, 129, 77, 16, 1].length = 8 ∧
      (∀ x ∈ [255, 254, 3, 0, 129, 77, 16, 1], x < 256) ∧
      (List.replicate 16 254 ++ List.replicate 16 1).length = 32 ∧
      (∀ x ∈ List.replicate 16 254 ++ List.replicate 16 1, x < 256)) ∧
    encode_byte_to_lsb (decode_byte_from_lsb [255, 254, 3, 0, 129, 77, 16, 1])
        [255, 254, 3, 0, 129, 77, 16, 1] = [255, 254, 3, 0, 129, 77, 16, 1] ∧
      encode_size_to_lsb (decode_size_from_lsb (List.replicate 16 254 ++ List.replicate 16 1))
        (List.replicate 16 254 ++ List.replicate 16 1) =
          List.replicate 16 254 ++ List.replicate 16 1 :=
  ⟨⟨rfl, by decide, rfl, by decide⟩,
    encode_decode_identity [255, 254, 3, 0, 129, 77, 16, 1]
      (List.replicate 16 254 ++ List.replicate 16 1) rfl (by decide) rfl (by decide)⟩

/-- C24 (last write wins): for all `b1`, `b2` and every buffer `c` of 8
carrier bytes, encoding `b2` into the result of encoding `b1` into `c` gives
the same 8 bytes as encoding `b2` into `c`; in particular encoding the same
byte twice equals encoding it once. -/
theorem encode_byte_to_lsb_last_write_wins (b1 b2 : Nat) (c : List Nat) (hc : c.length = 8) :
    encode_byte_to_lsb b2 (encode_byte_to_lsb b1 c) = encode_byte_to_lsb b2 c ∧
      encode_byte_to_lsb b1 (encode_byte_to_lsb b1 c) = encode_byte_to_lsb b1 c :=
  ⟨encode_byte_to_lsb_twice b1 b2 c hc, encode_byte_to_lsb_twice b1 b1 c hc⟩

theorem encode_byte_to_lsb_last_write_wins_witness :
    [255, 254, 3, 0, 129, 77, 16, 1].length = 8 ∧
      (encode_byte_to_lsb 77 (encode_byte_to_lsb 200 [255, 254, 3, 0, 129, 77, 16, 1]) =
          encode_byte_to_lsb 77 [255, 254, 3, 0, 129, 77, 16, 1] ∧
        encode_byte_to_lsb 200 (encode_byte_to_lsb 200 [255, 254, 3, 0, 129, 77, 16, 1]) =
          encode_byte_to_lsb 200 [255, 254, 3, 0, 129, 77, 16, 1]) :=
  ⟨rfl, encode_byte_to_lsb_last_write_wins 200 77 [255, 254, 3, 0, 129, 77, 16, 1] rfl⟩

/-! ## Extraction, least-significant bits and stale memory (claim C25) -/

theorem lsb_bits_length (a : List Nat) : (lsb_bits a).length = a.length := by
  simp [lsb_bits]

theorem lsb_bits_getD (a : List Nat) (i : Nat) : (lsb_bits a).getD i 0 = a.getD i 0 % 2 := by
  unfold lsb_bits
  rw [List.getD_eq_getElem?_getD, List.getD_eq_getElem?_getD, List.getElem?_map]
  cases a[i]? <;> simp

theorem lsb_bits_length_eq (a b : List Nat) (h : lsb_bits a = lsb_bits b) :
    a.length = b.length := by
  rw [← lsb_bits_length a, h, lsb_bits_length]

theorem lsb_bits_append (a b : List Nat) : lsb_bits (a ++ b) = lsb_bits a ++ lsb_bits b := by
  simp [lsb_bits]

theorem lsb_bits_take (a : List Nat) (n : Nat) : lsb_bits (a.take n) = (lsb_bits a).take n := by
  simp [lsb_bits, List.map_take]

theorem lsb_bits_drop (a : List Nat) (n : Nat) : lsb_bits (a.drop n) = (lsb_bits a).drop n := by
  simp [lsb_bits, List.map_drop]

theorem lsb_bits_of_getD (a b : List Nat) (hl : a.length = b.length)
    (h : ∀ i, i < a.length → a.getD i 0 % 2 = b.getD i 0 % 2) : lsb_bits a = lsb_bits b := by
  apply ext_getD
  · rw [lsb_bits_length, lsb_bits_length, hl]
  · intro i hi
    rw [lsb_bits_length] at hi
    rw [lsb_bits_getD, lsb_bits_getD, h i hi]

theorem decode_byte_from_lsb_congr (a b : List Nat) (h : lsb_bits a = lsb_bits b) :
    decode_byte_from_lsb a = decode_byte_from_lsb b := by
  rw [decode_byte_from_lsb_eq, decode_byte_from_lsb_eq]
  apply bits_value_congr
  intro i _
  rw [← lsb_bits_getD, ← lsb_bits_getD, h]

theorem decode_size_from_lsb_congr (a b : List Nat) (h : lsb_bits a = lsb_bits b) :
    decode_size_from_lsb a = decode_size_from_lsb b := by
  rw [decode_size_from_lsb_eq, decode_size_from_lsb_eq]
  apply bits_value_congr
  intro i _
  rw [← lsb_bits_getD, ← lsb_bits_getD, h]

theorem fread_congr (p q : List Nat) (n : Nat) (s t : List Nat) (hp : lsb_bits p = lsb_bits q)
    (hs : lsb_bits s = lsb_bits t) :
    lsb_bits (fread p n s).1 = lsb_bits (fread q n t).1 ∧
      lsb_bits (fread p n s).2 = lsb_bits (fread q n t).2 := by
  have hl := lsb_bits_length_eq s t hs
  unfold fread
  simp only [lsb_bits_append, lsb_bits_take, lsb_bits_drop, List.length_take, hl, hp, hs,
    and_self]

theorem decode_data_loop_congr (n : Nat) :
    ∀ (i : Nat) (buffer s t p q : List Nat), lsb_bits s = lsb_bits t → lsb_bits p = lsb_bits q →
      (decode_data_loop n i buffer s p).1 = (decode_data_loop n i buffer t q).1 ∧
      (decode_data_loop n i buffer s p).2.1 = (decode_data_loop n i buffer t q).2.1 ∧
      lsb_bits (decode_data_loop n i buffer s p).2.2 =
        lsb_bits (decode_data_loop n i buffer t q).2.2 := by
  induction n with
  | zero =>
    intro i buffer s t p q hs _
    exact ⟨rfl, rfl, hs⟩
  | succ n ih =>
    intro i buffer s t p q hs hp
    have hl := lsb_bits_length_eq s t hs
    have hf := fread_congr p q 8 s t hp hs
    simp only [decode_data_loop]
    rw [hl]
    by_cases hshort : t.length < 8
    · rw [if_pos hshort, if_pos hshort]
      exact ⟨rfl, rfl, hf.2⟩
    · rw [if_neg hshort, if_neg hshort, decode_byte_from_lsb_congr _ _ hf.1]
      exact ih _ _ _ _ _ _ hf.2 hf.1

theorem decode_data_from_image_congr (buffer : List Nat) (size : Nat) (s t arr0 : List Nat)
    (hs : lsb_bits s = lsb_bits t) :
    (decode_data_from_image buffer size s arr0).1 = (decode_data_from_image buffer size t arr0).1 ∧
      (decode_data_from_image buffer size s arr0).2.1 =
        (decode_data_from_image buffer size t arr0).2.1 ∧
      lsb_bits (decode_data_from_image buffer size s arr0).2.2 =
        lsb_bits (decode_data_from_image buffer size t arr0).2.2 :=
  decode_data_loop_congr _ 0 buffer s t _ _ hs rfl

theorem decode_secret_file_data_loop_congr (n : Nat) :
    ∀ (s t p q : List Nat), lsb_bits s = lsb_bits t → lsb_bits p = lsb_bits q →
      decode_secret_file_data_loop n s p = decode_secret_file_data_loop n t q := by
  induction n with
  | zero => intro s t p q _ _; rfl
  | succ n ih =>
    intro s t p q hs hp
    have hf := fread_congr p q 8 s t hp hs
    simp only [decode_secret_file_data_loop]
    rw [decode_byte_from_lsb_congr _ _ hf.1, ih _ _ _ _ hf.2 hf.1]

theorem decode_magic_string_congr (M : List Nat) (v : DecodeIndet) (a b : List Nat)
    (h : lsb_bits (a.drop 54) = lsb_bits (b.drop 54)) :
    (decode_magic_string M v a).1 = (decode_magic_string M v b).1 ∧
      lsb_bits (decode_magic_string M v a).2 = lsb_bits (decode_magic_string M v b).2 := by
  have hd := decode_data_from_image_congr (local_array (strlen M + 1) v.magic_data)
    (to_uint (strlen M)) _ _ v.arr_magic h
  simp only [decode_magic_string]
  rw [hd.2.1]
  split
  · exact ⟨rfl, hd.2.2⟩
  · exact ⟨rfl, hd.2.2⟩

theorem decode_file_extn_size_congr (v : DecodeIndet) (s t : List Nat)
    (h : lsb_bits s = lsb_bits t) :
    (decode_file_extn_size v s).1 = (decode_file_extn_size v t).1 ∧
      (decode_file_extn_size v s).2.1 = (decode_file_extn_size v t).2.1 ∧
      lsb_bits (decode_file_extn_size v s).2.2 = lsb_bits (decode_file_extn_size v t).2.2 := by
  have hl := lsb_bits_length_eq s t h
  have hf := fread_congr (local_array 32 v.buffer_extn_size) (local_array 32 v.buffer_extn_size)
    32 s t rfl h
  simp only [decode_file_extn_size]
  rw [hl]
  by_cases hshort : t.length < 32
  · rw [if_pos hshort, if_pos hshort]
    exact ⟨rfl, rfl, hf.2⟩
  · rw [if_neg hshort, if_neg hshort]
    exact ⟨rfl, decode_size_from_lsb_congr _ _ hf.1, hf.2⟩

theorem decode_secret_file_extn_congr (file_extn : Nat) (v : DecodeIndet) (s t : List Nat)
    (h : lsb_bits s = lsb_bits t) :
    (decode_secret_file_extn file_extn v s).map Prod.fst =
        (decode_secret_file_extn file_extn v t).map Prod.fst ∧
      (decode_secret_file_extn file_extn v s).map (fun r => lsb_bits r.2) =
        (decode_secret_file_extn file_extn v t).map (fun r => lsb_bits r.2) := by
  have hd := decode_data_from_image_congr
    (local_array (loop_count file_extn + 1) v.extn_secret_file) file_extn s t v.arr_extn h
  simp only [decode_secret_file_extn]
  split
  · exact ⟨rfl, rfl⟩
  · simp only [Option.map_some', hd.2.1, hd.2.2, and_self]

theorem decode_secret_file_size_congr (v : DecodeIndet) (s t : List Nat)
    (h : lsb_bits s = lsb_bits t) :
    (decode_secret_file_size v s).1 = (decode_secret_file_size v t).1 ∧
      lsb_bits (decode_secret_file_size v s).2 = lsb_bits (decode_secret_file_size v t).2 := by
  have hf := fread_congr (local_array 32 v.arr_file_size) (local_array 32 v.arr_file_size)
    32 s t rfl h
  simp only [decode_secret_file_size]
  exact ⟨decode_size_from_lsb_congr _ _ hf.1, hf.2⟩

theorem decode_secret_file_data_congr (size : Nat) (v : DecodeIndet) (s t : List Nat)
    (h : lsb_bits s = lsb_bits t) :
    decode_secret_file_data size v s = decode_secret_file_data size v t :=
  decode_secret_file_data_loop_congr _ s t _ _ h rfl

/-- With the same indeterminate initial contents and the same surroundings,
`do_decoding` gives the same result on two stego images whose bytes from
offset 54 on have the same least-significant bits. -/
theorem do_decoding_congr (M : List Nat) (v : DecodeIndet) (env : DecodeEnv) (a b : List Nat)
    (h : lsb_bits (a.drop 54) = lsb_bits (b.drop 54)) :
    do_decoding M v env a = do_decoding M v env b := by
  have hm := decode_magic_string_congr M v a b h
  have hes := decode_file_extn_size_congr v _ _ hm.2
  have hex := decode_secret_file_extn_congr (decode_file_extn_size v (decode_magic_string M v a).2).2.1
    v _ _ hes.2.2
  simp only [do_decoding]
  rw [← hm.1, ← hes.1, ← hes.2.1]
  by_cases h0 : 50 ≤ strlen (given_name env.secret_fname)
  · rw [if_pos h0, if_pos h0]
  · rw [if_neg h0, if_neg h0]
    by_cases hw : env.fopen_wb (base_name env.secret_fname) = false
    · rw [if_pos hw, if_pos hw]
    · rw [if_neg hw, if_neg hw]
      by_cases h1 : (decode_magic_string M v a).1 = e_success
      · rw [if_pos h1, if_pos h1]
        by_cases h2 : (decode_file_extn_size v (decode_magic_string M v a).2).1 = e_success
        · rw [if_pos h2, if_pos h2]
          cases hA : decode_secret_file_extn
              (decode_file_extn_size v (decode_magic_string M v a).2).2.1 v
              (decode_file_extn_size v (decode_magic_string M v a).2).2.2 with
          | none =>
            rw [hA] at hex
            cases hB : decode_secret_file_extn
                (decode_file_extn_size v (decode_magic_string M v a).2).2.1 v
                (decode_file_extn_size v (decode_magic_string M v b).2).2.2 with
            | none => rfl
            | some y => rw [hB] at hex; simp at hex
          | some x =>
            rw [hA] at hex
            cases hB : decode_secret_file_extn
                (decode_file_extn_size v (decode_magic_string M v a).2).2.1 v
                (decode_file_extn_size v (decode_magic_string M v b).2).2.2 with
            | none => rw [hB] at hex; simp at hex
            | some y =>
              rw [hB] at hex
              simp only [Option.map_some', Option.some.injEq] at hex
              have hfs := decode_secret_file_size_congr v x.2 y.2 hex.2
              simp only
              rw [hex.1, hfs.1, decode_secret_file_data_congr _ v _ _ hfs.2]
        · rw [if_neg h2, if_neg h2]
      · rw [if_neg h1, if_neg h1]

/-- C25, the code at the failing input: the stego image `cut_before_extn` ends
right after the extension-length field, which declares 4 extension bytes;
`cut_before_extn_inverted` has the same length and the same bit 0 at every
offset from 54 on.  A run of `do_decoding` on the first whose locals start
out zeroed returns success with no output byte; a run on the second, and a
run on the first itself, whose locals start out with other contents returns
success with the output byte 7. -/
theorem do_decoding_depends_on_stale_memory :
    (cut_before_extn.length = cut_before_extn_inverted.length ∧
      ∀ i, i < cut_before_extn.length → 54 ≤ i →
        (cut_before_extn.getD i 0).testBit 0 =
          (cut_before_extn_inverted.getD i 0).testBit 0) ∧
    do_decoding magic_hash_star zero_decode_indet flat_directory cut_before_extn =
      some ⟨e_success, [], []⟩ ∧
    do_decoding magic_hash_star stale_decode_indet flat_directory cut_before_extn_inverted =
      some ⟨e_success, [], [7]⟩ ∧
    do_decoding magic_hash_star stale_decode_indet flat_directory cut_before_extn =
      some ⟨e_success, [], [7]⟩ := by
  set_option maxRecDepth 1000000 in decide

/-! ## The size of the frame (claim C22) -/

theorem encode_data_loop_snd (data : List Nat) (n : Nat) :
    ∀ (i : Nat) (src arr : List Nat), (encode_data_loop data n i src arr).2 = src.drop (8 * n) := by
  induction n with
  | zero => intro i src arr; rfl
  | succ n ih =>
    intro i src arr
    simp only [encode_data_loop]
    rw [ih]
    simp only [fread, List.drop_drop]
    congr 1
    omega

theorem encode_data_to_image_snd (data : List Nat) (size : Nat) (src arr0 : List Nat) :
    (encode_data_to_image data size src arr0).2 = src.drop (8 * loop_count size) :=
  encode_data_loop_snd data _ 0 src _

theorem encode_magic_string_snd (MAGIC_STRING src arr0 : List Nat) :
    (encode_magic_string MAGIC_STRING src arr0).2 =
      src.drop (8 * loop_count (to_uint (strlen MAGIC_STRING))) :=
  encode_data_to_image_snd _ _ _ _

theorem encode_secret_file_extn_snd (file_extn src arr0 : List Nat) :
    (encode_secret_file_extn file_extn src arr0).2 =
      src.drop (8 * loop_count (to_uint (strlen file_extn))) :=
  encode_data_to_image_snd _ _ _ _

theorem encode_secret_file_extn_size_snd (size : Nat) (src arr0 : List Nat) :
    (encode_secret_file_extn_size size src arr0).2 = src.drop 32 := rfl

theorem encode_secret_file_size_snd (file_size : Nat) (src arr0 : List Nat) :
    (encode_secret_file_size file_size src arr0).2 = src.drop 32 := rfl

theorem encode_secret_file_data_snd (secret : List Nat) (size : Nat)
    (src block0 arr0 : List Nat) :
    (encode_secret_file_data secret size src block0 arr0).2 = src.drop (8 * loop_count size) :=
  encode_data_to_image_snd _ _ _ _

/-- The layout of what a successful run of `do_encoding` writes, with what
follows the frame: the bytes of the source image that the frame did not
consume. -/
theorem do_encoding_layout_rest (MAGIC_STRING : List Nat) (u : EncodeIndet)
    (encInfo : EncodeInfo) (extn : List Nat)
    (hcap : check_capacity MAGIC_STRING u encInfo = e_success)
    (hext : strstr_dot encInfo.secret_fname = some extn) :
    ∃ hdr mg es ex fs dt rest,
      do_encoding MAGIC_STRING u encInfo =
        some (e_success, hdr ++ mg ++ es ++ ex ++ fs ++ dt ++ rest) ∧
      hdr.length = 54 ∧
      Carries (bytes_from MAGIC_STRING 0 (loop_count (to_uint (strlen MAGIC_STRING)))) mg ∧
      es.length = 32 ∧ decode_size_from_lsb es = to_uint (strlen extn) ∧
      Carries (bytes_from extn 0 (loop_count (to_uint (strlen extn)))) ex ∧
      fs.length = 32 ∧ decode_size_from_lsb fs = get_file_size encInfo.secret ∧
      Carries (bytes_from
        (fread (local_array (get_file_size encInfo.secret) u.block)
          (get_file_size encInfo.secret) encInfo.secret).1 0
        (loop_count (get_file_size encInfo.secret))) dt ∧
      rest = encInfo.src_image.drop
        (54 + 8 * (loop_count (to_uint (strlen MAGIC_STRING)) + 4
          + loop_count (to_uint (strlen extn)) + 4
          + loop_count (get_file_size encInfo.secret))) := by
  unfold do_encoding
  simp only [hcap, if_true, hext]
  refine ⟨_, _, _, _, _, _, _, rfl, copy_bmp_header_length _ _, ?_, ?_, ?_, ?_, ?_, ?_, ?_, ?_⟩
  · exact encode_data_to_image_carries _ _ _ _
  · rw [encode_secret_file_extn_size_eq]
    exact (encode_secret_file_size_fst _ _ _).1
  · rw [encode_secret_file_extn_size_eq, (encode_secret_file_size_fst _ _ _).2]
    unfold to_uint
    rw [Nat.mod_mod]
  · exact encode_data_to_image_carries _ _ _ _
  · exact (encode_secret_file_size_fst _ _ _).1
  · rw [(encode_secret_file_size_fst _ _ _).2]
    unfold get_file_size to_uint
    rw [Nat.mod_mod]
  · exact encode_data_to_image_carries _ _ _ _
  · simp only [copy_remaining_img_data, encode_secret_file_data_snd, encode_secret_file_size_snd,
      encode_secret_file_extn_snd, encode_secret_file_extn_size_snd, encode_magic_string_snd,
      copy_bmp_header_snd, List.drop_drop]
    congr 1
    omega

/-- C22, counterexample: for a secret file of 4294967297 bytes `do_encoding`
succeeds on a 10 by 10 carrier; the output has 354 bytes, fewer than the
`54 + 8 * (2 + 4 + 4 + 4 + 4294967297)` of the claim, and from offset
`54 + 8 * (2 + 4 + 4 + 4 + 1)` on it holds the unchanged bytes of the
carrier. -/
theorem do_encoding_frame_size_of_long_secret :
    (List.replicate 4294967297 65).length = 4294967297 ∧
      (do_encoding magic_hash_star zero_encode_indet
        ⟨carrier_10x10, List.replicate 4294967297 65, name_a_txt, dot_txt⟩).map
          (fun r => (r.1, r.2.length, r.2.drop (54 + 8 * (2 + 4 + 4 + 4 + 1)))) =
        some (e_success, 354, carrier_10x10.drop (54 + 8 * (2 + 4 + 4 + 4 + 1))) ∧
      354 < 54 + 8 * (strlen magic_hash_star + 4 + 4 + 4 + 4294967297) := by
  have h := do_encoding_of_long_secret (List.replicate 4294967297 65)
    (List.length_replicate _ _) (by rw [List.take_replicate]; rfl)
  refine ⟨List.length_replicate _ _, ?_, by decide⟩
  rw [h.2]
  set_option maxRecDepth 1000000 in decide

/-- C22, amended (frame size): for every successful embed of a secret file of
fewer than `2 ^ 31` bytes (the magic string and the file name being byte
strings shorter than `2 ^ 31 - 1`), the stego output is a 54-byte header,
then the frame, then the bytes of the source image from offset
`54 + 8 * (magic_len + 4 + ext_len + 4 + payload_len)` on, unchanged.  The
frame has exactly `8 * (magic_len + 4 + ext_len + 4 + payload_len)` bytes:
8 bytes for each byte of `MAGIC_STRING`, 32 bytes carrying the extension
length, 8 bytes for each byte of the extension, 32 bytes carrying the size of
the secret file and 8 bytes for each byte of the secret file. -/
theorem do_encoding_frame_size (MAGIC_STRING : List Nat) (u : EncodeIndet)
    (encInfo : EncodeInfo) (stego : List Nat)
    (hM : ∀ b ∈ MAGIC_STRING, b < 256) (hMl : strlen MAGIC_STRING < 2 ^ 31)
    (hN : ∀ b ∈ encInfo.secret_fname, b < 256)
    (hNl : strlen encInfo.secret_fname < 2 ^ 31 - 1)
    (hS : ∀ b ∈ encInfo.secret, b < 256) (hSl : encInfo.secret.length < 2 ^ 31)
    (hrun : do_encoding MAGIC_STRING u encInfo = some (e_success, stego)) :
    ∃ extn hdr mg es ex fs dt, strstr_dot encInfo.secret_fname = some extn ∧
      stego = hdr ++ (mg ++ es ++ ex ++ fs ++ dt) ++
        encInfo.src_image.drop
          (54 + 8 * (strlen MAGIC_STRING + 4 + extn.length + 4 + encInfo.secret.length)) ∧
      hdr.length = 54 ∧
      (mg ++ es ++ ex ++ fs ++ dt).length =
        8 * (strlen MAGIC_STRING + 4 + extn.length + 4 + encInfo.secret.length) ∧
      mg.length = 8 * strlen MAGIC_STRING ∧ lsb_bytes (strlen MAGIC_STRING) mg = cstr MAGIC_STRING ∧
      es.length = 32 ∧ lsb_value 32 es = extn.length ∧
      ex.length = 8 * extn.length ∧ lsb_bytes extn.length ex = extn ∧
      fs.length = 32 ∧ lsb_value 32 fs = encInfo.secret.length ∧
      dt.length = 8 * encInfo.secret.length ∧
      lsb_bytes encInfo.secret.length dt = encInfo.secret := by
  obtain ⟨hcap, extn, hext⟩ := do_encoding_success_inv MAGIC_STRING u encInfo stego hrun
  have hmem := strstr_dot_mem encInfo.secret_fname extn hext
  have hne : ∀ b ∈ extn, b ≠ 0 := fun b hb => cstr_ne_zero _ b (hmem b hb)
  have hby : ∀ b ∈ extn, b < 256 := fun b hb => hN b (cstr_mem _ b (hmem b hb))
  have hsl : strlen extn = extn.length := by
    unfold strlen
    rw [cstr_eq_self extn hne]
  have hle : extn.length ≤ strlen encInfo.secret_fname := by
    obtain ⟨p, hp⟩ := find_char_suffix 46 (cstr encInfo.secret_fname) extn hext
    unfold strlen
    rw [hp, List.length_append]
    omega
  have hc1 : loop_count (to_uint (strlen MAGIC_STRING)) = strlen MAGIC_STRING := by
    rw [to_uint_of_lt _ (by omega), loop_count_of_lt _ hMl]
  have hc2 : loop_count (to_uint (strlen extn)) = extn.length := by
    rw [hsl, to_uint_of_lt _ (by omega), loop_count_of_lt _ (by omega)]
  have hfs : get_file_size encInfo.secret = encInfo.secret.length :=
    to_uint_of_lt _ (by omega)
  have hc3 : loop_count (get_file_size encInfo.secret) = encInfo.secret.length := by
    rw [hfs, loop_count_of_lt _ hSl]
  obtain ⟨hdr, mg, es, ex, fs, dt, rest, hrun2, h1, h2, h3, h4, h5, h6, h7, h8, h9⟩ :=
    do_encoding_layout_rest MAGIC_STRING u encInfo extn hcap hext
  rw [hc1, hc2, hc3] at h9
  rw [hc1] at h2
  rw [hc2] at h5
  rw [hc3, encode_secret_file_data_buffer encInfo.secret u.block (by omega)] at h8
  have hst : stego = hdr ++ mg ++ es ++ ex ++ fs ++ dt ++ rest := by
    rw [hrun] at hrun2
    simp only [Option.some.injEq, Prod.mk.injEq, true_and] at hrun2
    exact hrun2
  have l1 := Carries_bytes_from_length _ _ _ _ h2
  have l2 := Carries_bytes_from_length _ _ _ _ h5
  have l3 := Carries_bytes_from_length _ _ _ _ h8
  have v1 := lsb_bytes_of_Carries_bytes_from _ mg [] _ _ h2
  have v2 := lsb_bytes_of_Carries_bytes_from _ ex [] _ _ h5
  have v3 := lsb_bytes_of_Carries_bytes_from _ dt [] _ _ h8
  rw [List.append_nil] at v1 v2 v3
  refine ⟨extn, hdr, mg, es, ex, fs, dt, hext, ?_, h1, ?_, l1, ?_, h3, ?_, l2, ?_, h6, ?_, l3, ?_⟩
  · rw [hst, h9]
    simp only [List.append_assoc]
  · simp only [List.length_append, l1, l2, l3, h3, h6]
    omega
  · rw [v1, bytes_from_cstr MAGIC_STRING hM]
  · rw [← decode_size_from_lsb_eq_lsb, h4, hsl, to_uint_of_lt _ (by omega)]
  · rw [v2, bytes_from_self extn hby]
  · rw [← decode_size_from_lsb_eq_lsb, h7, hfs]
  · rw [v3, bytes_from_self _ hS]

set_option maxRecDepth 1000000 in
theorem do_encoding_frame_size_witness :
    ((∀ b ∈ magic_hash_star, b < 256) ∧ strlen magic_hash_star < 2 ^ 31 ∧
      (∀ b ∈ ten_byte_info.secret_fname, b < 256) ∧
      strlen ten_byte_info.secret_fname < 2 ^ 31 - 1 ∧
      (∀ b ∈ ten_byte_info.secret, b < 256) ∧ ten_byte_info.secret.length < 2 ^ 31 ∧
      do_encoding magic_hash_star zero_encode_indet ten_byte_info =
        some (e_success, ten_byte_stego)) ∧
    ∃ extn hdr mg es ex fs dt, strstr_dot ten_byte_info.secret_fname = some extn ∧
      ten_byte_stego = hdr ++ (mg ++ es ++ ex ++ fs ++ dt) ++
        ten_byte_info.src_image.drop
          (54 + 8 * (strlen magic_hash_star + 4 + extn.length + 4
            + ten_byte_info.secret.length)) ∧
      hdr.length = 54 ∧
      (mg ++ es ++ ex ++ fs ++ dt).length =
        8 * (strlen magic_hash_star + 4 + extn.length + 4 + ten_byte_info.secret.length) ∧
      mg.length = 8 * strlen magic_hash_star ∧
      lsb_bytes (strlen magic_hash_star) mg = cstr magic_hash_star ∧
      es.length = 32 ∧ lsb_value 32 es = extn.length ∧
      ex.length = 8 * extn.length ∧ lsb_bytes extn.length ex = extn ∧
      fs.length = 32 ∧ lsb_value 32 fs = ten_byte_info.secret.length ∧
      dt.length = 8 * ten_byte_info.secret.length ∧
      lsb_bytes ten_byte_info.secret.length dt = ten_byte_info.secret :=
  ⟨⟨by decide, by decide, by decide, by decide, by decide, by decide, by decide⟩,
    do_encoding_frame_size magic_hash_star zero_encode_indet ten_byte_info ten_byte_stego
      (by decide) (by decide) (by decide) (by decide) (by decide) (by decide) (by decide)⟩

end Stego
